import Mathlib

/-!
Verification of the `ero-blockwheel-kv` core: a shallow embedding of the
manager state machine (`src/core/manager.rs`), the K-way merger
(`src/core/merger.rs`), the startup block scan (`load`) and the client
`Pid` retry loops, together with proofs of the specification's claims
about them.

Keys are byte strings, modelled as `List Nat`; versions are `u64`,
modelled as `Nat` (no arithmetic that can overflow is performed on
versions: they are only compared).  One-shot reply channels, sinks and
block references are modelled as opaque `Nat` identifiers.
-/

namespace BlockwheelKv

/-- `kv::ValueCell<V>`: a version together with an opaque cell payload
(the payload `V` never influences the control flow modelled here, so it
is an opaque `Nat`). -/
structure ValueCell where
  version : Nat
  cell : Nat
deriving DecidableEq, Repr

/-- `kv::KeyValuePair<V>`: a key together with its `ValueCell`. -/
structure KeyValuePair where
  key : List Nat
  value_cell : ValueCell
deriving DecidableEq, Repr

/-- Lexicographic byte-string comparison, as Rust's `Ord` on `Vec<u8>`
(`key_cur.key_bytes.cmp(&key_min.key_bytes)` in `merger.rs`). -/
def bytesCmp : List Nat → List Nat → Ordering
  | [], [] => .eq
  | [], _ :: _ => .lt
  | _ :: _, [] => .gt
  | a :: ta, b :: tb =>
    match compare a b with
    | .eq => bytesCmp ta tb
    | .lt => .lt
    | .gt => .gt

theorem bytesCmp_refl (l : List Nat) : bytesCmp l l = .eq := by
  induction l with
  | nil => rfl
  | cons a ta ih =>
    have h : compare a a = .eq := Nat.compare_eq_eq.mpr rfl
    simp [bytesCmp, h, ih]

theorem bytesCmp_eq_iff (a b : List Nat) : bytesCmp a b = .eq ↔ a = b := by
  constructor
  · intro h
    induction a generalizing b with
    | nil => cases b with
      | nil => rfl
      | cons _ _ => simp [bytesCmp] at h
    | cons x ta ih =>
      cases b with
      | nil => simp [bytesCmp] at h
      | cons y tb =>
        simp only [bytesCmp] at h
        rcases hxy : compare x y with _ | _ | _ <;> rw [hxy] at h
        · cases h
        · have hx : x = y := by
            have := Nat.compare_eq_eq.mp hxy
            exact this
          cases hx
          rw [ih tb h]
        · cases h
  · intro h; cases h; exact bytesCmp_refl a

theorem bytesCmp_swap (a b : List Nat) : (bytesCmp a b).swap = bytesCmp b a := by
  induction a generalizing b with
  | nil => cases b <;> rfl
  | cons x ta ih =>
    cases b with
    | nil => rfl
    | cons y tb =>
      simp only [bytesCmp]
      rcases hxy : compare x y with _ | _ | _
      · have : compare y x = .gt := by
          rw [Nat.compare_eq_gt]; rw [Nat.compare_eq_lt] at hxy; exact hxy
        rw [this]; rfl
      · have : compare y x = .eq := by
          rw [Nat.compare_eq_eq]; rw [Nat.compare_eq_eq] at hxy; omega
        rw [this]; exact ih tb
      · have : compare y x = .lt := by
          rw [Nat.compare_eq_lt]; rw [Nat.compare_eq_gt] at hxy; exact hxy
        rw [this]; rfl

/-- Transitivity data for `bytesCmp` via the strict order it induces. -/
def bytesLt (a b : List Nat) : Prop := bytesCmp a b = .lt

instance (a b : List Nat) : Decidable (bytesLt a b) := by
  unfold bytesLt; infer_instance

theorem bytesLt_trans {a b c : List Nat} (hab : bytesLt a b) (hbc : bytesLt b c) :
    bytesLt a c := by
  induction a generalizing b c with
  | nil =>
    cases b with
    | nil => cases hab
    | cons y tb =>
      cases c with
      | nil => cases hbc
      | cons z tc => rfl
  | cons x ta ih =>
    cases b with
    | nil => cases hab
    | cons y tb =>
      cases c with
      | nil => cases hbc
      | cons z tc =>
        simp only [bytesLt, bytesCmp] at hab hbc ⊢
        rcases hxy : compare x y with _ | _ | _ <;> rw [hxy] at hab
        · rcases hyz : compare y z with _ | _ | _ <;> rw [hyz] at hbc
          · have hxz : compare x z = .lt := by
              rw [Nat.compare_eq_lt] at hxy ⊢
              rw [Nat.compare_eq_lt] at hyz
              omega
            rw [hxz]
          · have hyz' : y = z := Nat.compare_eq_eq.mp hyz
            cases hyz'; rw [hxy]
          · cases hbc
        · have hxy' : x = y := Nat.compare_eq_eq.mp hxy
          cases hxy'
          rcases hyz : compare x z with _ | _ | _
          · rfl
          · rw [hyz] at hbc
            exact ih hab hbc
          · rw [hyz] at hbc
            simp at hbc
        · cases hab

theorem bytesCmp_gt_iff_lt (a b : List Nat) :
    bytesCmp a b = .gt ↔ bytesLt b a := by
  unfold bytesLt
  rw [← bytesCmp_swap a b]
  cases bytesCmp a b <;> simp [Ordering.swap]

theorem bytesLt_irrefl (a : List Nat) : ¬ bytesLt a a := by
  unfold bytesLt; rw [bytesCmp_refl]; simp

theorem bytesLt_asymm {a b : List Nat} (h : bytesLt a b) : ¬ bytesLt b a := by
  intro h'
  exact bytesLt_irrefl a (bytesLt_trans h h')

/-! ## Merger embedding (`src/core/merger.rs`) -/

/-- `core::KeyValueRef`: one element of a per-source key-value stream. -/
inductive KeyValueRef
  | noMore
  | blockFinish (block_ref : Nat)
  | item (key : List Nat) (value_cell : ValueCell)
deriving DecidableEq, Repr

/-- `merger::IterState`. -/
inductive IterState
  | notReady
  | frontItem (kv : KeyValuePair)
deriving DecidableEq, Repr

/-- `merger::KeyValuesIter`: the receiver channel is modelled as the list
of elements it will yield; the channel closing without a `NoMore` marker
(the `BackendIterPeerLost` case) is modelled by the list running out. -/
structure KeyValuesIter where
  stream : List KeyValueRef
  iter_state : IterState
  advance_next_idx : Option Nat
deriving DecidableEq, Repr

/-- `merger::KeyValuesIter::new`. -/
def KeyValuesIter.new (stream : List KeyValueRef) : KeyValuesIter :=
  { stream, iter_state := .notReady, advance_next_idx := none }

/-- `merger::ItersMerger`. -/
structure ItersMerger where
  iters : List KeyValuesIter
  advance_head_idx : Option Nat
deriving DecidableEq, Repr

/-- `merger::ItersMerger::new`. -/
def ItersMerger.new (iters : List KeyValuesIter) : ItersMerger :=
  { iters, advance_head_idx := none }

/-- `merger::Error`. -/
inductive MergerError
  | backendIterPeerLost
deriving DecidableEq, Repr

/-- Outcome of the inner `loop` of `next_with_deprecated` (merger.rs
lines 80-94) advancing a single `NotReady` iterator past `BlockFinish`
markers. -/
inductive AdvanceOutcome
  | peerLost
  | noMoreItems
  | front (kv : KeyValuePair) (rest : List KeyValueRef)
deriving DecidableEq, Repr

/-- The inner `loop` of `next_with_deprecated` on one iterator's channel:
`None` from the channel is a lost peer, `NoMore` ends the iterator,
`BlockFinish` is skipped, an `Item` becomes the front item. -/
def iterAdvance : List KeyValueRef → AdvanceOutcome
  | [] => .peerLost
  | .noMore :: _ => .noMoreItems
  | .blockFinish _ :: rest => iterAdvance rest
  | .item k vc :: rest => .front ⟨k, vc⟩ rest

/-- Rust's `Vec::swap_remove(i)`: replace element `i` by the last element
and pop the last element. -/
def swapRemove (l : List α) (i : Nat) : List α :=
  match l.getLast? with
  | none => l
  | some lastElem => (l.set i lastElem).dropLast

/-- Store a new `advance_next_idx` into iterator `i`
(`self.iters[cursor_idx].advance_next_idx = ...`). -/
def setAdvanceNext (iters : List KeyValuesIter) (i : Nat) (nxt : Option Nat) :
    List KeyValuesIter :=
  match iters[i]? with
  | none => iters
  | some it => iters.set i { it with advance_next_idx := nxt }

/-- Total number of stream elements held by the iterators; the
termination measure of the scan loop. -/
def itersWeight (iters : List KeyValuesIter) : Nat :=
  (iters.map (fun it => it.stream.length)).sum

theorem iterAdvance_noMoreItems_length {s : List KeyValueRef}
    (h : iterAdvance s = .noMoreItems) : 1 ≤ s.length := by
  cases s with
  | nil => simp [iterAdvance] at h
  | cons a t => simp

theorem iterAdvance_front_length {s rest : List KeyValueRef} {kv : KeyValuePair}
    (h : iterAdvance s = .front kv rest) : rest.length < s.length := by
  induction s with
  | nil => simp [iterAdvance] at h
  | cons a t ih =>
    cases a with
    | noMore => simp [iterAdvance] at h
    | blockFinish br =>
      simp only [iterAdvance] at h
      exact Nat.lt_trans (ih h) (Nat.lt_succ_self _)
    | item k vc =>
      simp only [iterAdvance] at h
      cases h
      exact Nat.lt_succ_self _

theorem sum_map_dropLast_add (f : α → Nat) (l : List α) (h : l ≠ []) :
    ((l.dropLast).map f).sum + f (l.getLast h) = (l.map f).sum := by
  conv_rhs => rw [← List.dropLast_append_getLast h]
  simp

theorem getLast_set_getLast (l : List α) (i : Nat) (hi : i < l.length)
    (h : l ≠ []) (h' : l.set i (l.getLast h) ≠ []) :
    (l.set i (l.getLast h)).getLast h' = l.getLast h := by
  rw [List.getLast_eq_getElem]
  simp only [List.length_set]
  rw [List.getElem_set]
  split
  · rfl
  · exact (List.getLast_eq_getElem l h).symm

theorem sum_map_set_add (f : α → Nat) (l : List α) (i : Nat) (hi : i < l.length) (a : α) :
    ((l.set i a).map f).sum + f (l.get ⟨i, hi⟩) = (l.map f).sum + f a := by
  induction l generalizing i with
  | nil => simp at hi
  | cons x t ih =>
    cases i with
    | zero => simp [List.set]; omega
    | succ j =>
      simp only [List.set, List.map_cons, List.sum_cons]
      have hj : j < t.length := by simpa using hi
      have := ih j hj
      simp only [List.get] at this ⊢
      omega

theorem swapRemove_eq (l : List α) (h : l ≠ []) (i : Nat) :
    swapRemove l i = (l.set i (l.getLast h)).dropLast := by
  unfold swapRemove
  rw [List.getLast?_eq_getLast l h]

theorem itersWeight_swapRemove_add (l : List KeyValuesIter) (i : Nat) (hi : i < l.length) :
    itersWeight (swapRemove l i) + (l.get ⟨i, hi⟩).stream.length = itersWeight l := by
  have hne : l ≠ [] := by
    intro h; subst h; simp at hi
  rw [swapRemove_eq l hne i]
  have hset_ne : l.set i (l.getLast hne) ≠ [] := by
    intro h
    have h0 : (l.set i (l.getLast hne)).length = 0 := by rw [h]; rfl
    rw [List.length_set] at h0
    omega
  unfold itersWeight
  have h1 := sum_map_dropLast_add (fun it => it.stream.length) (l.set i (l.getLast hne)) hset_ne
  have h2 := getLast_set_getLast l i hi hne hset_ne
  rw [h2] at h1
  have h3 := sum_map_set_add (fun it => it.stream.length) l i hi (l.getLast hne)
  simp only [] at h1 h3 ⊢
  omega

theorem length_swapRemove (l : List α) (i : Nat) (h : l ≠ []) :
    (swapRemove l i).length = l.length - 1 := by
  unfold swapRemove
  rw [List.getLast?_eq_getLast l h]
  simp

theorem itersWeight_set (l : List KeyValuesIter) (i : Nat) (hi : i < l.length)
    (a : KeyValuesIter) :
    itersWeight (l.set i a) + (l.get ⟨i, hi⟩).stream.length
      = itersWeight l + a.stream.length := by
  exact sum_map_set_add (fun it => it.stream.length) l i hi a

theorem itersWeight_setAdvanceNext (l : List KeyValuesIter) (i : Nat) (nxt : Option Nat) :
    itersWeight (setAdvanceNext l i nxt) = itersWeight l := by
  cases hg : l[i]? with
  | none => simp [setAdvanceNext, hg]
  | some it =>
    simp only [setAdvanceNext, hg]
    have hi : i < l.length := by
      by_contra hcon
      rw [List.getElem?_eq_none (by omega)] at hg
      cases hg
    have hit : l.get ⟨i, hi⟩ = it := by
      rw [List.getElem?_eq_getElem hi] at hg
      exact Option.some.inj hg
    have h := itersWeight_set l i hi { it with advance_next_idx := nxt }
    rw [hit] at h
    simp only [] at h ⊢
    omega

theorem length_setAdvanceNext (l : List KeyValuesIter) (i : Nat) (nxt : Option Nat) :
    (setAdvanceNext l i nxt).length = l.length := by
  cases hg : l[i]? <;> simp [setAdvanceNext, hg]

/-- The scan phase of `next_with_deprecated` (merger.rs lines 75-128):
walk `cursor_idx` over the iterator vector, refilling `NotReady`
iterators from their channels (removing exhausted ones with
`swap_remove`) and threading the advance set - a linked list through
`advance_next_idx` of all iterators whose front key equals the minimum
front key seen so far, headed by `advance_head_idx`.  `none` models a
panic (the `unreachable!` arm), `some (.error _)` the
`BackendIterPeerLost` early return. -/
def scanLoop (iters : List KeyValuesIter) (cursor : Nat) (head : Option Nat) :
    Option (Except MergerError (List KeyValuesIter × Option Nat)) :=
  if hc : cursor < iters.length then
    match hst : (iters.get ⟨cursor, hc⟩).iter_state with
    | .notReady =>
      match hadv : iterAdvance (iters.get ⟨cursor, hc⟩).stream with
      | .peerLost => some (.error .backendIterPeerLost)
      | .noMoreItems => scanLoop (swapRemove iters cursor) cursor head
      | .front kv rest =>
        scanLoop
          (iters.set cursor
            { stream := rest, iter_state := .frontItem kv,
              advance_next_idx := (iters.get ⟨cursor, hc⟩).advance_next_idx })
          cursor head
    | .frontItem kvCur =>
      match head with
      | none => scanLoop (setAdvanceNext iters cursor none) (cursor + 1) (some cursor)
      | some headIdx =>
        match iters[headIdx]? with
        | some { iter_state := .frontItem kvMin, .. } =>
          match bytesCmp kvCur.key kvMin.key with
          | .lt => scanLoop (setAdvanceNext iters cursor none) (cursor + 1) (some cursor)
          | .eq => scanLoop (setAdvanceNext iters cursor (some headIdx)) (cursor + 1) (some cursor)
          | .gt => scanLoop iters (cursor + 1) head
        | _ => none
  else
    some (.ok (iters, head))
termination_by itersWeight iters + (iters.length - cursor)
decreasing_by
  all_goals
    first
    | -- frontItem branches where only the advance links change: cursor advances
      (rw [itersWeight_setAdvanceNext, length_setAdvanceNext]; omega)
    | -- frontItem, greater key: nothing changes but the cursor
      omega
    | -- noMoreItems: element `cursor` (stream length at least 1) is swap-removed
      (have hne : iters ≠ [] := by intro hnil; subst hnil; simp at hc
       have h1 := itersWeight_swapRemove_add iters cursor hc
       have h2 := length_swapRemove iters cursor hne
       have h3 := iterAdvance_noMoreItems_length hadv
       omega)
    | -- front: the refilled iterator's stream became strictly shorter
      (have h1 := itersWeight_set iters cursor hc
         { stream := rest, iter_state := .frontItem kv,
           advance_next_idx := (iters.get ⟨cursor, hc⟩).advance_next_idx }
       have h2 := iterAdvance_front_length hadv
       simp only [] at h1
       have h3 : (iters.set cursor
         { stream := rest, iter_state := .frontItem kv,
           advance_next_idx := (iters.get ⟨cursor, hc⟩).advance_next_idx }).length
           = iters.length := by simp
       rw [h3]
       omega)

/-- The drain phase of `next_with_deprecated` (merger.rs lines 130-151):
follow the advance-set links from `advance_head_idx`, taking each linked
iterator's front item (its state reverts to `NotReady`); keep the item
with the strictly greater version, reporting the loser to the
`deprecated` callback (modelled as the `depr` accumulator, in call
order).  `fuel` bounds the link-chasing: the code's `while let` would
diverge only on a cyclic chain, which is impossible in reachable states;
running out of fuel or hitting a `NotReady` link (the code's
`unreachable!`) yields `none` (panic). -/
def drainLoop (iters : List KeyValuesIter) (head : Option Nat)
    (best : Option KeyValuePair) (depr : List KeyValuePair) :
    Nat → Option (List KeyValuesIter × Option KeyValuePair × List KeyValuePair)
  | 0 =>
    match head with
    | none => some (iters, best, depr)
    | some _ => none
  | fuel + 1 =>
    match head with
    | none => some (iters, best, depr)
    | some i =>
      match iters[i]? with
      | none => none
      | some it =>
        match it.iter_state with
        | .notReady => none
        | .frontItem front_item =>
          let iters' := iters.set i { it with iter_state := .notReady }
          match best with
          | none => drainLoop iters' it.advance_next_idx (some front_item) depr fuel
          | some prev_best =>
            if prev_best.value_cell.version < front_item.value_cell.version then
              drainLoop iters' it.advance_next_idx (some front_item)
                (depr ++ [prev_best]) fuel
            else
              drainLoop iters' it.advance_next_idx (some prev_best)
                (depr ++ [front_item]) fuel

/-- `merger::ItersMerger::next_with_deprecated`: the entry assertion,
the scan phase, then the drain phase.  Result: the new merger state, the
winning item (`None` when every iterator has finished) and the sequence
of deprecated items, or `Error::BackendIterPeerLost`; the outer `none`
models a panic. -/
def nextWithDeprecated (m : ItersMerger) :
    Option (Except MergerError (ItersMerger × Option KeyValuePair × List KeyValuePair)) :=
  match m.advance_head_idx with
  | some _ => none
  | none =>
    match scanLoop m.iters 0 none with
    | none => none
    | some (.error e) => some (.error e)
    | some (.ok (iters1, head1)) =>
      match drainLoop iters1 head1 none [] (iters1.length + 1) with
      | none => none
      | some (iters2, best, depr) =>
        some (.ok ({ iters := iters2, advance_head_idx := none }, best, depr))

/-! ## Manager embedding (`src/core/manager.rs`)

The busyloop is modelled as a step function over an explicit state.
One-shot reply channels, range bounds, shared item vectors, per-tree
stream handles and cache snapshots are opaque `Nat` identifiers: the
manager only moves them around.  The `o1::set::Set` tracker sets are
modelled as association lists paired with a fresh-reference counter. -/

/-- `Info` (lib.rs): counters folded with `AddAssign`. -/
structure Info where
  alive_cells_count : Nat
  tombstones_count : Nat
deriving DecidableEq, Repr

def Info.default : Info := ⟨0, 0⟩

/-- `impl AddAssign for Info` (lib.rs lines 227-232). -/
def Info.add (a b : Info) : Info :=
  ⟨a.alive_cells_count + b.alive_cells_count, a.tombstones_count + b.tombstones_count⟩

/-- `manager::LookupRequestButcherStatus`. -/
inductive ButcherStatus
  | notReady
  | done
  | invalidated
deriving DecidableEq, Repr

/-- `manager::InfoRequest`. -/
structure InfoRequest where
  reply_tx : Nat
  pending_count : Nat
  info_fold : Info
deriving DecidableEq, Repr

/-- `manager::LookupRequest`. -/
structure LookupRequest where
  key : List Nat
  reply_tx : Nat
  butcher_status : ButcherStatus
  pending_count : Nat
  found_fold : Option ValueCell
deriving DecidableEq, Repr

/-- `manager::LookupRangeRequest`: `butcher_iter_items` is the shared
vector handle, `merger_iters` the per-tree stream handles pushed so
far. -/
structure LookupRangeRequest where
  range : Nat
  key_values_tx : Nat
  butcher_iter_items : Nat
  merger_iters : List Nat
  pending_count : Nat
deriving DecidableEq, Repr

/-- `manager::FlushRequest`. -/
structure FlushRequest where
  butcher_done : Bool
  search_trees_pending_count : Nat
deriving DecidableEq, Repr

/-- `manager::replace_fold_found` (manager.rs lines 376-390). -/
def replace_fold_found : Option ValueCell → Option ValueCell → Bool
  | none, none => false
  | some _, none => false
  | none, some _ => true
  | some current, some incoming => decide (current.version < incoming.version)

/-- `search_tree::Mode`: a tree either replays a flushed memory cache or
is rooted at a persisted block. -/
inductive SearchTreeMode
  | regular (root_block : Nat)
  | cacheBootstrap (cache : Nat)
deriving DecidableEq, Repr

/-- `manager::SearchTreeRef` (manager.rs lines 1122-1126). -/
structure SearchTreeRef where
  items_count : Nat
  search_tree_ref : Nat
deriving DecidableEq, Repr

/-- Modelled from the spec: `bin_merger::BinMerger` - the TreeSizeHeap -
whose source (src/core/bin_merger.rs) is not among the provided files.
Spec section 4.2: a map from `bucket(items_count) = floor(log2 n)` to a
FIFO deque of tree refs; `push` inserts into its bucket; `pop` returns
`some (a, b)` iff some bucket holds at least two entries, taking the two
oldest from the most populated eligible bucket.  Entries are kept in
push order, tagged with their bucket. -/
structure BinMerger where
  entries : List (SearchTreeRef × Nat)
deriving DecidableEq, Repr

/-- `floor (log2 n)` via an explicit halving bound (so that it reduces
structurally); `log2fuel n n = Nat.log2 n`. -/
def log2fuel : Nat → Nat → Nat
  | 0, _ => 0
  | fuel + 1, n => if n ≤ 1 then 0 else 1 + log2fuel fuel (n / 2)

def bucketOf (n : Nat) : Nat := log2fuel n n

def BinMerger.new : BinMerger := ⟨[]⟩

def BinMerger.push (m : BinMerger) (item : SearchTreeRef) (items_count : Nat) : BinMerger :=
  ⟨m.entries ++ [(item, bucketOf items_count)]⟩

def BinMerger.bucketCount (m : BinMerger) (b : Nat) : Nat :=
  (m.entries.filter (fun e => e.2 == b)).length

def BinMerger.popBucket (m : BinMerger) : Option Nat :=
  ((m.entries.map Prod.snd).dedup.filter (fun b => 2 ≤ m.bucketCount b)).foldl
    (fun acc b =>
      match acc with
      | none => some b
      | some b0 => if m.bucketCount b0 < m.bucketCount b then some b else some b0)
    none

def BinMerger.pop (m : BinMerger) : Option ((SearchTreeRef × SearchTreeRef) × BinMerger) :=
  match m.popBucket with
  | none => none
  | some b =>
    match m.entries.filter (fun e => e.2 == b) with
    | e1 :: e2 :: _ => some ((e1.1, e2.1), ⟨(m.entries.erase e1).erase e2⟩)
    | _ => none

/-- Lookup in a tracker set (`o1::set::Set::get`). -/
def setGet (l : List (Nat × α)) (r : Nat) : Option α :=
  match l.find? (fun p => p.1 == r) with
  | none => none
  | some p => some p.2

/-- In-place update of a tracker entry (`get_mut` followed by field
mutation). -/
def setPut (l : List (Nat × α)) (r : Nat) (v : α) : List (Nat × α) :=
  l.map (fun p => if p.1 == r then (r, v) else p)

/-- Removal from a tracker set (`o1::set::Set::remove`). -/
def setRemove (l : List (Nat × α)) (r : Nat) : List (Nat × α) :=
  l.filter (fun p => p.1 != r)

/-- The tasks the manager dispatches (`manager::task::TaskArgs`,
restricted to the data the busyloop control flow reads back). -/
inductive TaskKind
  | infoButcher (request_ref : Nat)
  | infoSearchTree (request_ref : Nat) (tree : Nat)
  | insertButcher (key : List Nat) (value : Nat) (reply_tx : Nat)
  | removeButcher (key : List Nat) (reply_tx : Nat)
  | lookupButcher (request_ref : Nat) (key : List Nat)
  | lookupSearchTree (request_ref : Nat) (key : List Nat) (tree : Nat)
  | lookupRangeButcher (range : Nat) (key_values_tx : Nat)
  | lookupRangeSearchTree (request_ref : Nat) (range : Nat) (tree : Nat)
  | flushButcher (request_ref : Nat)
  | flushSearchTree (request_ref : Nat) (tree : Nat)
  | retrieveValue (key : List Nat) (found_fold : Option ValueCell) (reply_tx : Nat)
  | demolishSearchTree (tree : Nat)
  | mergeSearchTrees (search_tree_a_ref : Nat) (search_tree_b_ref : Nat)
  | mergeLookupRange (range : Nat) (key_values_tx : Nat) (butcher_iter_items : Nat)
      (merger_iters : List Nat)
deriving DecidableEq, Repr

/-- `manager::Mode` (busyloop-local). -/
inductive Mode
  | regular
  | flushing (done_reply_tx : Nat)
deriving DecidableEq, Repr

/-- The manager's busyloop-local state. -/
structure MgrState where
  info_requests : List (Nat × InfoRequest)
  info_next : Nat
  lookup_requests : List (Nat × LookupRequest)
  lookup_next : Nat
  lookup_range_requests : List (Nat × LookupRangeRequest)
  lookup_range_next : Nat
  flush_requests : List (Nat × FlushRequest)
  flush_next : Nat
  search_trees : List (Nat × SearchTreeMode)
  tree_next : Nat
  search_tree_refs : BinMerger
  tasks : List TaskKind
  bg_tasks : List TaskKind
  chan_next : Nat
  mode : Mode
deriving DecidableEq, Repr

/-- `manager::Request` (the client request channel). -/
inductive Request
  | info (reply_tx : Nat)
  | insert (key : List Nat) (value : Nat) (reply_tx : Nat)
  | lookup (key : List Nat) (reply_tx : Nat)
  | lookupRange (range : Nat) (reply_tx : Nat)
  | remove (key : List Nat) (reply_tx : Nat)
  | flushAll (reply_tx : Nat)
deriving DecidableEq, Repr

/-- `manager::task::TaskDone` together with the `Err` arm of a task
future: the payload a completed task hands back to the busyloop.  The
payloads (`found`, `info`, stream handles, the merge output) are
computed by the task bodies, which are external to the busyloop; they
are inputs of the step function. -/
inductive TaskResult
  | infoButcher (request_ref : Nat) (info : Info)
  | infoSearchTree (request_ref : Nat) (info : Info)
  | insertButcher
  | removeButcher
  | lookupButcher (request_ref : Nat) (found : Option ValueCell)
  | lookupSearchTree (request_ref : Nat) (found : Option ValueCell)
  | lookupRangeButcher (range : Nat) (key_values_tx : Nat) (iter_items : Nat)
  | lookupRangeSearchTree (request_ref : Nat) (items_rx : Nat)
  | mergeLookupRangeSuccess
  | mergeLookupRangeDeprecated (modified_range : Nat) (key_values_tx : Nat)
  | flushButcher (request_ref : Nat)
  | flushSearchTree (request_ref : Nat)
  | mergeSearchTrees (search_tree_a_ref : Nat) (search_tree_b_ref : Nat)
      (root_block : Nat) (items_count : Nat)
  | demolishSearchTree
  | retrieveValueSuccess
  | retrieveValueDeprecated (key : List Nat) (reply_tx : Nat)
  | err (e : Nat)
deriving DecidableEq, Repr

/-- Whether a completion payload can come from a given in-flight task. -/
def taskMatches : TaskKind → TaskResult → Bool
  | .infoButcher r, .infoButcher r' _ => r == r'
  | .infoSearchTree r _, .infoSearchTree r' _ => r == r'
  | .insertButcher .., .insertButcher => true
  | .removeButcher .., .removeButcher => true
  | .lookupButcher r _, .lookupButcher r' _ => r == r'
  | .lookupSearchTree r _ _, .lookupSearchTree r' _ => r == r'
  | .lookupRangeButcher rg tx, .lookupRangeButcher rg' tx' _ => rg == rg' && tx == tx'
  | .lookupRangeSearchTree r _ _, .lookupRangeSearchTree r' _ => r == r'
  | .flushButcher r, .flushButcher r' => r == r'
  | .flushSearchTree r _, .flushSearchTree r' => r == r'
  | .retrieveValue k f tx, .retrieveValueSuccess => true
  | .retrieveValue k f tx, .retrieveValueDeprecated k' tx' => k == k' && tx == tx'
  | .demolishSearchTree _, .demolishSearchTree => true
  | .mergeSearchTrees a b, .mergeSearchTrees a' b' _ _ => a == a' && b == b'
  | .mergeLookupRange rg tx _ _, .mergeLookupRangeSuccess => true
  | .mergeLookupRange rg tx _ _, .mergeLookupRangeDeprecated _ tx' => tx == tx'
  | _, .err _ => true
  | _, _ => false

/-- Observable effects of one busyloop iteration (sends on one-shot
reply channels). -/
inductive Output
  | flushedSent (tx : Nat)
  | infoSent (tx : Nat) (info : Info)
  | lookupRangeSent (tx : Nat) (key_values_rx : Nat)
deriving DecidableEq, Repr

/-- Result of one busyloop iteration: continue with a new state, clean
termination (a channel was depleted), or a fatal task error propagated
to the supervisor. -/
inductive StepOut
  | next (s : MgrState) (outs : List Output)
  | terminated
  | fatal (e : Nat)
deriving DecidableEq, Repr

/-- `manager::launch_lookup_request` (manager.rs lines 1086-1120):
register a fresh `LookupRequest` (`butcher_status = NotReady`,
`pending_count = 1 + |trees|`, empty fold) and dispatch a
`LookupButcher` plus one `LookupSearchTree` per tree.  Returns the new
tracker set, the bumped ref counter, and the dispatched tasks in push
order. -/
def launch_lookup_request (key : List Nat) (reply_tx : Nat)
    (lookup_requests : List (Nat × LookupRequest)) (lookup_next : Nat)
    (search_trees : List (Nat × SearchTreeMode)) :
    List (Nat × LookupRequest) × Nat × List TaskKind :=
  let request_ref := lookup_next
  ( lookup_requests ++
      [(request_ref,
        { key, reply_tx, butcher_status := .notReady,
          pending_count := 1 + search_trees.length, found_fold := none })],
    lookup_next + 1,
    .lookupButcher request_ref key ::
      search_trees.map (fun t => .lookupSearchTree request_ref key t.1) )

/-- `manager::maybe_merge_search_trees` (manager.rs lines 1128-1158):
pop a compatible pair from the TreeSizeHeap and build a `MergeSearchTrees`
task; `none` models the `unwrap` panic when a popped ref is not in the
tree set, `some (heap, none)` means the heap refused. -/
def maybe_merge_search_trees (search_tree_refs : BinMerger)
    (search_trees : List (Nat × SearchTreeMode)) :
    Option (BinMerger × Option TaskKind) :=
  match search_tree_refs.pop with
  | none => some (search_tree_refs, none)
  | some ((a, b), heap') =>
    match setGet search_trees a.search_tree_ref, setGet search_trees b.search_tree_ref with
    | some _, some _ =>
      some (heap', some (.mergeSearchTrees a.search_tree_ref b.search_tree_ref))
    | _, _ => none

/-- Handling of one client request (busyloop lines 724-814). -/
def handleRequest (s : MgrState) : Request → StepOut
  | .info reply_tx =>
    let request_ref := s.info_next
    .next { s with
      info_requests := s.info_requests ++
        [(request_ref,
          { reply_tx, pending_count := 1 + s.search_trees.length,
            info_fold := Info.default })],
      info_next := s.info_next + 1,
      tasks := s.tasks ++
        (.infoButcher request_ref ::
          s.search_trees.map (fun t => .infoSearchTree request_ref t.1)) } []
  | .insert key value reply_tx =>
    .next { s with tasks := s.tasks ++ [.insertButcher key value reply_tx] } []
  | .lookup key reply_tx =>
    let (reqs, nxt, ts) :=
      launch_lookup_request key reply_tx s.lookup_requests s.lookup_next s.search_trees
    .next { s with lookup_requests := reqs, lookup_next := nxt, tasks := s.tasks ++ ts } []
  | .lookupRange range reply_tx =>
    let key_values_chan := s.chan_next
    .next { s with
      chan_next := s.chan_next + 1,
      tasks := s.tasks ++ [.lookupRangeButcher range key_values_chan] }
      [.lookupRangeSent reply_tx key_values_chan]
  | .remove key reply_tx =>
    .next { s with tasks := s.tasks ++ [.removeButcher key reply_tx] } []
  | .flushAll reply_tx =>
    let request_ref := s.flush_next
    .next { s with
      flush_requests := s.flush_requests ++
        [(request_ref, { butcher_done := false, search_trees_pending_count := 0 })],
      flush_next := s.flush_next + 1,
      tasks := s.tasks ++ [.flushButcher request_ref],
      mode := .flushing reply_tx } []

/-- The per-entry effect of the invalidation loop of the `ButcherFlush`
handler (busyloop lines 694-709) on a lookup tracker entry. -/
def invalidateEntry (p : Nat × LookupRequest) : Nat × LookupRequest :=
  match p.2.butcher_status with
  | .notReady =>
    (p.1, { p.2 with
            butcher_status := .invalidated,
            pending_count := p.2.pending_count + 1 })
  | _ => p

/-- The tasks the invalidation loop pushes for one lookup tracker entry:
one `LookupSearchTree` against the newly attached tree iff the entry was
still `NotReady`. -/
def invalidateTasks (new_tree : Nat) (p : Nat × LookupRequest) : List TaskKind :=
  match p.2.butcher_status with
  | .notReady => [.lookupSearchTree p.1 p.2.key new_tree]
  | _ => []

/-- Handling of a `ButcherFlush{cache}` notification (busyloop lines
659-717): attach the flushed cache as a new cache-bootstrap SearchTree,
push it onto the TreeSizeHeap with `items_count = cache.len()`, attempt
one compaction, then invalidate every in-flight lookup whose butcher
reply is still pending, scheduling a `LookupSearchTree` against the new
tree for each and bumping its `pending_count`. -/
def handleFlushCache (s : MgrState) (cache_len : Nat) (cache : Nat) : Option StepOut :=
  let items_count := cache_len
  let search_tree_ref := s.tree_next
  let search_trees' := s.search_trees ++ [(search_tree_ref, .cacheBootstrap cache)]
  let refs' := s.search_tree_refs.push ⟨items_count, search_tree_ref⟩ items_count
  match maybe_merge_search_trees refs' search_trees' with
  | none => none
  | some (refs'', maybe_task) =>
    some (.next { s with
      search_trees := search_trees',
      tree_next := s.tree_next + 1,
      search_tree_refs := refs'',
      bg_tasks := s.bg_tasks ++ (match maybe_task with | none => [] | some t => [t]),
      lookup_requests := s.lookup_requests.map invalidateEntry,
      tasks := s.tasks ++
        (s.lookup_requests.map (invalidateTasks search_tree_ref)).join } [])

/-- The shared tail of the `Info` reply handlers (busyloop lines
816-829): decrement, fold, and reply when the fan-out is complete. -/
def handleInfoDone (s : MgrState) (request_ref : Nat) (info : Info) : Option StepOut :=
  match setGet s.info_requests request_ref with
  | none => none
  | some req =>
    if req.pending_count = 0 then none
    else
      let req' := { req with pending_count := req.pending_count - 1,
                             info_fold := req.info_fold.add info }
      if req'.pending_count = 0 then
        some (.next { s with info_requests := setRemove s.info_requests request_ref }
          [.infoSent req'.reply_tx req'.info_fold])
      else
        some (.next { s with info_requests := setPut s.info_requests request_ref req' } [])

/-- The shared tail of the lookup reply handlers (busyloop lines
850-861 and 871-882): store the updated tracker entry, or - when its
`pending_count` has reached zero - remove it and dispatch the single
`RetrieveValue` task carrying the request's key and final fold. -/
def finishLookup (s : MgrState) (request_ref : Nat) (req : LookupRequest) : Option StepOut :=
  if req.pending_count = 0 then
    some (.next { s with
      lookup_requests := setRemove s.lookup_requests request_ref,
      tasks := s.tasks ++ [.retrieveValue req.key req.found_fold req.reply_tx] } [])
  else
    some (.next { s with lookup_requests := setPut s.lookup_requests request_ref req } [])

/-- Handling of a completed task's payload (busyloop lines 816-1082).
`none` models a panicking `unwrap`, a failed `assert!` or an
`unreachable!`. -/
def handleDone (s : MgrState) : TaskResult → Option StepOut
  | .err e => some (.fatal e)
  | .infoButcher request_ref info => handleInfoDone s request_ref info
  | .infoSearchTree request_ref info => handleInfoDone s request_ref info
  | .insertButcher => some (.next s [])
  | .removeButcher => some (.next s [])
  | .lookupButcher request_ref found =>
    match setGet s.lookup_requests request_ref with
    | none => none
    | some req =>
      if req.pending_count = 0 then none
      else
        match req.butcher_status with
        | .done => none
        | .notReady =>
          let fold' := if replace_fold_found req.found_fold found then found
                       else req.found_fold
          finishLookup s request_ref
            { req with pending_count := req.pending_count - 1,
                       butcher_status := .done, found_fold := fold' }
        | .invalidated =>
          finishLookup s request_ref
            { req with pending_count := req.pending_count - 1 }
  | .lookupSearchTree request_ref found =>
    match setGet s.lookup_requests request_ref with
    | none => none
    | some req =>
      if req.pending_count = 0 then none
      else
        let fold' := if replace_fold_found req.found_fold found then found
                     else req.found_fold
        finishLookup s request_ref
          { req with pending_count := req.pending_count - 1, found_fold := fold' }
  | .lookupRangeButcher range key_values_tx iter_items =>
    if s.search_trees.isEmpty then
      some (.next { s with
        bg_tasks := s.bg_tasks ++ [.mergeLookupRange range key_values_tx iter_items []] } [])
    else
      let request_ref := s.lookup_range_next
      some (.next { s with
        lookup_range_requests := s.lookup_range_requests ++
          [(request_ref,
            { range, key_values_tx, butcher_iter_items := iter_items,
              merger_iters := [], pending_count := s.search_trees.length })],
        lookup_range_next := s.lookup_range_next + 1,
        tasks := s.tasks ++
          s.search_trees.map (fun t => .lookupRangeSearchTree request_ref range t.1) } [])
  | .lookupRangeSearchTree request_ref items_rx =>
    match setGet s.lookup_range_requests request_ref with
    | none => none
    | some req =>
      if req.pending_count = 0 then none
      else
        let req' := { req with pending_count := req.pending_count - 1,
                               merger_iters := req.merger_iters ++ [items_rx] }
        if req'.pending_count = 0 then
          some (.next { s with
            lookup_range_requests := setRemove s.lookup_range_requests request_ref,
            bg_tasks := s.bg_tasks ++
              [.mergeLookupRange req'.range req'.key_values_tx
                req'.butcher_iter_items req'.merger_iters] } [])
        else
          some (.next { s with
            lookup_range_requests := setPut s.lookup_range_requests request_ref req' } [])
  | .mergeLookupRangeSuccess => some (.next s [])
  | .mergeLookupRangeDeprecated modified_range key_values_tx =>
    some (.next { s with
      tasks := s.tasks ++ [.lookupRangeButcher modified_range key_values_tx] } [])
  | .flushButcher request_ref =>
    match s.mode with
    | .regular => none
    | .flushing _ =>
      match setGet s.flush_requests request_ref with
      | none => none
      | some req =>
        if req.butcher_done then none
        else if s.search_trees.isEmpty then
          some (.next { s with flush_requests := setRemove s.flush_requests request_ref } [])
        else
          some (.next { s with
            flush_requests := setPut s.flush_requests request_ref
              { butcher_done := true,
                search_trees_pending_count :=
                  req.search_trees_pending_count + s.search_trees.length },
            tasks := s.tasks ++
              s.search_trees.map (fun t => .flushSearchTree request_ref t.1) } [])
  | .flushSearchTree request_ref =>
    match s.mode with
    | .regular => none
    | .flushing _ =>
      match setGet s.flush_requests request_ref with
      | none => none
      | some req =>
        if !req.butcher_done then none
        else if req.search_trees_pending_count = 0 then none
        else if req.search_trees_pending_count - 1 = 0 then
          some (.next { s with flush_requests := setRemove s.flush_requests request_ref } [])
        else
          some (.next { s with
            flush_requests := setPut s.flush_requests request_ref
              { req with
                search_trees_pending_count := req.search_trees_pending_count - 1 } } [])
  | .mergeSearchTrees a_ref b_ref root_block items_count =>
    match setGet s.search_trees a_ref with
    | none => none
    | some _ =>
      let trees1 := setRemove s.search_trees a_ref
      match setGet trees1 b_ref with
      | none => none
      | some _ =>
        let trees2 := setRemove trees1 b_ref
        let new_ref := s.tree_next
        let trees3 := trees2 ++ [(new_ref, .regular root_block)]
        let refs' := s.search_tree_refs.push ⟨items_count, new_ref⟩ items_count
        match maybe_merge_search_trees refs' trees3 with
        | none => none
        | some (refs'', maybe_task) =>
          some (.next { s with
            search_trees := trees3,
            tree_next := s.tree_next + 1,
            search_tree_refs := refs'',
            tasks := s.tasks ++ [.demolishSearchTree a_ref, .demolishSearchTree b_ref],
            bg_tasks := s.bg_tasks ++
              (match maybe_task with | none => [] | some t => [t]) } [])
  | .demolishSearchTree => some (.next s [])
  | .retrieveValueSuccess => some (.next s [])
  | .retrieveValueDeprecated key reply_tx =>
    let (reqs, nxt, ts) :=
      launch_lookup_request key reply_tx s.lookup_requests s.lookup_next s.search_trees
    some (.next { s with lookup_requests := reqs, lookup_next := nxt,
                         tasks := s.tasks ++ ts } [])

/-- An event consumed by one busyloop iteration: a client request (or
its channel closing), a butcher flush notification (or its channel
closing), or the completion of the foreground/background task at a
given position of the respective in-flight list. -/
inductive Event
  | request (r : Option Request)
  | flushCache (c : Option (Nat × Nat))
  | fgTaskDone (i : Nat) (r : TaskResult)
  | bgTaskDone (i : Nat) (r : TaskResult)
deriving DecidableEq, Repr

/-- The mode-gated `select!` dispatch (busyloop lines 549-651): which
event sources one iteration polls, or - in `Flushing` with no task left -
the decision to acknowledge the flush instead of selecting. -/
inductive SelectPlan
  | poll (requests flush_cache fg_tasks bg_tasks : Bool)
  | ackAndContinue (done_reply_tx : Nat)
deriving DecidableEq, Repr

/-- Mirrors the `match mem::replace(&mut current_mode, Mode::Regular)`
branch structure, guards in source order. -/
def selectPlan (mode : Mode) (tasks_count bg_tasks_count : Nat) : SelectPlan :=
  match mode with
  | .regular =>
    if tasks_count = 0 then .poll true true false true
    else .poll true true true true
  | .flushing done_reply_tx =>
    if tasks_count + bg_tasks_count = 0 then .ackAndContinue done_reply_tx
    else if tasks_count = 0 then .poll false true false true
    else if bg_tasks_count = 0 then .poll false true true false
    else .poll false true true true

/-- Whether an event can be produced by the polled sources of a plan. -/
def eventPolled (e : Event) : SelectPlan → Bool
  | .ackAndContinue _ => false
  | .poll requests flush_cache fg_tasks bg_tasks =>
    match e with
    | .request _ => requests
    | .flushCache _ => flush_cache
    | .fgTaskDone _ _ => fg_tasks
    | .bgTaskDone _ _ => bg_tasks

/-- Dispatch of one selected event (the `match event` of the busyloop).
The completed task is removed from its in-flight list (the counter
decrements at lines 560, 575, 583, ...), checked against the payload,
and its payload handled. -/
def busystep (s : MgrState) : Event → Option StepOut
  | .request none => some .terminated
  | .request (some rq) => some (handleRequest s rq)
  | .flushCache none => some .terminated
  | .flushCache (some (cache, cache_len)) => handleFlushCache s cache_len cache
  | .fgTaskDone i r =>
    match s.tasks[i]? with
    | none => none
    | some t =>
      if taskMatches t r then handleDone { s with tasks := s.tasks.eraseIdx i } r
      else none
  | .bgTaskDone i r =>
    match s.bg_tasks[i]? with
    | none => none
    | some t =>
      if taskMatches t r then handleDone { s with bg_tasks := s.bg_tasks.eraseIdx i } r
      else none

/-- One busyloop iteration: compute the select plan from the current
mode and task counters; in the acknowledge branch consume no event, send
`Flushed` on the stored reply channel and switch back to `Regular`;
otherwise consume one event from a polled source. -/
def loopIter (s : MgrState) (ev : Option Event) : Option StepOut :=
  match selectPlan s.mode s.tasks.length s.bg_tasks.length, ev with
  | .ackAndContinue done_reply_tx, none =>
    some (.next { s with mode := .regular } [.flushedSent done_reply_tx])
  | .ackAndContinue _, some _ => none
  | .poll a b c d, some e =>
    if eventPolled e (.poll a b c d) then busystep s e else none
  | .poll _ _ _ _, none => none

/-! ## Startup block scan (`manager::load`, manager.rs lines 392-473) -/

/-- The outcome of `storage::block_deserialize_iter` plus the block
header's node type, for one scanned block.  The decoding itself is
external (`storage.rs`); its outcome per block is an input. -/
inductive BlockParse
  | invalidMagic (expected : Nat) (provided : Nat)
  | otherError (e : Nat)
  | root (tree_entries_count : Nat)
  | leaf
deriving DecidableEq, Repr

/-- `wheels::IterBlocksItem`: the stream of blocks at startup; the list
running out without a `NoMoreBlocks` marker models the sender dropping
the channel. -/
inductive IterBlocksItem
  | block (block_ref : Nat) (parse : BlockParse)
  | noMoreBlocks
deriving DecidableEq, Repr

/-- The state accumulated by `load` before entering the busyloop. -/
structure LoadState where
  search_trees : List (Nat × SearchTreeMode)
  tree_next : Nat
  search_tree_refs : BinMerger
  blocks_total : Nat
deriving DecidableEq, Repr

def LoadState.initial : LoadState :=
  { search_trees := [], tree_next := 0, search_tree_refs := BinMerger.new,
    blocks_total := 0 }

/-- `manager::Error` variants reachable from the load scan. -/
inductive LoadError
  | wheelsIterBlocksRxDropped
  | deserializeBlock (block_ref : Nat) (e : Nat)
deriving DecidableEq, Repr

/-- The block scan loop of `manager::load` (lines 412-462): count every
block; skip blocks with a foreign magic; for a `Root` header spawn a
regular-mode SearchTree rooted at the block and record it in the tree
set and the TreeSizeHeap with its entries count; ignore `Leaf` headers;
fail fatally on any other header error or on the stream dropping. -/
def load : List IterBlocksItem → LoadState → Except LoadError LoadState
  | [], _ => .error .wheelsIterBlocksRxDropped
  | .noMoreBlocks :: _, st => .ok st
  | .block block_ref parse :: rest, st =>
    let st := { st with blocks_total := st.blocks_total + 1 }
    match parse with
    | .invalidMagic _ _ => load rest st
    | .otherError e => .error (.deserializeBlock block_ref e)
    | .leaf => load rest st
    | .root tree_entries_count =>
      let search_tree_ref := st.tree_next
      load rest { st with
        search_trees := st.search_trees ++ [(search_tree_ref, .regular block_ref)],
        tree_next := st.tree_next + 1,
        search_tree_refs := st.search_tree_refs.push
          ⟨tree_entries_count, search_tree_ref⟩ tree_entries_count }

/-! ## Client-side `Pid` operations (manager.rs lines 203-321)

Every public operation (`info`, `insert`, `lookup`, `lookup_range`,
`remove`, `flush_all`) has the same shape: loop; send the request on the
bounded request channel (a send error becomes `NoProcError`, possibly
wrapped); await the one-shot reply; on `Ok` return it; on
`oneshot::Canceled` silently loop and re-send.  The environment's
behaviour for each attempt is an input: either the send fails, or the
manager drops the reply channel, or a reply value arrives. -/

/-- What the environment does to one iteration of a `Pid` request loop. -/
inductive AttemptOutcome
  | sendFail
  | canceled
  | replied (v : Nat)
deriving DecidableEq, Repr

/-- `NoProcError` (every per-operation error type wraps exactly this). -/
inductive PidError
  | noProc
deriving DecidableEq, Repr

/-- The request-retry loop shared by all six `Pid` operations.  Returns
`none` while the environment list is exhausted with the loop still
running (the operation is still awaiting). -/
def pidOpLoop : List AttemptOutcome → Option (Except PidError Nat)
  | [] => none
  | .sendFail :: _ => some (.error .noProc)
  | .canceled :: rest => pidOpLoop rest
  | .replied v :: _ => some (.ok v)

/-! ## Theorems -/

theorem pidOpLoop_canceled (env : List AttemptOutcome) :
    pidOpLoop (.canceled :: env) = pidOpLoop env := rfl

theorem pidOpLoop_error_iff (env : List AttemptOutcome) (e : PidError) :
    pidOpLoop env = some (.error e) ↔
      e = .noProc ∧
        (env.dropWhile (fun a => a == .canceled)).head? = some .sendFail := by
  induction env with
  | nil => simp [pidOpLoop]
  | cons a rest ih =>
    cases a with
    | sendFail =>
      cases e
      simp [pidOpLoop, List.dropWhile_cons,
        show (AttemptOutcome.sendFail == AttemptOutcome.canceled) = false from rfl]
    | canceled =>
      rw [pidOpLoop_canceled, ih]
      simp [List.dropWhile_cons,
        show (AttemptOutcome.canceled == AttemptOutcome.canceled) = true from rfl]
    | replied v =>
      simp [pidOpLoop, List.dropWhile_cons,
        show (AttemptOutcome.replied v == AttemptOutcome.canceled) = false from rfl]

theorem pidOpLoop_ok_iff (env : List AttemptOutcome) (v : Nat) :
    pidOpLoop env = some (.ok v) ↔
      (env.dropWhile (fun a => a == .canceled)).head? = some (.replied v) := by
  induction env with
  | nil => simp [pidOpLoop]
  | cons a rest ih =>
    cases a with
    | sendFail =>
      simp [pidOpLoop, List.dropWhile_cons,
        show (AttemptOutcome.sendFail == AttemptOutcome.canceled) = false from rfl]
    | canceled =>
      rw [pidOpLoop_canceled, ih]
      simp [List.dropWhile_cons,
        show (AttemptOutcome.canceled == AttemptOutcome.canceled) = true from rfl]
    | replied w =>
      simp [pidOpLoop, List.dropWhile_cons,
        show (AttemptOutcome.replied w == AttemptOutcome.canceled) = false from rfl]

/-- C9: every `Pid` operation retries silently on `oneshot::Canceled`
(a canceled attempt changes nothing), never surfaces a cancellation, and
returns an error - always `NoProcError` - exactly when the first attempt
the environment does not cancel fails at the send. -/
theorem pid_op_loop_retries_cancellation (env : List AttemptOutcome) (e : PidError) (v : Nat) :
    pidOpLoop (.canceled :: env) = pidOpLoop env
  ∧ (pidOpLoop env = some (.error e) ↔
      e = .noProc ∧
        (env.dropWhile (fun a => a == .canceled)).head? = some .sendFail)
  ∧ (pidOpLoop env = some (.ok v) ↔
      (env.dropWhile (fun a => a == .canceled)).head? = some (.replied v)) :=
  ⟨pidOpLoop_canceled env, pidOpLoop_error_iff env e, pidOpLoop_ok_iff env v⟩

/-- C8: one step of the startup block scan for each header outcome:
a foreign-magic block is skipped (only the block counter moves); a
`Root{tree_entries_count}` block adds exactly one regular-mode
SearchTree rooted at that block and pushes it onto the TreeSizeHeap with
its entries count; a `Leaf` block is ignored; any other header error
aborts the whole load with `Error::DeserializeBlock`; and the two stream
terminations behave as in the source. -/
theorem load_scan_cases (rest : List IterBlocksItem) (st : LoadState) (block_ref : Nat) :
    (∀ expected provided,
      load (.block block_ref (.invalidMagic expected provided) :: rest) st =
        load rest { st with blocks_total := st.blocks_total + 1 })
  ∧ (∀ n, load (.block block_ref (.root n) :: rest) st =
      load rest { st with
        blocks_total := st.blocks_total + 1,
        search_trees := st.search_trees ++ [(st.tree_next, .regular block_ref)],
        tree_next := st.tree_next + 1,
        search_tree_refs := st.search_tree_refs.push ⟨n, st.tree_next⟩ n })
  ∧ (load (.block block_ref .leaf :: rest) st =
      load rest { st with blocks_total := st.blocks_total + 1 })
  ∧ (∀ e, load (.block block_ref (.otherError e) :: rest) st =
      .error (.deserializeBlock block_ref e))
  ∧ load (.noMoreBlocks :: rest) st = .ok st
  ∧ load [] st = .error .wheelsIterBlocksRxDropped :=
  ⟨fun _ _ => rfl, fun _ => rfl, rfl, fun _ => rfl, rfl, rfl⟩

/-- C6: a `Deprecated` completion is retried, not surfaced: a
`RetrieveValue` task finishing with `DeprecatedResults{key, reply}`
re-runs the whole lookup - a fresh tracker with
`pending_count = 1 + |trees|`, a `LookupButcher` and one `LookupTree`
per current tree, reusing the original reply channel - and a
`MergeLookupRange` task finishing with
`DeprecatedResults{modified_range, sink}` re-dispatches
`LookupRangeButcher` with the modified range, carrying the same client
sink. -/
theorem deprecated_results_retry (s : MgrState) (key : List Nat)
    (reply_tx modified_range key_values_tx : Nat) :
    handleDone s (.retrieveValueDeprecated key reply_tx) =
      some (.next { s with
        lookup_requests := s.lookup_requests ++
          [(s.lookup_next,
            { key, reply_tx, butcher_status := .notReady,
              pending_count := 1 + s.search_trees.length, found_fold := none })],
        lookup_next := s.lookup_next + 1,
        tasks := s.tasks ++
          (.lookupButcher s.lookup_next key ::
            s.search_trees.map (fun t => .lookupSearchTree s.lookup_next key t.1)) } [])
  ∧ handleDone s (.mergeLookupRangeDeprecated modified_range key_values_tx) =
      some (.next { s with
        tasks := s.tasks ++ [.lookupRangeButcher modified_range key_values_tx] } []) :=
  ⟨rfl, rfl⟩

/-- C5: in `Flushing` mode with at least one foreground or background
task pending, the select plan never polls the client request channel (so
a request event is not consumed); the plan chooses the acknowledge
branch exactly when both task counters are zero; and that branch sends
`Flushed` on the stored reply channel and switches the mode back to
`Regular`, consuming no event. -/
theorem flushing_gates_requests (tx t b : Nat) (r : Option Request) (s : MgrState) :
    (0 < t + b → eventPolled (.request r) (selectPlan (.flushing tx) t b) = false)
  ∧ (selectPlan (.flushing tx) t b = .ackAndContinue tx ↔ t = 0 ∧ b = 0)
  ∧ (s.mode = .flushing tx → 0 < s.tasks.length + s.bg_tasks.length →
      loopIter s (some (.request r)) = none)
  ∧ (s.mode = .flushing tx → s.tasks.length + s.bg_tasks.length = 0 →
      loopIter s none =
        some (.next { s with mode := .regular } [.flushedSent tx])) := by
  refine ⟨?_, ?_, ?_, ?_⟩
  · intro hpos
    simp only [selectPlan]
    split
    · omega
    · split
      · rfl
      · split <;> rfl
  · simp only [selectPlan]
    split
    · simp; omega
    · split
      · simp; omega
      · split <;> simp <;> omega
  · intro hmode hpos
    have hplan : ∃ c d,
        selectPlan (Mode.flushing tx) s.tasks.length s.bg_tasks.length
          = .poll false true c d := by
      simp only [selectPlan]
      split
      · omega
      · split
        · exact ⟨false, true, rfl⟩
        · split
          · exact ⟨true, false, rfl⟩
          · exact ⟨true, true, rfl⟩
    obtain ⟨c, d, hplan⟩ := hplan
    simp [loopIter, hmode, hplan, eventPolled]
  · intro hmode hzero
    have hplan :
        selectPlan (Mode.flushing tx) s.tasks.length s.bg_tasks.length
          = .ackAndContinue tx := by
      simp only [selectPlan]
      rw [if_pos hzero]
    simp [loopIter, hmode, hplan]

/-- C1: an incoming lookup reply (from a search tree, or from the
butcher while the request is still `NotReady`) replaces the tracked
`found_fold` exactly when it is `Some` and either the fold is empty or
the incoming version is strictly greater; and when `pending_count`
reaches zero the tracker entry is removed and exactly one
`RetrieveValue` task is dispatched with the request's key and the final
fold. -/
theorem lookup_reply_folds_best (s : MgrState) (request_ref : Nat) (req : LookupRequest)
    (found : Option ValueCell)
    (hget : setGet s.lookup_requests request_ref = some req)
    (hpos : 0 < req.pending_count) :
    (∀ current incoming, replace_fold_found current incoming = true ↔
      ∃ vc, incoming = some vc ∧
        (current = none ∨ ∃ cur, current = some cur ∧ cur.version < vc.version))
  ∧ (handleDone s (.lookupSearchTree request_ref found) =
      (if req.pending_count = 1 then
        some (.next { s with
          lookup_requests := setRemove s.lookup_requests request_ref,
          tasks := s.tasks ++
            [.retrieveValue req.key
              (if replace_fold_found req.found_fold found then found else req.found_fold)
              req.reply_tx] } [])
      else
        some (.next { s with
          lookup_requests := setPut s.lookup_requests request_ref
            { req with
              pending_count := req.pending_count - 1,
              found_fold :=
                if replace_fold_found req.found_fold found then found
                else req.found_fold } } [])))
  ∧ (req.butcher_status = .notReady →
      handleDone s (.lookupButcher request_ref found) =
      (if req.pending_count = 1 then
        some (.next { s with
          lookup_requests := setRemove s.lookup_requests request_ref,
          tasks := s.tasks ++
            [.retrieveValue req.key
              (if replace_fold_found req.found_fold found then found else req.found_fold)
              req.reply_tx] } [])
      else
        some (.next { s with
          lookup_requests := setPut s.lookup_requests request_ref
            { req with
              butcher_status := .done,
              pending_count := req.pending_count - 1,
              found_fold :=
                if replace_fold_found req.found_fold found then found
                else req.found_fold } } []))) := by
  refine ⟨?_, ?_, ?_⟩
  · intro current incoming
    cases current with
    | none =>
      cases incoming with
      | none => simp [replace_fold_found]
      | some vc => simp [replace_fold_found]
    | some cur =>
      cases incoming with
      | none => simp [replace_fold_found]
      | some vc => simp [replace_fold_found]
  · simp only [handleDone, hget]
    rw [if_neg (by omega)]
    simp only [finishLookup]
    by_cases h1 : req.pending_count = 1
    · rw [if_pos (by omega), if_pos h1]
    · rw [if_neg (by omega), if_neg h1]
  · intro hstatus
    simp only [handleDone, hget]
    rw [if_neg (by omega)]
    rw [hstatus]
    simp only [finishLookup]
    by_cases h1 : req.pending_count = 1
    · rw [if_pos (by omega), if_pos h1]
    · rw [if_neg (by omega), if_neg h1]

/-- C2: a `ButcherFlush` flips every `NotReady` in-flight lookup to
`Invalidated`, schedules exactly one `LookupSearchTree` task for it
against the newly attached tree (bumping its `pending_count` by one),
and leaves every other lookup entry unchanged; a butcher reply arriving
for an `Invalidated` request decrements `pending_count` but is not
folded. -/
theorem butcher_flush_invalidates_lookups (s : MgrState) (cache cache_len : Nat)
    (s' : MgrState) (outs : List Output)
    (h : handleFlushCache s cache_len cache = some (.next s' outs)) :
    s'.lookup_requests = s.lookup_requests.map invalidateEntry
  ∧ (∀ p ∈ s.lookup_requests,
      invalidateEntry p =
        (if p.2.butcher_status = .notReady then
          (p.1, { p.2 with
                  butcher_status := .invalidated,
                  pending_count := p.2.pending_count + 1 })
        else p))
  ∧ s'.tasks = s.tasks ++ (s.lookup_requests.map (invalidateTasks s.tree_next)).join
  ∧ (∀ p ∈ s.lookup_requests,
      invalidateTasks s.tree_next p =
        (if p.2.butcher_status = .notReady then
          [TaskKind.lookupSearchTree p.1 p.2.key s.tree_next]
        else []))
  ∧ s'.search_trees = s.search_trees ++ [(s.tree_next, .cacheBootstrap cache)]
  ∧ (∀ request_ref req found,
      setGet s'.lookup_requests request_ref = some req →
      req.butcher_status = .invalidated → 0 < req.pending_count →
      handleDone s' (.lookupButcher request_ref found) =
        (if req.pending_count = 1 then
          some (.next { s' with
            lookup_requests := setRemove s'.lookup_requests request_ref,
            tasks := s'.tasks ++ [.retrieveValue req.key req.found_fold req.reply_tx] } [])
        else
          some (.next { s' with
            lookup_requests := setPut s'.lookup_requests request_ref
              { req with pending_count := req.pending_count - 1 } } []))) := by
  simp only [handleFlushCache] at h
  cases hmm : maybe_merge_search_trees
      (s.search_tree_refs.push ⟨cache_len, s.tree_next⟩ cache_len)
      (s.search_trees ++ [(s.tree_next, .cacheBootstrap cache)]) with
  | none => rw [hmm] at h; cases h
  | some pair =>
    obtain ⟨refs'', maybe_task⟩ := pair
    rw [hmm] at h
    simp only [] at h
    cases h
    refine ⟨rfl, ?_, rfl, ?_, rfl, ?_⟩
    · intro p _
      cases hbs : p.2.butcher_status <;> simp [invalidateEntry, hbs]
    · intro p _
      cases hbs : p.2.butcher_status <;> simp [invalidateTasks, hbs]
    intro request_ref req found hget hstatus hpos
    simp only [handleDone, hget]
    rw [if_neg (by omega)]
    rw [hstatus]
    simp only [finishLookup]
    by_cases h1 : req.pending_count = 1
    · rw [if_pos (by omega), if_pos h1]
    · rw [if_neg (by omega), if_neg h1]

/-- An empty busyloop state (no trackers, no trees, no tasks). -/
def emptyMgr : MgrState :=
  { info_requests := [], info_next := 0, lookup_requests := [], lookup_next := 0,
    lookup_range_requests := [], lookup_range_next := 0, flush_requests := [],
    flush_next := 0, search_trees := [], tree_next := 0,
    search_tree_refs := BinMerger.new, tasks := [], bg_tasks := [], chan_next := 0,
    mode := .regular }

def c1req : LookupRequest :=
  { key := [1], reply_tx := 7, butcher_status := .notReady, pending_count := 1,
    found_fold := none }

def c1s : MgrState := { emptyMgr with lookup_requests := [(0, c1req)] }

theorem lookup_reply_folds_best_witness :
    setGet c1s.lookup_requests 0 = some c1req
  ∧ 0 < c1req.pending_count
  ∧ handleDone c1s (.lookupSearchTree 0 (some ⟨3, 9⟩)) =
      some (.next { c1s with
        lookup_requests := setRemove c1s.lookup_requests 0,
        tasks := c1s.tasks ++ [.retrieveValue [1] (some ⟨3, 9⟩) 7] } []) := by
  refine ⟨rfl, by decide, ?_⟩
  have h := (lookup_reply_folds_best c1s 0 c1req (some ⟨3, 9⟩) rfl (by decide)).2.1
  rw [h]
  decide

def c2reqa : LookupRequest :=
  { key := [2], reply_tx := 4, butcher_status := .done, pending_count := 1,
    found_fold := none }

def c2reqb : LookupRequest :=
  { key := [3], reply_tx := 5, butcher_status := .notReady, pending_count := 2,
    found_fold := none }

def c2s : MgrState := { emptyMgr with lookup_requests := [(0, c2reqa), (1, c2reqb)] }

def c2after : MgrState :=
  { emptyMgr with
    lookup_requests :=
      [(0, c2reqa),
       (1, { key := [3], reply_tx := 5, butcher_status := .invalidated,
             pending_count := 3, found_fold := none })],
    search_trees := [(0, .cacheBootstrap 11)],
    tree_next := 1,
    search_tree_refs := ⟨[(⟨5, 0⟩, 2)]⟩,
    tasks := [.lookupSearchTree 1 [3] 0] }

theorem butcher_flush_invalidates_lookups_witness :
    handleFlushCache c2s 5 11 = some (.next c2after [])
  ∧ c2after.lookup_requests = c2s.lookup_requests.map invalidateEntry
  ∧ c2after.tasks = c2s.tasks ++ (c2s.lookup_requests.map (invalidateTasks c2s.tree_next)).join
  ∧ c2after.search_trees = c2s.search_trees ++ [(c2s.tree_next, .cacheBootstrap 11)] := by
  have hflush : handleFlushCache c2s 5 11 = some (.next c2after []) := by decide
  have h := butcher_flush_invalidates_lookups c2s 11 5 c2after [] hflush
  exact ⟨hflush, h.1, h.2.2.1, h.2.2.2.2.1⟩

def c5s : MgrState := { emptyMgr with mode := .flushing 1 }

theorem flushing_gates_requests_witness :
    eventPolled (.request none) (selectPlan (.flushing 1) 1 0) = false
  ∧ loopIter c5s none = some (.next { c5s with mode := .regular } [.flushedSent 1]) :=
  ⟨(flushing_gates_requests 1 1 0 none c5s).1 (by decide),
   (flushing_gates_requests 1 1 0 none c5s).2.2.2 rfl rfl⟩

theorem pid_op_loop_retries_cancellation_witness :
    pidOpLoop [.canceled, .sendFail] = pidOpLoop [.sendFail]
  ∧ pidOpLoop [.canceled, .sendFail] = some (.error .noProc)
  ∧ pidOpLoop [.canceled, .replied 3] = some (.ok 3) := by
  refine ⟨(pid_op_loop_retries_cancellation [.sendFail] .noProc 3).1, ?_, ?_⟩
  · exact (pid_op_loop_retries_cancellation [.canceled, .sendFail] .noProc 3).2.1.mpr
      (by decide)
  · exact (pid_op_loop_retries_cancellation [.canceled, .replied 3] .noProc 3).2.2.mpr
      (by decide)

/-! ## The pending-count accounting invariant (C4) -/

/-- The info tracker entry a task's eventual result will be folded
into. -/
def infoRefOf : TaskKind → Option Nat
  | .infoButcher r => some r
  | .infoSearchTree r _ => some r
  | _ => none

/-- The lookup tracker entry a task's eventual result will be folded
into. -/
def lookupRefOf : TaskKind → Option Nat
  | .lookupButcher r _ => some r
  | .lookupSearchTree r _ _ => some r
  | _ => none

/-- The lookup-range tracker entry a task's eventual result will be
folded into. -/
def lrRefOf : TaskKind → Option Nat
  | .lookupRangeSearchTree r _ _ => some r
  | _ => none

/-- How many in-flight tasks of `ts` owe a result to tracker entry `r`
(under the given ref projection). -/
def owedCount (ts : List TaskKind) (f : TaskKind → Option Nat) (r : Nat) : Nat :=
  (ts.filter (fun t => f t == some r)).length

/-- Results still owed to entry `r` across foreground and background
in-flight tasks. -/
def owed (s : MgrState) (f : TaskKind → Option Nat) (r : Nat) : Nat :=
  owedCount s.tasks f r + owedCount s.bg_tasks f r

/-- Invariant 2 of the spec, plus the bookkeeping that makes it
inductive: every tracker entry's `pending_count` equals the number of
task results still owed to it, tracker refs are below the allocator
counter and distinct, and no in-flight task references an unallocated
ref. -/
structure PendingInv (s : MgrState) : Prop where
  info_pending : ∀ p ∈ s.info_requests, p.2.pending_count = owed s infoRefOf p.1
  lookup_pending : ∀ p ∈ s.lookup_requests, p.2.pending_count = owed s lookupRefOf p.1
  lr_pending : ∀ p ∈ s.lookup_range_requests, p.2.pending_count = owed s lrRefOf p.1
  info_entry_lt : ∀ p ∈ s.info_requests, p.1 < s.info_next
  lookup_entry_lt : ∀ p ∈ s.lookup_requests, p.1 < s.lookup_next
  lr_entry_lt : ∀ p ∈ s.lookup_range_requests, p.1 < s.lookup_range_next
  info_task_lt : ∀ t ∈ s.tasks ++ s.bg_tasks, ∀ r, infoRefOf t = some r → r < s.info_next
  lookup_task_lt : ∀ t ∈ s.tasks ++ s.bg_tasks, ∀ r, lookupRefOf t = some r → r < s.lookup_next
  lr_task_lt : ∀ t ∈ s.tasks ++ s.bg_tasks, ∀ r, lrRefOf t = some r → r < s.lookup_range_next
  info_nodup : (s.info_requests.map Prod.fst).Nodup
  lookup_nodup : (s.lookup_requests.map Prod.fst).Nodup
  lr_nodup : (s.lookup_range_requests.map Prod.fst).Nodup
  bg_noRef : ∀ t ∈ s.bg_tasks,
    infoRefOf t = none ∧ lookupRefOf t = none ∧ lrRefOf t = none

theorem owedCount_nil (f : TaskKind → Option Nat) (r : Nat) : owedCount [] f r = 0 := rfl

theorem owedCount_append (ts us : List TaskKind) (f : TaskKind → Option Nat) (r : Nat) :
    owedCount (ts ++ us) f r = owedCount ts f r + owedCount us f r := by
  unfold owedCount
  rw [List.filter_append, List.length_append]

theorem owedCount_cons (t : TaskKind) (ts : List TaskKind) (f : TaskKind → Option Nat)
    (r : Nat) :
    owedCount (t :: ts) f r
      = (if f t = some r then 1 else 0) + owedCount ts f r := by
  unfold owedCount
  rw [List.filter_cons]
  by_cases h : f t = some r
  · rw [if_pos h, if_pos (by simp [h])]
    simp [Nat.add_comm]
  · rw [if_neg h, if_neg (by simp [h])]
    simp

theorem owedCount_eraseIdx (ts : List TaskKind) (i : Nat) (t : TaskKind)
    (h : ts[i]? = some t) (f : TaskKind → Option Nat) (r : Nat) :
    owedCount ts f r
      = owedCount (ts.eraseIdx i) f r + (if f t = some r then 1 else 0) := by
  induction ts generalizing i with
  | nil => simp at h
  | cons u us ih =>
    cases i with
    | zero =>
      simp only [List.getElem?_cons_zero] at h
      cases h
      rw [List.eraseIdx_cons_zero, owedCount_cons]
      omega
    | succ j =>
      simp only [List.getElem?_cons_succ] at h
      rw [List.eraseIdx_cons_succ, owedCount_cons, owedCount_cons, ih j h]
      omega

theorem owedCount_all_none (ts : List TaskKind) (f : TaskKind → Option Nat) (r : Nat)
    (h : ∀ t ∈ ts, f t = none) : owedCount ts f r = 0 := by
  induction ts with
  | nil => rfl
  | cons u us ih =>
    rw [owedCount_cons, if_neg (by rw [h u (by simp)]; simp)]
    simp only [Nat.zero_add]
    exact ih (fun t ht => h t (by simp [ht]))

theorem owedCount_all_ref (ts : List TaskKind) (f : TaskKind → Option Nat) (x r : Nat)
    (h : ∀ t ∈ ts, f t = some x) :
    owedCount ts f r = if r = x then ts.length else 0 := by
  induction ts with
  | nil => simp [owedCount_nil]
  | cons u us ih =>
    rw [owedCount_cons, h u (by simp), ih (fun t ht => h t (by simp [ht]))]
    by_cases hrx : r = x
    · subst hrx; simp; omega
    · rw [if_neg (by simp; omega), if_neg hrx, if_neg hrx]

theorem setGet_mem (l : List (Nat × α)) (r : Nat) (v : α) (h : setGet l r = some v) :
    (r, v) ∈ l := by
  unfold setGet at h
  cases hf : l.find? (fun p => p.1 == r) with
  | none => rw [hf] at h; cases h
  | some p =>
    rw [hf] at h
    have hp := List.find?_some hf
    have hmem := List.mem_of_find?_eq_some hf
    cases h
    have : p.1 = r := by simpa using hp
    cases p with
    | mk a b =>
      simp only at this
      subst this
      exact hmem

theorem map_fst_setPut (l : List (Nat × α)) (r : Nat) (v : α) :
    (setPut l r v).map Prod.fst = l.map Prod.fst := by
  unfold setPut
  rw [List.map_map]
  apply List.map_congr_left
  intro p _
  by_cases h : p.1 = r
  · simp [h]
  · simp [h]

theorem mem_setPut (l : List (Nat × α)) (r : Nat) (v : α) (p : Nat × α)
    (h : p ∈ setPut l r v) :
    (p = (r, v) ∧ ∃ w, (r, w) ∈ l) ∨ (p ∈ l ∧ p.1 ≠ r) := by
  unfold setPut at h
  rw [List.mem_map] at h
  obtain ⟨q, hq, hpq⟩ := h
  by_cases hqr : q.1 = r
  · left
    rw [if_pos (by simpa using hqr)] at hpq
    refine ⟨hpq.symm, ⟨q.2, ?_⟩⟩
    cases q with
    | mk a b => simp only at hqr; subst hqr; exact hq
  · right
    rw [if_neg (by simpa using hqr)] at hpq
    subst hpq
    exact ⟨hq, hqr⟩

theorem mem_setRemove (l : List (Nat × α)) (r : Nat) (p : Nat × α) :
    p ∈ setRemove l r ↔ p ∈ l ∧ p.1 ≠ r := by
  unfold setRemove
  rw [List.mem_filter]
  simp [bne_iff_ne]

theorem map_fst_setRemove_sublist (l : List (Nat × α)) (r : Nat) :
    ((setRemove l r).map Prod.fst).Sublist (l.map Prod.fst) := by
  unfold setRemove
  exact List.Sublist.map Prod.fst (List.filter_sublist l)

theorem owedCount_eq_zero_of_ne (ts : List TaskKind) (f : TaskKind → Option Nat) (r : Nat)
    (h : ∀ t ∈ ts, f t ≠ some r) : owedCount ts f r = 0 := by
  induction ts with
  | nil => rfl
  | cons u us ih =>
    rw [owedCount_cons, if_neg (h u (by simp))]
    simp only [Nat.zero_add]
    exact ih (fun t ht => h t (by simp [ht]))

theorem infoRefOf_some_excl (t : TaskKind) (r : Nat) (h : infoRefOf t = some r) :
    lookupRefOf t = none ∧ lrRefOf t = none := by
  cases t <;> simp [infoRefOf, lookupRefOf, lrRefOf] at h ⊢

theorem lookupRefOf_some_excl (t : TaskKind) (r : Nat) (h : lookupRefOf t = some r) :
    infoRefOf t = none ∧ lrRefOf t = none := by
  cases t <;> simp [infoRefOf, lookupRefOf, lrRefOf] at h ⊢

theorem lrRefOf_some_excl (t : TaskKind) (r : Nat) (h : lrRefOf t = some r) :
    infoRefOf t = none ∧ lookupRefOf t = none := by
  cases t <;> simp [infoRefOf, lookupRefOf, lrRefOf] at h ⊢

theorem nodup_map_fst_append (l : List (Nat × α)) (n : Nat) (v : α)
    (hnodup : (l.map Prod.fst).Nodup) (hlt : ∀ p ∈ l, p.1 < n) :
    ((l ++ [(n, v)]).map Prod.fst).Nodup := by
  rw [List.map_append]
  rw [List.nodup_append]
  refine ⟨hnodup, by simp, ?_⟩
  intro x hx
  rw [List.mem_map] at hx
  obtain ⟨p, hp, hxp⟩ := hx
  subst hxp
  simp only [List.map_cons, List.map_nil, List.mem_singleton]
  intro hc
  have := hlt p hp
  omega

/-- A step that only appends ref-free tasks and leaves the three
tracked request sets and their counters unchanged preserves the
accounting invariant. -/
theorem pendingInv_of_untracked (s s' : MgrState) (ts bs : List TaskKind)
    (hinv : PendingInv s)
    (hInfoReq : s'.info_requests = s.info_requests)
    (hLookReq : s'.lookup_requests = s.lookup_requests)
    (hLrReq : s'.lookup_range_requests = s.lookup_range_requests)
    (hInfoNext : s'.info_next = s.info_next)
    (hLookNext : s'.lookup_next = s.lookup_next)
    (hLrNext : s'.lookup_range_next = s.lookup_range_next)
    (hTasks : s'.tasks = s.tasks ++ ts)
    (hBg : s'.bg_tasks = s.bg_tasks ++ bs)
    (hInfoNone : ∀ t ∈ ts ++ bs, infoRefOf t = none)
    (hLookNone : ∀ t ∈ ts ++ bs, lookupRefOf t = none)
    (hLrNone : ∀ t ∈ ts ++ bs, lrRefOf t = none) :
    PendingInv s' := by
  have howed : ∀ (f : TaskKind → Option Nat), (∀ t ∈ ts ++ bs, f t = none) →
      ∀ r, owed s' f r = owed s f r := by
    intro f hf r
    unfold owed
    rw [hTasks, hBg, owedCount_append, owedCount_append]
    rw [owedCount_all_none ts f r (fun t ht => hf t (by simp [ht])),
        owedCount_all_none bs f r (fun t ht => hf t (by simp [ht]))]
    omega
  have hmemtb : ∀ t ∈ s'.tasks ++ s'.bg_tasks,
      t ∈ s.tasks ++ s.bg_tasks ∨ t ∈ ts ++ bs := by
    intro t ht
    rw [hTasks, hBg] at ht
    simp only [List.mem_append] at ht ⊢
    tauto
  refine ⟨?_, ?_, ?_, ?_, ?_, ?_, ?_, ?_, ?_, ?_, ?_, ?_, ?_⟩
  · intro p hp
    rw [hInfoReq] at hp
    rw [howed infoRefOf hInfoNone]
    exact hinv.info_pending p hp
  · intro p hp
    rw [hLookReq] at hp
    rw [howed lookupRefOf hLookNone]
    exact hinv.lookup_pending p hp
  · intro p hp
    rw [hLrReq] at hp
    rw [howed lrRefOf hLrNone]
    exact hinv.lr_pending p hp
  · intro p hp
    rw [hInfoReq] at hp; rw [hInfoNext]
    exact hinv.info_entry_lt p hp
  · intro p hp
    rw [hLookReq] at hp; rw [hLookNext]
    exact hinv.lookup_entry_lt p hp
  · intro p hp
    rw [hLrReq] at hp; rw [hLrNext]
    exact hinv.lr_entry_lt p hp
  · intro t ht r hr
    rw [hInfoNext]
    rcases hmemtb t ht with hm | hm
    · exact hinv.info_task_lt t hm r hr
    · rw [hInfoNone t hm] at hr; cases hr
  · intro t ht r hr
    rw [hLookNext]
    rcases hmemtb t ht with hm | hm
    · exact hinv.lookup_task_lt t hm r hr
    · rw [hLookNone t hm] at hr; cases hr
  · intro t ht r hr
    rw [hLrNext]
    rcases hmemtb t ht with hm | hm
    · exact hinv.lr_task_lt t hm r hr
    · rw [hLrNone t hm] at hr; cases hr
  · rw [hInfoReq]; exact hinv.info_nodup
  · rw [hLookReq]; exact hinv.lookup_nodup
  · rw [hLrReq]; exact hinv.lr_nodup
  · intro t ht
    rw [hBg, List.mem_append] at ht
    rcases ht with hm | hm
    · exact hinv.bg_noRef t hm
    · exact ⟨hInfoNone t (by simp [hm]), hLookNone t (by simp [hm]),
        hLrNone t (by simp [hm])⟩

/-- Fan-out registration for the info tracker: a fresh entry whose
`pending_count` equals the number of tasks dispatched for it preserves
the invariant. -/
theorem pendingInv_info_fanout (s s' : MgrState) (v : InfoRequest) (ts : List TaskKind)
    (hinv : PendingInv s)
    (hInfoReq : s'.info_requests = s.info_requests ++ [(s.info_next, v)])
    (hpend : v.pending_count = ts.length)
    (hInfoNext : s'.info_next = s.info_next + 1)
    (hLookReq : s'.lookup_requests = s.lookup_requests)
    (hLrReq : s'.lookup_range_requests = s.lookup_range_requests)
    (hLookNext : s'.lookup_next = s.lookup_next)
    (hLrNext : s'.lookup_range_next = s.lookup_range_next)
    (hTasks : s'.tasks = s.tasks ++ ts)
    (hBg : s'.bg_tasks = s.bg_tasks)
    (hts_ref : ∀ t ∈ ts, infoRefOf t = some s.info_next)
    (hts_other : ∀ t ∈ ts, lookupRefOf t = none ∧ lrRefOf t = none) :
    PendingInv s' := by
  have howed_other : ∀ (f : TaskKind → Option Nat), (∀ t ∈ ts, f t = none) →
      ∀ r, owed s' f r = owed s f r := by
    intro f hf r
    unfold owed
    rw [hTasks, hBg, owedCount_append, owedCount_all_none ts f r hf]
    omega
  have howed_info : ∀ r, owed s' infoRefOf r
      = owed s infoRefOf r + (if r = s.info_next then ts.length else 0) := by
    intro r
    unfold owed
    rw [hTasks, hBg, owedCount_append, owedCount_all_ref ts infoRefOf s.info_next r hts_ref]
    omega
  have hmemtb : ∀ t ∈ s'.tasks ++ s'.bg_tasks,
      t ∈ s.tasks ++ s.bg_tasks ∨ t ∈ ts := by
    intro t ht
    rw [hTasks, hBg] at ht
    simp only [List.mem_append] at ht ⊢
    tauto
  refine ⟨?_, ?_, ?_, ?_, ?_, ?_, ?_, ?_, ?_, ?_, ?_, ?_, ?_⟩
  · intro p hp
    rw [hInfoReq, List.mem_append] at hp
    rcases hp with hp | hp
    · rw [howed_info, if_neg (by have := hinv.info_entry_lt p hp; omega)]
      rw [Nat.add_zero]
      exact hinv.info_pending p hp
    · simp only [List.mem_singleton] at hp
      subst hp
      rw [howed_info]
      simp only [if_pos rfl]
      have hz : owed s infoRefOf s.info_next = 0 := by
        unfold owed
        rw [owedCount_eq_zero_of_ne _ _ _ (fun t ht hc =>
              by have := hinv.info_task_lt t (by simp [ht]) _ hc; omega),
            owedCount_eq_zero_of_ne _ _ _ (fun t ht hc =>
              by have := hinv.info_task_lt t (by simp [ht]) _ hc; omega)]
      rw [hz, Nat.zero_add]
      exact hpend
  · intro p hp
    rw [hLookReq] at hp
    rw [howed_other lookupRefOf (fun t ht => (hts_other t ht).1)]
    exact hinv.lookup_pending p hp
  · intro p hp
    rw [hLrReq] at hp
    rw [howed_other lrRefOf (fun t ht => (hts_other t ht).2)]
    exact hinv.lr_pending p hp
  · intro p hp
    rw [hInfoReq, List.mem_append] at hp
    rw [hInfoNext]
    rcases hp with hp | hp
    · have := hinv.info_entry_lt p hp; omega
    · simp only [List.mem_singleton] at hp; subst hp; simp
  · intro p hp
    rw [hLookReq] at hp; rw [hLookNext]
    exact hinv.lookup_entry_lt p hp
  · intro p hp
    rw [hLrReq] at hp; rw [hLrNext]
    exact hinv.lr_entry_lt p hp
  · intro t ht r hr
    rw [hInfoNext]
    rcases hmemtb t ht with hm | hm
    · have := hinv.info_task_lt t hm r hr; omega
    · rw [hts_ref t hm] at hr
      cases hr; omega
  · intro t ht r hr
    rw [hLookNext]
    rcases hmemtb t ht with hm | hm
    · exact hinv.lookup_task_lt t hm r hr
    · rw [(hts_other t hm).1] at hr; cases hr
  · intro t ht r hr
    rw [hLrNext]
    rcases hmemtb t ht with hm | hm
    · exact hinv.lr_task_lt t hm r hr
    · rw [(hts_other t hm).2] at hr; cases hr
  · rw [hInfoReq]
    exact nodup_map_fst_append _ _ _ hinv.info_nodup hinv.info_entry_lt
  · rw [hLookReq]; exact hinv.lookup_nodup
  · rw [hLrReq]; exact hinv.lr_nodup
  · intro t ht
    rw [hBg] at ht
    exact hinv.bg_noRef t ht

/-- Fan-out registration for the lookup tracker (`launch_lookup_request`). -/
theorem pendingInv_lookup_fanout (s s' : MgrState) (v : LookupRequest) (ts : List TaskKind)
    (hinv : PendingInv s)
    (hLookReq : s'.lookup_requests = s.lookup_requests ++ [(s.lookup_next, v)])
    (hpend : v.pending_count = ts.length)
    (hLookNext : s'.lookup_next = s.lookup_next + 1)
    (hInfoReq : s'.info_requests = s.info_requests)
    (hLrReq : s'.lookup_range_requests = s.lookup_range_requests)
    (hInfoNext : s'.info_next = s.info_next)
    (hLrNext : s'.lookup_range_next = s.lookup_range_next)
    (hTasks : s'.tasks = s.tasks ++ ts)
    (hBg : s'.bg_tasks = s.bg_tasks)
    (hts_ref : ∀ t ∈ ts, lookupRefOf t = some s.lookup_next)
    (hts_other : ∀ t ∈ ts, infoRefOf t = none ∧ lrRefOf t = none) :
    PendingInv s' := by
  have howed_other : ∀ (f : TaskKind → Option Nat), (∀ t ∈ ts, f t = none) →
      ∀ r, owed s' f r = owed s f r := by
    intro f hf r
    unfold owed
    rw [hTasks, hBg, owedCount_append, owedCount_all_none ts f r hf]
    omega
  have howed_lookup : ∀ r, owed s' lookupRefOf r
      = owed s lookupRefOf r + (if r = s.lookup_next then ts.length else 0) := by
    intro r
    unfold owed
    rw [hTasks, hBg, owedCount_append, owedCount_all_ref ts lookupRefOf s.lookup_next r hts_ref]
    omega
  have hmemtb : ∀ t ∈ s'.tasks ++ s'.bg_tasks,
      t ∈ s.tasks ++ s.bg_tasks ∨ t ∈ ts := by
    intro t ht
    rw [hTasks, hBg] at ht
    simp only [List.mem_append] at ht ⊢
    tauto
  refine ⟨?_, ?_, ?_, ?_, ?_, ?_, ?_, ?_, ?_, ?_, ?_, ?_, ?_⟩
  · intro p hp
    rw [hInfoReq] at hp
    rw [howed_other infoRefOf (fun t ht => (hts_other t ht).1)]
    exact hinv.info_pending p hp
  · intro p hp
    rw [hLookReq, List.mem_append] at hp
    rcases hp with hp | hp
    · rw [howed_lookup, if_neg (by have := hinv.lookup_entry_lt p hp; omega)]
      rw [Nat.add_zero]
      exact hinv.lookup_pending p hp
    · simp only [List.mem_singleton] at hp
      subst hp
      rw [howed_lookup]
      simp only [if_pos rfl]
      have hz : owed s lookupRefOf s.lookup_next = 0 := by
        unfold owed
        rw [owedCount_eq_zero_of_ne _ _ _ (fun t ht hc =>
              by have := hinv.lookup_task_lt t (by simp [ht]) _ hc; omega),
            owedCount_eq_zero_of_ne _ _ _ (fun t ht hc =>
              by have := hinv.lookup_task_lt t (by simp [ht]) _ hc; omega)]
      rw [hz, Nat.zero_add]
      exact hpend
  · intro p hp
    rw [hLrReq] at hp
    rw [howed_other lrRefOf (fun t ht => (hts_other t ht).2)]
    exact hinv.lr_pending p hp
  · intro p hp
    rw [hInfoReq] at hp; rw [hInfoNext]
    exact hinv.info_entry_lt p hp
  · intro p hp
    rw [hLookReq, List.mem_append] at hp
    rw [hLookNext]
    rcases hp with hp | hp
    · have := hinv.lookup_entry_lt p hp; omega
    · simp only [List.mem_singleton] at hp; subst hp; simp
  · intro p hp
    rw [hLrReq] at hp; rw [hLrNext]
    exact hinv.lr_entry_lt p hp
  · intro t ht r hr
    rw [hInfoNext]
    rcases hmemtb t ht with hm | hm
    · exact hinv.info_task_lt t hm r hr
    · rw [(hts_other t hm).1] at hr; cases hr
  · intro t ht r hr
    rw [hLookNext]
    rcases hmemtb t ht with hm | hm
    · have := hinv.lookup_task_lt t hm r hr; omega
    · rw [hts_ref t hm] at hr
      cases hr; omega
  · intro t ht r hr
    rw [hLrNext]
    rcases hmemtb t ht with hm | hm
    · exact hinv.lr_task_lt t hm r hr
    · rw [(hts_other t hm).2] at hr; cases hr
  · rw [hInfoReq]; exact hinv.info_nodup
  · rw [hLookReq]
    exact nodup_map_fst_append _ _ _ hinv.lookup_nodup hinv.lookup_entry_lt
  · rw [hLrReq]; exact hinv.lr_nodup
  · intro t ht
    rw [hBg] at ht
    exact hinv.bg_noRef t ht


/-- Fan-out registration for the lookup-range tracker (the
`LookupRangeButcher` done handler with a non-empty tree set). -/
theorem pendingInv_lr_fanout (s s' : MgrState) (v : LookupRangeRequest) (ts : List TaskKind)
    (hinv : PendingInv s)
    (hLrReq : s'.lookup_range_requests = s.lookup_range_requests ++ [(s.lookup_range_next, v)])
    (hpend : v.pending_count = ts.length)
    (hLrNext : s'.lookup_range_next = s.lookup_range_next + 1)
    (hInfoReq : s'.info_requests = s.info_requests)
    (hLookReq : s'.lookup_requests = s.lookup_requests)
    (hInfoNext : s'.info_next = s.info_next)
    (hLookNext : s'.lookup_next = s.lookup_next)
    (hTasks : s'.tasks = s.tasks ++ ts)
    (hBg : s'.bg_tasks = s.bg_tasks)
    (hts_ref : ∀ t ∈ ts, lrRefOf t = some s.lookup_range_next)
    (hts_other : ∀ t ∈ ts, infoRefOf t = none ∧ lookupRefOf t = none) :
    PendingInv s' := by
  have howed_other : ∀ (f : TaskKind → Option Nat), (∀ t ∈ ts, f t = none) →
      ∀ r, owed s' f r = owed s f r := by
    intro f hf r
    unfold owed
    rw [hTasks, hBg, owedCount_append, owedCount_all_none ts f r hf]
    omega
  have howed_lr : ∀ r, owed s' lrRefOf r
      = owed s lrRefOf r + (if r = s.lookup_range_next then ts.length else 0) := by
    intro r
    unfold owed
    rw [hTasks, hBg, owedCount_append, owedCount_all_ref ts lrRefOf s.lookup_range_next r hts_ref]
    omega
  have hmemtb : ∀ t ∈ s'.tasks ++ s'.bg_tasks,
      t ∈ s.tasks ++ s.bg_tasks ∨ t ∈ ts := by
    intro t ht
    rw [hTasks, hBg] at ht
    simp only [List.mem_append] at ht ⊢
    tauto
  refine ⟨?_, ?_, ?_, ?_, ?_, ?_, ?_, ?_, ?_, ?_, ?_, ?_, ?_⟩
  · intro p hp
    rw [hInfoReq] at hp
    rw [howed_other infoRefOf (fun t ht => (hts_other t ht).1)]
    exact hinv.info_pending p hp
  · intro p hp
    rw [hLookReq] at hp
    rw [howed_other lookupRefOf (fun t ht => (hts_other t ht).2)]
    exact hinv.lookup_pending p hp
  · intro p hp
    rw [hLrReq, List.mem_append] at hp
    rcases hp with hp | hp
    · rw [howed_lr, if_neg (by have := hinv.lr_entry_lt p hp; omega)]
      rw [Nat.add_zero]
      exact hinv.lr_pending p hp
    · simp only [List.mem_singleton] at hp
      subst hp
      rw [howed_lr]
      simp only [if_pos rfl]
      have hz : owed s lrRefOf s.lookup_range_next = 0 := by
        unfold owed
        rw [owedCount_eq_zero_of_ne _ _ _ (fun t ht hc =>
              by have := hinv.lr_task_lt t (by simp [ht]) _ hc; omega),
            owedCount_eq_zero_of_ne _ _ _ (fun t ht hc =>
              by have := hinv.lr_task_lt t (by simp [ht]) _ hc; omega)]
      rw [hz, Nat.zero_add]
      exact hpend
  · intro p hp
    rw [hInfoReq] at hp; rw [hInfoNext]
    exact hinv.info_entry_lt p hp
  · intro p hp
    rw [hLookReq] at hp; rw [hLookNext]
    exact hinv.lookup_entry_lt p hp
  · intro p hp
    rw [hLrReq, List.mem_append] at hp
    rw [hLrNext]
    rcases hp with hp | hp
    · have := hinv.lr_entry_lt p hp; omega
    · simp only [List.mem_singleton] at hp; subst hp; simp
  · intro t ht r hr
    rw [hInfoNext]
    rcases hmemtb t ht with hm | hm
    · exact hinv.info_task_lt t hm r hr
    · rw [(hts_other t hm).1] at hr; cases hr
  · intro t ht r hr
    rw [hLookNext]
    rcases hmemtb t ht with hm | hm
    · exact hinv.lookup_task_lt t hm r hr
    · rw [(hts_other t hm).2] at hr; cases hr
  · intro t ht r hr
    rw [hLrNext]
    rcases hmemtb t ht with hm | hm
    · have := hinv.lr_task_lt t hm r hr; omega
    · rw [hts_ref t hm] at hr
      cases hr; omega
  · rw [hInfoReq]; exact hinv.info_nodup
  · rw [hLookReq]; exact hinv.lookup_nodup
  · rw [hLrReq]
    exact nodup_map_fst_append _ _ _ hinv.lr_nodup hinv.lr_entry_lt
  · intro t ht
    rw [hBg] at ht
    exact hinv.bg_noRef t ht


/-- A completed task owed to info entry `ref` is erased from the
in-flight list while the entry's `pending_count` is decremented in
lockstep (or the entry removed): the accounting survives both handler
outcomes. -/
theorem pendingInv_info_done (s : MgrState) (i : Nat) (t : TaskKind) (ref : Nat)
    (req req' : InfoRequest)
    (hti : s.tasks[i]? = some t)
    (htr : infoRefOf t = some ref)
    (hinv : PendingInv s)
    (hget : setGet s.info_requests ref = some req)
    (hpend' : req'.pending_count = req.pending_count - 1)
    (hpos : req.pending_count ≠ 0) :
    PendingInv { s with tasks := s.tasks.eraseIdx i,
                        info_requests := setRemove s.info_requests ref }
  ∧ PendingInv { s with tasks := s.tasks.eraseIdx i,
                        info_requests := setPut s.info_requests ref req' } := by
  have hmem : (ref, req) ∈ s.info_requests := setGet_mem _ _ _ hget
  have hpRef : req.pending_count = owed s infoRefOf ref :=
    hinv.info_pending (ref, req) hmem
  have herase_info : ∀ r, owedCount s.tasks infoRefOf r
      = owedCount (s.tasks.eraseIdx i) infoRefOf r + (if ref = r then 1 else 0) := by
    intro r
    rw [owedCount_eraseIdx s.tasks i t hti infoRefOf r, htr]
    by_cases hr : ref = r
    · subst hr; rw [if_pos rfl, if_pos rfl]
    · rw [if_neg (by simpa using hr), if_neg hr]
  have herase_other : ∀ (f : TaskKind → Option Nat), f t = none →
      ∀ r, owedCount (s.tasks.eraseIdx i) f r = owedCount s.tasks f r := by
    intro f hf r
    rw [owedCount_eraseIdx s.tasks i t hti f r, hf, if_neg (by simp)]
    omega
  have hsub : ∀ u, u ∈ s.tasks.eraseIdx i → u ∈ s.tasks :=
    fun u hu => (List.eraseIdx_sublist s.tasks i).subset hu
  have hsub2 : ∀ u, u ∈ s.tasks.eraseIdx i ++ s.bg_tasks → u ∈ s.tasks ++ s.bg_tasks := by
    intro u hu
    rw [List.mem_append] at hu ⊢
    rcases hu with hu | hu
    · exact Or.inl (hsub u hu)
    · exact Or.inr hu
  have hexcl := infoRefOf_some_excl t ref htr
  constructor
  · refine ⟨?_, ?_, ?_, ?_, ?_, ?_, ?_, ?_, ?_, ?_, ?_, ?_, ?_⟩
    · intro p hp
      rw [mem_setRemove] at hp
      have := hinv.info_pending p hp.1
      show p.2.pending_count = owedCount (s.tasks.eraseIdx i) infoRefOf p.1
        + owedCount s.bg_tasks infoRefOf p.1
      have h1 := herase_info p.1
      rw [if_neg (fun hc => hp.2 hc.symm)] at h1
      unfold owed at this
      omega
    · intro p hp
      have := hinv.lookup_pending p hp
      show p.2.pending_count = owedCount (s.tasks.eraseIdx i) lookupRefOf p.1
        + owedCount s.bg_tasks lookupRefOf p.1
      rw [herase_other lookupRefOf hexcl.1]
      exact this
    · intro p hp
      have := hinv.lr_pending p hp
      show p.2.pending_count = owedCount (s.tasks.eraseIdx i) lrRefOf p.1
        + owedCount s.bg_tasks lrRefOf p.1
      rw [herase_other lrRefOf hexcl.2]
      exact this
    · intro p hp
      rw [mem_setRemove] at hp
      exact hinv.info_entry_lt p hp.1
    · exact hinv.lookup_entry_lt
    · exact hinv.lr_entry_lt
    · intro u hu r hr
      exact hinv.info_task_lt u (hsub2 u hu) r hr
    · intro u hu r hr
      exact hinv.lookup_task_lt u (hsub2 u hu) r hr
    · intro u hu r hr
      exact hinv.lr_task_lt u (hsub2 u hu) r hr
    · exact (map_fst_setRemove_sublist _ _).nodup hinv.info_nodup
    · exact hinv.lookup_nodup
    · exact hinv.lr_nodup
    · exact hinv.bg_noRef
  · refine ⟨?_, ?_, ?_, ?_, ?_, ?_, ?_, ?_, ?_, ?_, ?_, ?_, ?_⟩
    · intro p hp
      rcases mem_setPut _ _ _ p hp with ⟨hpq, _⟩ | ⟨hpl, hpne⟩
      · subst hpq
        show req'.pending_count = owedCount (s.tasks.eraseIdx i) infoRefOf ref
          + owedCount s.bg_tasks infoRefOf ref
        have h1 := herase_info ref
        rw [if_pos rfl] at h1
        unfold owed at hpRef
        omega
      · have := hinv.info_pending p hpl
        show p.2.pending_count = owedCount (s.tasks.eraseIdx i) infoRefOf p.1
        + owedCount s.bg_tasks infoRefOf p.1
        have h1 := herase_info p.1
        rw [if_neg (fun hc => hpne hc.symm)] at h1
        unfold owed at this
        omega
    · intro p hp
      have := hinv.lookup_pending p hp
      show p.2.pending_count = owedCount (s.tasks.eraseIdx i) lookupRefOf p.1
        + owedCount s.bg_tasks lookupRefOf p.1
      rw [herase_other lookupRefOf hexcl.1]
      exact this
    · intro p hp
      have := hinv.lr_pending p hp
      show p.2.pending_count = owedCount (s.tasks.eraseIdx i) lrRefOf p.1
        + owedCount s.bg_tasks lrRefOf p.1
      rw [herase_other lrRefOf hexcl.2]
      exact this
    · intro p hp
      rcases mem_setPut _ _ _ p hp with ⟨hpq, hw⟩ | ⟨hpl, _⟩
      · subst hpq
        obtain ⟨w, hw⟩ := hw
        exact hinv.info_entry_lt (ref, w) hw
      · exact hinv.info_entry_lt p hpl
    · exact hinv.lookup_entry_lt
    · exact hinv.lr_entry_lt
    · intro u hu r hr
      exact hinv.info_task_lt u (hsub2 u hu) r hr
    · intro u hu r hr
      exact hinv.lookup_task_lt u (hsub2 u hu) r hr
    · intro u hu r hr
      exact hinv.lr_task_lt u (hsub2 u hu) r hr
    · show ((setPut s.info_requests ref req').map Prod.fst).Nodup
      rw [map_fst_setPut]
      exact hinv.info_nodup
    · exact hinv.lookup_nodup
    · exact hinv.lr_nodup
    · exact hinv.bg_noRef

/-- A completed task owed to lookup entry `ref` is erased from the
in-flight list while the entry's `pending_count` is decremented in
lockstep (or the entry removed): the accounting survives both handler
outcomes. -/
theorem pendingInv_lookup_done (s : MgrState) (i : Nat) (t : TaskKind) (ref : Nat)
    (req req' : LookupRequest)
    (hti : s.tasks[i]? = some t)
    (htr : lookupRefOf t = some ref)
    (hinv : PendingInv s)
    (hget : setGet s.lookup_requests ref = some req)
    (hpend' : req'.pending_count = req.pending_count - 1)
    (hpos : req.pending_count ≠ 0) :
    PendingInv { s with tasks := s.tasks.eraseIdx i,
                        lookup_requests := setRemove s.lookup_requests ref }
  ∧ PendingInv { s with tasks := s.tasks.eraseIdx i,
                        lookup_requests := setPut s.lookup_requests ref req' } := by
  have hmem : (ref, req) ∈ s.lookup_requests := setGet_mem _ _ _ hget
  have hpRef : req.pending_count = owed s lookupRefOf ref :=
    hinv.lookup_pending (ref, req) hmem
  have herase_look : ∀ r, owedCount s.tasks lookupRefOf r
      = owedCount (s.tasks.eraseIdx i) lookupRefOf r + (if ref = r then 1 else 0) := by
    intro r
    rw [owedCount_eraseIdx s.tasks i t hti lookupRefOf r, htr]
    by_cases hr : ref = r
    · subst hr; rw [if_pos rfl, if_pos rfl]
    · rw [if_neg (by simpa using hr), if_neg hr]
  have herase_other : ∀ (f : TaskKind → Option Nat), f t = none →
      ∀ r, owedCount (s.tasks.eraseIdx i) f r = owedCount s.tasks f r := by
    intro f hf r
    rw [owedCount_eraseIdx s.tasks i t hti f r, hf, if_neg (by simp)]
    omega
  have hsub : ∀ u, u ∈ s.tasks.eraseIdx i → u ∈ s.tasks :=
    fun u hu => (List.eraseIdx_sublist s.tasks i).subset hu
  have hsub2 : ∀ u, u ∈ s.tasks.eraseIdx i ++ s.bg_tasks → u ∈ s.tasks ++ s.bg_tasks := by
    intro u hu
    rw [List.mem_append] at hu ⊢
    rcases hu with hu | hu
    · exact Or.inl (hsub u hu)
    · exact Or.inr hu
  have hexcl := lookupRefOf_some_excl t ref htr
  constructor
  · refine ⟨?_, ?_, ?_, ?_, ?_, ?_, ?_, ?_, ?_, ?_, ?_, ?_, ?_⟩
    · intro p hp
      have := hinv.info_pending p hp
      show p.2.pending_count = owedCount (s.tasks.eraseIdx i) infoRefOf p.1
        + owedCount s.bg_tasks infoRefOf p.1
      rw [herase_other infoRefOf hexcl.1]
      exact this
    · intro p hp
      replace hp : p ∈ setRemove s.lookup_requests ref := hp
      rw [mem_setRemove] at hp
      have := hinv.lookup_pending p hp.1
      show p.2.pending_count = owedCount (s.tasks.eraseIdx i) lookupRefOf p.1
        + owedCount s.bg_tasks lookupRefOf p.1
      have h1 := herase_look p.1
      rw [if_neg (fun hc => hp.2 hc.symm)] at h1
      unfold owed at this
      omega
    · intro p hp
      have := hinv.lr_pending p hp
      show p.2.pending_count = owedCount (s.tasks.eraseIdx i) lrRefOf p.1
        + owedCount s.bg_tasks lrRefOf p.1
      rw [herase_other lrRefOf hexcl.2]
      exact this
    · exact hinv.info_entry_lt
    · intro p hp
      replace hp : p ∈ setRemove s.lookup_requests ref := hp
      rw [mem_setRemove] at hp
      exact hinv.lookup_entry_lt p hp.1
    · exact hinv.lr_entry_lt
    · intro u hu r hr
      exact hinv.info_task_lt u (hsub2 u hu) r hr
    · intro u hu r hr
      exact hinv.lookup_task_lt u (hsub2 u hu) r hr
    · intro u hu r hr
      exact hinv.lr_task_lt u (hsub2 u hu) r hr
    · exact hinv.info_nodup
    · exact (map_fst_setRemove_sublist _ _).nodup hinv.lookup_nodup
    · exact hinv.lr_nodup
    · exact hinv.bg_noRef
  · refine ⟨?_, ?_, ?_, ?_, ?_, ?_, ?_, ?_, ?_, ?_, ?_, ?_, ?_⟩
    · intro p hp
      have := hinv.info_pending p hp
      show p.2.pending_count = owedCount (s.tasks.eraseIdx i) infoRefOf p.1
        + owedCount s.bg_tasks infoRefOf p.1
      rw [herase_other infoRefOf hexcl.1]
      exact this
    · intro p hp
      replace hp : p ∈ setPut s.lookup_requests ref req' := hp
      rcases mem_setPut _ _ _ p hp with ⟨hpq, _⟩ | ⟨hpl, hpne⟩
      · subst hpq
        show req'.pending_count = owedCount (s.tasks.eraseIdx i) lookupRefOf ref
          + owedCount s.bg_tasks lookupRefOf ref
        have h1 := herase_look ref
        rw [if_pos rfl] at h1
        unfold owed at hpRef
        omega
      · have := hinv.lookup_pending p hpl
        show p.2.pending_count = owedCount (s.tasks.eraseIdx i) lookupRefOf p.1
          + owedCount s.bg_tasks lookupRefOf p.1
        have h1 := herase_look p.1
        rw [if_neg (fun hc => hpne hc.symm)] at h1
        unfold owed at this
        omega
    · intro p hp
      have := hinv.lr_pending p hp
      show p.2.pending_count = owedCount (s.tasks.eraseIdx i) lrRefOf p.1
        + owedCount s.bg_tasks lrRefOf p.1
      rw [herase_other lrRefOf hexcl.2]
      exact this
    · exact hinv.info_entry_lt
    · intro p hp
      replace hp : p ∈ setPut s.lookup_requests ref req' := hp
      rcases mem_setPut _ _ _ p hp with ⟨hpq, hw⟩ | ⟨hpl, _⟩
      · subst hpq
        obtain ⟨w, hw⟩ := hw
        exact hinv.lookup_entry_lt (ref, w) hw
      · exact hinv.lookup_entry_lt p hpl
    · exact hinv.lr_entry_lt
    · intro u hu r hr
      exact hinv.info_task_lt u (hsub2 u hu) r hr
    · intro u hu r hr
      exact hinv.lookup_task_lt u (hsub2 u hu) r hr
    · intro u hu r hr
      exact hinv.lr_task_lt u (hsub2 u hu) r hr
    · exact hinv.info_nodup
    · show ((setPut s.lookup_requests ref req').map Prod.fst).Nodup
      rw [map_fst_setPut]
      exact hinv.lookup_nodup
    · exact hinv.lr_nodup
    · exact hinv.bg_noRef


/-- A completed task owed to lookup-range entry `ref` is erased from the
in-flight list while the entry's `pending_count` is decremented in
lockstep (or the entry removed): the accounting survives both handler
outcomes. -/
theorem pendingInv_lr_done (s : MgrState) (i : Nat) (t : TaskKind) (ref : Nat)
    (req req' : LookupRangeRequest)
    (hti : s.tasks[i]? = some t)
    (htr : lrRefOf t = some ref)
    (hinv : PendingInv s)
    (hget : setGet s.lookup_range_requests ref = some req)
    (hpend' : req'.pending_count = req.pending_count - 1)
    (hpos : req.pending_count ≠ 0) :
    PendingInv { s with tasks := s.tasks.eraseIdx i,
                        lookup_range_requests := setRemove s.lookup_range_requests ref }
  ∧ PendingInv { s with tasks := s.tasks.eraseIdx i,
                        lookup_range_requests := setPut s.lookup_range_requests ref req' } := by
  have hmem : (ref, req) ∈ s.lookup_range_requests := setGet_mem _ _ _ hget
  have hpRef : req.pending_count = owed s lrRefOf ref :=
    hinv.lr_pending (ref, req) hmem
  have herase_lr : ∀ r, owedCount s.tasks lrRefOf r
      = owedCount (s.tasks.eraseIdx i) lrRefOf r + (if ref = r then 1 else 0) := by
    intro r
    rw [owedCount_eraseIdx s.tasks i t hti lrRefOf r, htr]
    by_cases hr : ref = r
    · subst hr; rw [if_pos rfl, if_pos rfl]
    · rw [if_neg (by simpa using hr), if_neg hr]
  have herase_other : ∀ (f : TaskKind → Option Nat), f t = none →
      ∀ r, owedCount (s.tasks.eraseIdx i) f r = owedCount s.tasks f r := by
    intro f hf r
    rw [owedCount_eraseIdx s.tasks i t hti f r, hf, if_neg (by simp)]
    omega
  have hsub : ∀ u, u ∈ s.tasks.eraseIdx i → u ∈ s.tasks :=
    fun u hu => (List.eraseIdx_sublist s.tasks i).subset hu
  have hsub2 : ∀ u, u ∈ s.tasks.eraseIdx i ++ s.bg_tasks → u ∈ s.tasks ++ s.bg_tasks := by
    intro u hu
    rw [List.mem_append] at hu ⊢
    rcases hu with hu | hu
    · exact Or.inl (hsub u hu)
    · exact Or.inr hu
  have hexcl := lrRefOf_some_excl t ref htr
  constructor
  · refine ⟨?_, ?_, ?_, ?_, ?_, ?_, ?_, ?_, ?_, ?_, ?_, ?_, ?_⟩
    · intro p hp
      have := hinv.info_pending p hp
      show p.2.pending_count = owedCount (s.tasks.eraseIdx i) infoRefOf p.1
        + owedCount s.bg_tasks infoRefOf p.1
      rw [herase_other infoRefOf hexcl.1]
      exact this
    · intro p hp
      have := hinv.lookup_pending p hp
      show p.2.pending_count = owedCount (s.tasks.eraseIdx i) lookupRefOf p.1
        + owedCount s.bg_tasks lookupRefOf p.1
      rw [herase_other lookupRefOf hexcl.2]
      exact this
    · intro p hp
      replace hp : p ∈ setRemove s.lookup_range_requests ref := hp
      rw [mem_setRemove] at hp
      have := hinv.lr_pending p hp.1
      show p.2.pending_count = owedCount (s.tasks.eraseIdx i) lrRefOf p.1
        + owedCount s.bg_tasks lrRefOf p.1
      have h1 := herase_lr p.1
      rw [if_neg (fun hc => hp.2 hc.symm)] at h1
      unfold owed at this
      omega
    · exact hinv.info_entry_lt
    · exact hinv.lookup_entry_lt
    · intro p hp
      replace hp : p ∈ setRemove s.lookup_range_requests ref := hp
      rw [mem_setRemove] at hp
      exact hinv.lr_entry_lt p hp.1
    · intro u hu r hr
      exact hinv.info_task_lt u (hsub2 u hu) r hr
    · intro u hu r hr
      exact hinv.lookup_task_lt u (hsub2 u hu) r hr
    · intro u hu r hr
      exact hinv.lr_task_lt u (hsub2 u hu) r hr
    · exact hinv.info_nodup
    · exact hinv.lookup_nodup
    · exact (map_fst_setRemove_sublist _ _).nodup hinv.lr_nodup
    · exact hinv.bg_noRef
  · refine ⟨?_, ?_, ?_, ?_, ?_, ?_, ?_, ?_, ?_, ?_, ?_, ?_, ?_⟩
    · intro p hp
      have := hinv.info_pending p hp
      show p.2.pending_count = owedCount (s.tasks.eraseIdx i) infoRefOf p.1
        + owedCount s.bg_tasks infoRefOf p.1
      rw [herase_other infoRefOf hexcl.1]
      exact this
    · intro p hp
      have := hinv.lookup_pending p hp
      show p.2.pending_count = owedCount (s.tasks.eraseIdx i) lookupRefOf p.1
        + owedCount s.bg_tasks lookupRefOf p.1
      rw [herase_other lookupRefOf hexcl.2]
      exact this
    · intro p hp
      replace hp : p ∈ setPut s.lookup_range_requests ref req' := hp
      rcases mem_setPut _ _ _ p hp with ⟨hpq, _⟩ | ⟨hpl, hpne⟩
      · subst hpq
        show req'.pending_count = owedCount (s.tasks.eraseIdx i) lrRefOf ref
          + owedCount s.bg_tasks lrRefOf ref
        have h1 := herase_lr ref
        rw [if_pos rfl] at h1
        unfold owed at hpRef
        omega
      · have := hinv.lr_pending p hpl
        show p.2.pending_count = owedCount (s.tasks.eraseIdx i) lrRefOf p.1
          + owedCount s.bg_tasks lrRefOf p.1
        have h1 := herase_lr p.1
        rw [if_neg (fun hc => hpne hc.symm)] at h1
        unfold owed at this
        omega
    · exact hinv.info_entry_lt
    · exact hinv.lookup_entry_lt
    · intro p hp
      replace hp : p ∈ setPut s.lookup_range_requests ref req' := hp
      rcases mem_setPut _ _ _ p hp with ⟨hpq, hw⟩ | ⟨hpl, _⟩
      · subst hpq
        obtain ⟨w, hw⟩ := hw
        exact hinv.lr_entry_lt (ref, w) hw
      · exact hinv.lr_entry_lt p hpl
    · intro u hu r hr
      exact hinv.info_task_lt u (hsub2 u hu) r hr
    · intro u hu r hr
      exact hinv.lookup_task_lt u (hsub2 u hu) r hr
    · intro u hu r hr
      exact hinv.lr_task_lt u (hsub2 u hu) r hr
    · exact hinv.info_nodup
    · exact hinv.lookup_nodup
    · show ((setPut s.lookup_range_requests ref req').map Prod.fst).Nodup
      rw [map_fst_setPut]
      exact hinv.lr_nodup
    · exact hinv.bg_noRef



theorem join_cons_eq (a : List α) (l : List (List α)) : (a :: l).join = a ++ l.join := rfl

theorem mem_join_invalidateTasks (l : List (Nat × LookupRequest)) (nt : Nat)
    (t : TaskKind) (ht : t ∈ (l.map (invalidateTasks nt)).join) :
    ∃ p ∈ l, t = .lookupSearchTree p.1 p.2.key nt := by
  rw [List.mem_join] at ht
  obtain ⟨ts, hts, htts⟩ := ht
  rw [List.mem_map] at hts
  obtain ⟨p, hp, hpts⟩ := hts
  subst hpts
  refine ⟨p, hp, ?_⟩
  unfold invalidateTasks at htts
  cases hbs : p.2.butcher_status <;> rw [hbs] at htts
  · simpa using htts
  · simp at htts
  · simp at htts

theorem owedCount_invalidateTasks_notMem (l : List (Nat × LookupRequest)) (nt r : Nat)
    (hr : r ∉ l.map Prod.fst) :
    owedCount ((l.map (invalidateTasks nt)).join) lookupRefOf r = 0 := by
  apply owedCount_eq_zero_of_ne
  intro t ht hc
  obtain ⟨p, hp, hpt⟩ := mem_join_invalidateTasks l nt t ht
  subst hpt
  simp only [lookupRefOf, Option.some.injEq] at hc
  subst hc
  exact hr (List.mem_map.mpr ⟨p, hp, rfl⟩)

theorem owedCount_invalidateTasks_mem (l : List (Nat × LookupRequest)) (nt r : Nat)
    (req : LookupRequest) (hmem : (r, req) ∈ l) (hnd : (l.map Prod.fst).Nodup) :
    owedCount ((l.map (invalidateTasks nt)).join) lookupRefOf r
      = if req.butcher_status = .notReady then 1 else 0 := by
  induction l with
  | nil => simp at hmem
  | cons q l' ih =>
    rw [List.map_cons, join_cons_eq, owedCount_append]
    rw [List.map_cons, List.nodup_cons] at hnd
    rcases List.mem_cons.mp hmem with hq | hq
    · subst hq
      have hnot : r ∉ l'.map Prod.fst := hnd.1
      rw [owedCount_invalidateTasks_notMem l' nt r hnot]
      unfold invalidateTasks
      cases hbs : req.butcher_status
      · simp only []
        rw [owedCount_cons, owedCount_nil]
        simp [lookupRefOf]
      · simp [owedCount_nil]
      · simp [owedCount_nil]
    · have hqr : q.1 ≠ r := by
        intro hc
        exact hnd.1 (hc ▸ List.mem_map.mpr ⟨(r, req), hq, by simp [hc]⟩)
      have hfirst : owedCount (invalidateTasks nt q) lookupRefOf r = 0 := by
        apply owedCount_eq_zero_of_ne
        intro t ht hc
        unfold invalidateTasks at ht
        cases hbs : q.2.butcher_status <;> rw [hbs] at ht
        · simp only [List.mem_singleton] at ht
          subst ht
          simp only [lookupRefOf, Option.some.injEq] at hc
          exact hqr hc
        · simp at ht
        · simp at ht
      rw [hfirst, ih hq hnd.2, Nat.zero_add]

theorem map_fst_invalidateEntry (l : List (Nat × LookupRequest)) :
    (l.map invalidateEntry).map Prod.fst = l.map Prod.fst := by
  rw [List.map_map]
  apply List.map_congr_left
  intro p _
  show (invalidateEntry p).1 = p.1
  rcases p with ⟨a, b⟩
  unfold invalidateEntry
  cases b.butcher_status <;> rfl

theorem maybe_merge_task_shape (refs : BinMerger) (trees : List (Nat × SearchTreeMode))
    (refs' : BinMerger) (t : TaskKind)
    (h : maybe_merge_search_trees refs trees = some (refs', some t)) :
    ∃ a b, t = .mergeSearchTrees a b := by
  unfold maybe_merge_search_trees at h
  cases hpop : refs.pop with
  | none => rw [hpop] at h; cases h
  | some pr =>
    obtain ⟨⟨a, b⟩, heap⟩ := pr
    rw [hpop] at h
    simp only [] at h
    cases hga : setGet trees a.search_tree_ref with
    | none => rw [hga] at h; cases h
    | some x =>
      cases hgb : setGet trees b.search_tree_ref with
      | none => rw [hga, hgb] at h; cases h
      | some y =>
        rw [hga, hgb] at h
        simp only [Option.some.injEq, Prod.mk.injEq] at h
        exact ⟨a.search_tree_ref, b.search_tree_ref, h.2.symm⟩

/-- A `ButcherFlush` preserves the accounting: every `NotReady` lookup
entry gains exactly one owed task together with its `pending_count`
bump; everything else is untouched. -/
theorem pendingInv_flushCache (s : MgrState) (cache_len cache : Nat)
    (s' : MgrState) (outs : List Output) (hinv : PendingInv s)
    (h : handleFlushCache s cache_len cache = some (.next s' outs)) :
    PendingInv s' := by
  simp only [handleFlushCache] at h
  cases hmm : maybe_merge_search_trees
      (s.search_tree_refs.push ⟨cache_len, s.tree_next⟩ cache_len)
      (s.search_trees ++ [(s.tree_next, .cacheBootstrap cache)]) with
  | none => rw [hmm] at h; cases h
  | some pair =>
    obtain ⟨refs'', maybe_task⟩ := pair
    rw [hmm] at h
    simp only [] at h
    cases h
    have hbg_new : ∀ t ∈ (match maybe_task with | none => ([] : List TaskKind) | some t => [t]),
        infoRefOf t = none ∧ lookupRefOf t = none ∧ lrRefOf t = none := by
      intro t ht
      cases hmt : maybe_task with
      | none => rw [hmt] at ht; simp at ht
      | some u =>
        rw [hmt] at ht
        simp only [List.mem_singleton] at ht
        subst ht
        obtain ⟨a, b, hab⟩ := maybe_merge_task_shape _ _ _ _ (hmt ▸ hmm)
        subst hab
        exact ⟨rfl, rfl, rfl⟩
    have hjoin_info : ∀ r,
        owedCount ((s.lookup_requests.map (invalidateTasks s.tree_next)).join) infoRefOf r
          = 0 := by
      intro r
      apply owedCount_eq_zero_of_ne
      intro t ht hc
      obtain ⟨p, _, hpt⟩ := mem_join_invalidateTasks _ _ t ht
      subst hpt
      simp [infoRefOf] at hc
    have hjoin_lr : ∀ r,
        owedCount ((s.lookup_requests.map (invalidateTasks s.tree_next)).join) lrRefOf r
          = 0 := by
      intro r
      apply owedCount_eq_zero_of_ne
      intro t ht hc
      obtain ⟨p, _, hpt⟩ := mem_join_invalidateTasks _ _ t ht
      subst hpt
      simp [lrRefOf] at hc
    have hbg_count : ∀ (f : TaskKind → Option Nat),
        (∀ t ∈ (match maybe_task with | none => ([] : List TaskKind) | some t => [t]),
          f t = none) →
        ∀ r, owedCount
          (s.bg_tasks ++ (match maybe_task with | none => [] | some t => [t])) f r
            = owedCount s.bg_tasks f r := by
      intro f hf r
      rw [owedCount_append, owedCount_all_none _ f r hf]
      omega
    refine ⟨?_, ?_, ?_, ?_, ?_, ?_, ?_, ?_, ?_, ?_, ?_, ?_, ?_⟩
    · intro p hp
      have := hinv.info_pending p hp
      show p.2.pending_count
        = owedCount (s.tasks ++ (s.lookup_requests.map (invalidateTasks s.tree_next)).join)
            infoRefOf p.1 + _
      rw [owedCount_append, hjoin_info,
        hbg_count infoRefOf (fun t ht => (hbg_new t ht).1)]
      unfold owed at this
      omega
    · intro p hp
      replace hp : p ∈ s.lookup_requests.map invalidateEntry := hp
      rw [List.mem_map] at hp
      obtain ⟨q, hq, hpq⟩ := hp
      subst hpq
      have hqpend := hinv.lookup_pending q hq
      have hq1 : (invalidateEntry q).1 = q.1 := by
        unfold invalidateEntry
        cases q.2.butcher_status <;> rfl
      show (invalidateEntry q).2.pending_count
        = owedCount (s.tasks ++ (s.lookup_requests.map (invalidateTasks s.tree_next)).join)
            lookupRefOf (invalidateEntry q).1 + _
      rw [hq1, owedCount_append]
      cases q with
      | mk qr qreq =>
        rw [owedCount_invalidateTasks_mem s.lookup_requests s.tree_next qr qreq hq
              hinv.lookup_nodup]
        rw [hbg_count lookupRefOf (fun t ht => (hbg_new t ht).2.1)]
        unfold owed at hqpend
        unfold invalidateEntry
        cases hbs : qreq.butcher_status
        · rw [if_pos rfl]
          simp only [] at hqpend ⊢
          omega
        · rw [if_neg (by simp)]
          simp only [] at hqpend ⊢
          omega
        · rw [if_neg (by simp)]
          simp only [] at hqpend ⊢
          omega
    · intro p hp
      have := hinv.lr_pending p hp
      show p.2.pending_count
        = owedCount (s.tasks ++ (s.lookup_requests.map (invalidateTasks s.tree_next)).join)
            lrRefOf p.1 + _
      rw [owedCount_append, hjoin_lr,
        hbg_count lrRefOf (fun t ht => (hbg_new t ht).2.2)]
      unfold owed at this
      omega
    · exact hinv.info_entry_lt
    · intro p hp
      replace hp : p ∈ s.lookup_requests.map invalidateEntry := hp
      rw [List.mem_map] at hp
      obtain ⟨q, hq, hpq⟩ := hp
      subst hpq
      have hq1 : (invalidateEntry q).1 = q.1 := by
        unfold invalidateEntry
        cases q.2.butcher_status <;> rfl
      rw [hq1]
      exact hinv.lookup_entry_lt q hq
    · exact hinv.lr_entry_lt
    · intro t ht r hr
      replace ht : t ∈ (s.tasks ++ (s.lookup_requests.map (invalidateTasks s.tree_next)).join)
          ++ (s.bg_tasks ++ (match maybe_task with | none => [] | some t => [t])) := ht
      simp only [List.mem_append] at ht
      rcases ht with (ht | ht) | (ht | ht)
      · exact hinv.info_task_lt t (by rw [List.mem_append]; exact Or.inl ht) r hr
      · obtain ⟨p, _, hpt⟩ := mem_join_invalidateTasks _ _ t ht
        subst hpt
        simp [infoRefOf] at hr
      · exact hinv.info_task_lt t (by rw [List.mem_append]; exact Or.inr ht) r hr
      · rw [(hbg_new t ht).1] at hr; cases hr
    · intro t ht r hr
      replace ht : t ∈ (s.tasks ++ (s.lookup_requests.map (invalidateTasks s.tree_next)).join)
          ++ (s.bg_tasks ++ (match maybe_task with | none => [] | some t => [t])) := ht
      simp only [List.mem_append] at ht
      rcases ht with (ht | ht) | (ht | ht)
      · exact hinv.lookup_task_lt t (by rw [List.mem_append]; exact Or.inl ht) r hr
      · obtain ⟨p, hp, hpt⟩ := mem_join_invalidateTasks _ _ t ht
        subst hpt
        simp only [lookupRefOf, Option.some.injEq] at hr
        subst hr
        exact hinv.lookup_entry_lt p hp
      · exact hinv.lookup_task_lt t (by rw [List.mem_append]; exact Or.inr ht) r hr
      · rw [(hbg_new t ht).2.1] at hr; cases hr
    · intro t ht r hr
      replace ht : t ∈ (s.tasks ++ (s.lookup_requests.map (invalidateTasks s.tree_next)).join)
          ++ (s.bg_tasks ++ (match maybe_task with | none => [] | some t => [t])) := ht
      simp only [List.mem_append] at ht
      rcases ht with (ht | ht) | (ht | ht)
      · exact hinv.lr_task_lt t (by rw [List.mem_append]; exact Or.inl ht) r hr
      · obtain ⟨p, _, hpt⟩ := mem_join_invalidateTasks _ _ t ht
        subst hpt
        simp [lrRefOf] at hr
      · exact hinv.lr_task_lt t (by rw [List.mem_append]; exact Or.inr ht) r hr
      · rw [(hbg_new t ht).2.2] at hr; cases hr
    · exact hinv.info_nodup
    · show ((s.lookup_requests.map invalidateEntry).map Prod.fst).Nodup
      rw [map_fst_invalidateEntry]
      exact hinv.lookup_nodup
    · exact hinv.lr_nodup
    · intro t ht
      replace ht : t ∈ s.bg_tasks ++ (match maybe_task with | none => [] | some t => [t]) := ht
      rw [List.mem_append] at ht
      rcases ht with ht | ht
      · exact hinv.bg_noRef t ht
      · exact hbg_new t ht

/-- Erasing a completed task that owes nothing to any tracker preserves
the accounting. -/
theorem pendingInv_erase_noref (s : MgrState) (i : Nat) (t : TaskKind)
    (hti : s.tasks[i]? = some t)
    (hnone : infoRefOf t = none ∧ lookupRefOf t = none ∧ lrRefOf t = none)
    (hinv : PendingInv s) :
    PendingInv { s with tasks := s.tasks.eraseIdx i } := by
  have herase : ∀ (f : TaskKind → Option Nat), f t = none →
      ∀ r, owedCount (s.tasks.eraseIdx i) f r = owedCount s.tasks f r := by
    intro f hf r
    rw [owedCount_eraseIdx s.tasks i t hti f r, hf, if_neg (by simp)]
    omega
  have hsub2 : ∀ u, u ∈ s.tasks.eraseIdx i ++ s.bg_tasks → u ∈ s.tasks ++ s.bg_tasks := by
    intro u hu
    rw [List.mem_append] at hu ⊢
    rcases hu with hu | hu
    · exact Or.inl ((List.eraseIdx_sublist s.tasks i).subset hu)
    · exact Or.inr hu
  refine ⟨?_, ?_, ?_, hinv.info_entry_lt, hinv.lookup_entry_lt, hinv.lr_entry_lt,
    ?_, ?_, ?_, hinv.info_nodup, hinv.lookup_nodup, hinv.lr_nodup, hinv.bg_noRef⟩
  · intro p hp
    have := hinv.info_pending p hp
    show p.2.pending_count = owedCount (s.tasks.eraseIdx i) infoRefOf p.1
      + owedCount s.bg_tasks infoRefOf p.1
    rw [herase infoRefOf hnone.1]
    exact this
  · intro p hp
    have := hinv.lookup_pending p hp
    show p.2.pending_count = owedCount (s.tasks.eraseIdx i) lookupRefOf p.1
      + owedCount s.bg_tasks lookupRefOf p.1
    rw [herase lookupRefOf hnone.2.1]
    exact this
  · intro p hp
    have := hinv.lr_pending p hp
    show p.2.pending_count = owedCount (s.tasks.eraseIdx i) lrRefOf p.1
      + owedCount s.bg_tasks lrRefOf p.1
    rw [herase lrRefOf hnone.2.2]
    exact this
  · intro u hu r hr
    exact hinv.info_task_lt u (hsub2 u hu) r hr
  · intro u hu r hr
    exact hinv.lookup_task_lt u (hsub2 u hu) r hr
  · intro u hu r hr
    exact hinv.lr_task_lt u (hsub2 u hu) r hr

/-- Erasing a completed background task preserves the accounting:
background tasks never owe tracker results. -/
theorem pendingInv_erase_bg (s : MgrState) (i : Nat) (t : TaskKind)
    (hti : s.bg_tasks[i]? = some t) (hinv : PendingInv s) :
    PendingInv { s with bg_tasks := s.bg_tasks.eraseIdx i } := by
  have hmem : t ∈ s.bg_tasks := List.getElem?_mem hti
  have hnone := hinv.bg_noRef t hmem
  have herase : ∀ (f : TaskKind → Option Nat), f t = none →
      ∀ r, owedCount (s.bg_tasks.eraseIdx i) f r = owedCount s.bg_tasks f r := by
    intro f hf r
    rw [owedCount_eraseIdx s.bg_tasks i t hti f r, hf, if_neg (by simp)]
    omega
  have hsub2 : ∀ u, u ∈ s.tasks ++ s.bg_tasks.eraseIdx i → u ∈ s.tasks ++ s.bg_tasks := by
    intro u hu
    rw [List.mem_append] at hu ⊢
    rcases hu with hu | hu
    · exact Or.inl hu
    · exact Or.inr ((List.eraseIdx_sublist s.bg_tasks i).subset hu)
  refine ⟨?_, ?_, ?_, hinv.info_entry_lt, hinv.lookup_entry_lt, hinv.lr_entry_lt,
    ?_, ?_, ?_, hinv.info_nodup, hinv.lookup_nodup, hinv.lr_nodup, ?_⟩
  · intro p hp
    have := hinv.info_pending p hp
    show p.2.pending_count = owedCount s.tasks infoRefOf p.1
      + owedCount (s.bg_tasks.eraseIdx i) infoRefOf p.1
    rw [herase infoRefOf hnone.1]
    exact this
  · intro p hp
    have := hinv.lookup_pending p hp
    show p.2.pending_count = owedCount s.tasks lookupRefOf p.1
      + owedCount (s.bg_tasks.eraseIdx i) lookupRefOf p.1
    rw [herase lookupRefOf hnone.2.1]
    exact this
  · intro p hp
    have := hinv.lr_pending p hp
    show p.2.pending_count = owedCount s.tasks lrRefOf p.1
      + owedCount (s.bg_tasks.eraseIdx i) lrRefOf p.1
    rw [herase lrRefOf hnone.2.2]
    exact this
  · intro u hu r hr
    exact hinv.info_task_lt u (hsub2 u hu) r hr
  · intro u hu r hr
    exact hinv.lookup_task_lt u (hsub2 u hu) r hr
  · intro u hu r hr
    exact hinv.lr_task_lt u (hsub2 u hu) r hr
  · intro u hu
    exact hinv.bg_noRef u ((List.eraseIdx_sublist s.bg_tasks i).subset hu)

/-- Which completion payloads decrement some tracker's pending count. -/
def resultDecrements : TaskResult → Bool
  | .infoButcher .. => true
  | .infoSearchTree .. => true
  | .lookupButcher .. => true
  | .lookupSearchTree .. => true
  | .lookupRangeSearchTree .. => true
  | _ => false

theorem taskMatches_info_shape (t : TaskKind) (ref : Nat) (info : Info)
    (h : taskMatches t (.infoButcher ref info) = true ∨
         taskMatches t (.infoSearchTree ref info) = true) :
    infoRefOf t = some ref := by
  rcases h with h | h <;>
    (cases t <;> simp [taskMatches] at h <;> simp [infoRefOf, h])

theorem taskMatches_lookup_shape (t : TaskKind) (ref : Nat) (found : Option ValueCell)
    (h : taskMatches t (.lookupButcher ref found) = true ∨
         taskMatches t (.lookupSearchTree ref found) = true) :
    lookupRefOf t = some ref := by
  rcases h with h | h <;>
    (cases t <;> simp [taskMatches] at h <;> simp [lookupRefOf, h])

theorem taskMatches_lr_shape (t : TaskKind) (ref : Nat) (items_rx : Nat)
    (h : taskMatches t (.lookupRangeSearchTree ref items_rx) = true) :
    lrRefOf t = some ref := by
  cases t <;> simp [taskMatches] at h <;> simp [lrRefOf, h]

theorem taskMatches_noref_shape (t : TaskKind) (r : TaskResult)
    (hm : taskMatches t r = true) (hnd : resultDecrements r = false)
    (herr : ∀ e, r ≠ .err e) :
    infoRefOf t = none ∧ lookupRefOf t = none ∧ lrRefOf t = none := by
  cases r <;> simp [resultDecrements] at hnd <;>
    first
    | (exact absurd rfl (herr _))
    | (cases t <;> simp [taskMatches] at hm <;>
        simp [infoRefOf, lookupRefOf, lrRefOf])

/-- Client-request handling preserves the accounting: `Info` and
`Lookup` register a tracker entry whose `pending_count` equals the
fan-out width; the other requests dispatch untracked tasks. -/
theorem pendingInv_handleRequest (s : MgrState) (rq : Request) (s' : MgrState)
    (outs : List Output) (hinv : PendingInv s)
    (h : handleRequest s rq = .next s' outs) : PendingInv s' := by
  cases rq with
  | info reply_tx =>
    simp only [handleRequest] at h
    cases h
    apply pendingInv_info_fanout s _
      { reply_tx, pending_count := 1 + s.search_trees.length, info_fold := Info.default }
      (.infoButcher s.info_next ::
        s.search_trees.map (fun t => .infoSearchTree s.info_next t.1))
      hinv
    · rfl
    · simp
      omega
    · rfl
    · rfl
    · rfl
    · rfl
    · rfl
    · rfl
    · rfl
    · intro t ht
      rcases List.mem_cons.mp ht with hc | hc
      · subst hc; rfl
      · rw [List.mem_map] at hc
        obtain ⟨tr, _, htr⟩ := hc
        subst htr; rfl
    · intro t ht
      rcases List.mem_cons.mp ht with hc | hc
      · subst hc; exact ⟨rfl, rfl⟩
      · rw [List.mem_map] at hc
        obtain ⟨tr, _, htr⟩ := hc
        subst htr; exact ⟨rfl, rfl⟩
  | insert key value reply_tx =>
    simp only [handleRequest] at h
    cases h
    apply pendingInv_of_untracked s _ [.insertButcher key value reply_tx] [] hinv
    · rfl
    · rfl
    · rfl
    · rfl
    · rfl
    · rfl
    · rfl
    · exact (List.append_nil _).symm
    all_goals
      intro t ht
      rcases List.mem_append.mp ht with hc | hc
      · rw [List.mem_singleton] at hc; subst hc; rfl
      · simp at hc
  | lookup key reply_tx =>
    simp only [handleRequest, launch_lookup_request] at h
    cases h
    apply pendingInv_lookup_fanout s _
      { key, reply_tx, butcher_status := .notReady,
        pending_count := 1 + s.search_trees.length, found_fold := none }
      (.lookupButcher s.lookup_next key ::
        s.search_trees.map (fun t => .lookupSearchTree s.lookup_next key t.1))
      hinv
    · rfl
    · simp
      omega
    · rfl
    · rfl
    · rfl
    · rfl
    · rfl
    · rfl
    · rfl
    · intro t ht
      rcases List.mem_cons.mp ht with hc | hc
      · subst hc; rfl
      · rw [List.mem_map] at hc
        obtain ⟨tr, _, htr⟩ := hc
        subst htr; rfl
    · intro t ht
      rcases List.mem_cons.mp ht with hc | hc
      · subst hc; exact ⟨rfl, rfl⟩
      · rw [List.mem_map] at hc
        obtain ⟨tr, _, htr⟩ := hc
        subst htr; exact ⟨rfl, rfl⟩
  | lookupRange range reply_tx =>
    simp only [handleRequest] at h
    cases h
    apply pendingInv_of_untracked s _ [.lookupRangeButcher range s.chan_next] [] hinv
    · rfl
    · rfl
    · rfl
    · rfl
    · rfl
    · rfl
    · rfl
    · exact (List.append_nil _).symm
    all_goals
      intro t ht
      rcases List.mem_append.mp ht with hc | hc
      · rw [List.mem_singleton] at hc; subst hc; rfl
      · simp at hc
  | remove key reply_tx =>
    simp only [handleRequest] at h
    cases h
    apply pendingInv_of_untracked s _ [.removeButcher key reply_tx] [] hinv
    · rfl
    · rfl
    · rfl
    · rfl
    · rfl
    · rfl
    · rfl
    · exact (List.append_nil _).symm
    all_goals
      intro t ht
      rcases List.mem_append.mp ht with hc | hc
      · rw [List.mem_singleton] at hc; subst hc; rfl
      · simp at hc
  | flushAll reply_tx =>
    simp only [handleRequest] at h
    cases h
    apply pendingInv_of_untracked s _ [.flushButcher s.flush_next] [] hinv
    · rfl
    · rfl
    · rfl
    · rfl
    · rfl
    · rfl
    · rfl
    · exact (List.append_nil _).symm
    all_goals
      intro t ht
      rcases List.mem_append.mp ht with hc | hc
      · rw [List.mem_singleton] at hc; subst hc; rfl
      · simp at hc

/-- Completion payloads that decrement no tracker preserve the
accounting from any invariant state. -/
theorem pendingInv_handleDone_nd (s : MgrState) (r : TaskResult) (s' : MgrState)
    (outs : List Output) (hinv : PendingInv s)
    (hnd : resultDecrements r = false)
    (h : handleDone s r = some (.next s' outs)) : PendingInv s' := by
  cases r with
  | err e => simp [handleDone] at h
  | infoButcher ref info => simp [resultDecrements] at hnd
  | infoSearchTree ref info => simp [resultDecrements] at hnd
  | lookupButcher ref found => simp [resultDecrements] at hnd
  | lookupSearchTree ref found => simp [resultDecrements] at hnd
  | lookupRangeSearchTree ref items_rx => simp [resultDecrements] at hnd
  | insertButcher =>
    simp only [handleDone] at h
    cases h
    exact hinv
  | removeButcher =>
    simp only [handleDone] at h
    cases h
    exact hinv
  | mergeLookupRangeSuccess =>
    simp only [handleDone] at h
    cases h
    exact hinv
  | demolishSearchTree =>
    simp only [handleDone] at h
    cases h
    exact hinv
  | retrieveValueSuccess =>
    simp only [handleDone] at h
    cases h
    exact hinv
  | mergeLookupRangeDeprecated modified_range key_values_tx =>
    simp only [handleDone] at h
    cases h
    apply pendingInv_of_untracked s _
      [.lookupRangeButcher modified_range key_values_tx] [] hinv
    · rfl
    · rfl
    · rfl
    · rfl
    · rfl
    · rfl
    · rfl
    · exact (List.append_nil _).symm
    all_goals
      intro t ht
      rcases List.mem_append.mp ht with hc | hc
      · rw [List.mem_singleton] at hc; subst hc; rfl
      · simp at hc
  | retrieveValueDeprecated key reply_tx =>
    simp only [handleDone, launch_lookup_request] at h
    cases h
    apply pendingInv_lookup_fanout s _
      { key, reply_tx, butcher_status := .notReady,
        pending_count := 1 + s.search_trees.length, found_fold := none }
      (.lookupButcher s.lookup_next key ::
        s.search_trees.map (fun t => .lookupSearchTree s.lookup_next key t.1))
      hinv
    · rfl
    · simp
      omega
    · rfl
    · rfl
    · rfl
    · rfl
    · rfl
    · rfl
    · rfl
    · intro t ht
      rcases List.mem_cons.mp ht with hc | hc
      · subst hc; rfl
      · rw [List.mem_map] at hc
        obtain ⟨tr, _, htr⟩ := hc
        subst htr; rfl
    · intro t ht
      rcases List.mem_cons.mp ht with hc | hc
      · subst hc; exact ⟨rfl, rfl⟩
      · rw [List.mem_map] at hc
        obtain ⟨tr, _, htr⟩ := hc
        subst htr; exact ⟨rfl, rfl⟩
  | lookupRangeButcher range key_values_tx iter_items =>
    simp only [handleDone] at h
    by_cases hempty : s.search_trees.isEmpty
    · rw [if_pos hempty] at h
      cases h
      apply pendingInv_of_untracked s _
        [] [.mergeLookupRange range key_values_tx iter_items []] hinv
      · rfl
      · rfl
      · rfl
      · rfl
      · rfl
      · rfl
      · exact (List.append_nil _).symm
      · rfl
      all_goals
        intro t ht
        rcases List.mem_append.mp ht with hc | hc
        · simp at hc
        · rw [List.mem_singleton] at hc; subst hc; rfl
    · rw [if_neg hempty] at h
      cases h
      apply pendingInv_lr_fanout s _
        { range, key_values_tx, butcher_iter_items := iter_items,
          merger_iters := [], pending_count := s.search_trees.length }
        (s.search_trees.map
          (fun t => .lookupRangeSearchTree s.lookup_range_next range t.1))
        hinv
      · rfl
      · simp
      · rfl
      · rfl
      · rfl
      · rfl
      · rfl
      · rfl
      · rfl
      · intro t ht
        rw [List.mem_map] at ht
        obtain ⟨tr, _, htr⟩ := ht
        subst htr; rfl
      · intro t ht
        rw [List.mem_map] at ht
        obtain ⟨tr, _, htr⟩ := ht
        subst htr; exact ⟨rfl, rfl⟩
  | flushButcher ref =>
    simp only [handleDone] at h
    cases hmode : s.mode with
    | regular => rw [hmode] at h; cases h
    | flushing tx =>
      rw [hmode] at h
      simp only [] at h
      cases hget : setGet s.flush_requests ref with
      | none => rw [hget] at h; cases h
      | some req =>
        rw [hget] at h
        simp only [] at h
        by_cases hbd : req.butcher_done
        · rw [if_pos hbd] at h; cases h
        · rw [if_neg hbd] at h
          by_cases hempty : s.search_trees.isEmpty
          · rw [if_pos hempty] at h
            cases h
            apply pendingInv_of_untracked s _ [] [] hinv
            · rfl
            · rfl
            · rfl
            · rfl
            · rfl
            · rfl
            · exact (List.append_nil _).symm
            · exact (List.append_nil _).symm
            all_goals
              intro t ht
              simp at ht
          · rw [if_neg hempty] at h
            cases h
            apply pendingInv_of_untracked s _
              (s.search_trees.map (fun t => .flushSearchTree ref t.1)) [] hinv
            · rfl
            · rfl
            · rfl
            · rfl
            · rfl
            · rfl
            · rfl
            · exact (List.append_nil _).symm
            all_goals
              intro t ht
              rcases List.mem_append.mp ht with hc | hc
              · rw [List.mem_map] at hc
                obtain ⟨tr, _, htr⟩ := hc
                subst htr; rfl
              · simp at hc
  | flushSearchTree ref =>
    simp only [handleDone] at h
    cases hmode : s.mode with
    | regular => rw [hmode] at h; cases h
    | flushing tx =>
      rw [hmode] at h
      simp only [] at h
      cases hget : setGet s.flush_requests ref with
      | none => rw [hget] at h; cases h
      | some req =>
        rw [hget] at h
        simp only [] at h
        by_cases hbd : !req.butcher_done
        · rw [if_pos hbd] at h; cases h
        · rw [if_neg hbd] at h
          by_cases hz : req.search_trees_pending_count = 0
          · rw [if_pos hz] at h; cases h
          · rw [if_neg hz] at h
            by_cases hz1 : req.search_trees_pending_count - 1 = 0
            · rw [if_pos hz1] at h
              cases h
              apply pendingInv_of_untracked s _ [] [] hinv
              · rfl
              · rfl
              · rfl
              · rfl
              · rfl
              · rfl
              · exact (List.append_nil _).symm
              · exact (List.append_nil _).symm
              all_goals
                intro t ht
                simp at ht
            · rw [if_neg hz1] at h
              cases h
              apply pendingInv_of_untracked s _ [] [] hinv
              · rfl
              · rfl
              · rfl
              · rfl
              · rfl
              · rfl
              · exact (List.append_nil _).symm
              · exact (List.append_nil _).symm
              all_goals
                intro t ht
                simp at ht
  | mergeSearchTrees a_ref b_ref root_block items_count =>
    simp only [handleDone] at h
    cases hga : setGet s.search_trees a_ref with
    | none => rw [hga] at h; cases h
    | some x =>
      rw [hga] at h
      simp only [] at h
      cases hgb : setGet (setRemove s.search_trees a_ref) b_ref with
      | none => rw [hgb] at h; cases h
      | some y =>
        rw [hgb] at h
        simp only [] at h
        cases hmm : maybe_merge_search_trees
            (s.search_tree_refs.push ⟨items_count, s.tree_next⟩ items_count)
            (setRemove (setRemove s.search_trees a_ref) b_ref ++
              [(s.tree_next, .regular root_block)]) with
        | none => rw [hmm] at h; cases h
        | some pair =>
          obtain ⟨refs'', maybe_task⟩ := pair
          rw [hmm] at h
          simp only [] at h
          cases maybe_task with
          | none =>
            cases h
            apply pendingInv_of_untracked s _
              [.demolishSearchTree a_ref, .demolishSearchTree b_ref] [] hinv
            · rfl
            · rfl
            · rfl
            · rfl
            · rfl
            · rfl
            · rfl
            · show s.bg_tasks ++ [] = s.bg_tasks ++ []
              rfl
            all_goals
              intro t ht
              rcases List.mem_append.mp ht with hc | hc
              · rcases List.mem_cons.mp hc with hc1 | hc1
                · subst hc1; rfl
                · rw [List.mem_singleton] at hc1; subst hc1; rfl
              · simp at hc
          | some u =>
            obtain ⟨ta, tb, hab⟩ := maybe_merge_task_shape _ _ _ _ hmm
            subst hab
            cases h
            apply pendingInv_of_untracked s _
              [.demolishSearchTree a_ref, .demolishSearchTree b_ref]
              [.mergeSearchTrees ta tb] hinv
            · rfl
            · rfl
            · rfl
            · rfl
            · rfl
            · rfl
            · rfl
            · rfl
            all_goals
              intro t ht
              rcases List.mem_append.mp ht with hc | hc
              · rcases List.mem_cons.mp hc with hc1 | hc1
                · subst hc1; rfl
                · rw [List.mem_singleton] at hc1; subst hc1; rfl
              · rw [List.mem_singleton] at hc; subst hc; rfl

/-- One dispatched busyloop event preserves the accounting invariant. -/
theorem pendingInv_busystep (s : MgrState) (ev : Event) (s' : MgrState)
    (outs : List Output) (hinv : PendingInv s)
    (h : busystep s ev = some (.next s' outs)) : PendingInv s' := by
  cases ev with
  | request r =>
    cases r with
    | none => simp [busystep] at h
    | some rq =>
      simp only [busystep] at h
      injection h with h
      exact pendingInv_handleRequest s rq s' outs hinv h
  | flushCache c =>
    cases c with
    | none => simp [busystep] at h
    | some pr =>
      obtain ⟨cache, cache_len⟩ := pr
      simp only [busystep] at h
      exact pendingInv_flushCache s cache_len cache s' outs hinv h
  | fgTaskDone i r =>
    simp only [busystep] at h
    cases hti : s.tasks[i]? with
    | none => rw [hti] at h; cases h
    | some t =>
      rw [hti] at h
      simp only [] at h
      by_cases hm : taskMatches t r = true
      swap
      · rw [if_neg hm] at h; cases h
      rw [if_pos hm] at h
      cases r with
      | err e => simp [handleDone] at h
      | infoButcher ref info =>
        have htr := taskMatches_info_shape t ref info (Or.inl hm)
        simp only [handleDone, handleInfoDone] at h
        cases hget : setGet s.info_requests ref with
        | none => rw [hget] at h; cases h
        | some req =>
          rw [hget] at h
          simp only [] at h
          by_cases hz : req.pending_count = 0
          · rw [if_pos hz] at h; cases h
          · rw [if_neg hz] at h
            by_cases hz1 : req.pending_count - 1 = 0
            · rw [if_pos hz1] at h
              cases h
              exact (pendingInv_info_done s i t ref req
                { req with pending_count := req.pending_count - 1,
                           info_fold := req.info_fold.add info }
                hti htr hinv hget rfl hz).1
            · rw [if_neg hz1] at h
              cases h
              exact (pendingInv_info_done s i t ref req
                { req with pending_count := req.pending_count - 1,
                           info_fold := req.info_fold.add info }
                hti htr hinv hget rfl hz).2
      | infoSearchTree ref info =>
        have htr := taskMatches_info_shape t ref info (Or.inr hm)
        simp only [handleDone, handleInfoDone] at h
        cases hget : setGet s.info_requests ref with
        | none => rw [hget] at h; cases h
        | some req =>
          rw [hget] at h
          simp only [] at h
          by_cases hz : req.pending_count = 0
          · rw [if_pos hz] at h; cases h
          · rw [if_neg hz] at h
            by_cases hz1 : req.pending_count - 1 = 0
            · rw [if_pos hz1] at h
              cases h
              exact (pendingInv_info_done s i t ref req
                { req with pending_count := req.pending_count - 1,
                           info_fold := req.info_fold.add info }
                hti htr hinv hget rfl hz).1
            · rw [if_neg hz1] at h
              cases h
              exact (pendingInv_info_done s i t ref req
                { req with pending_count := req.pending_count - 1,
                           info_fold := req.info_fold.add info }
                hti htr hinv hget rfl hz).2
      | lookupButcher ref found =>
        have htr := taskMatches_lookup_shape t ref found (Or.inl hm)
        simp only [handleDone] at h
        cases hget : setGet s.lookup_requests ref with
        | none => rw [hget] at h; cases h
        | some req =>
          rw [hget] at h
          simp only [] at h
          by_cases hz : req.pending_count = 0
          · rw [if_pos hz] at h; cases h
          · rw [if_neg hz] at h
            cases hbs : req.butcher_status with
            | done => rw [hbs] at h; cases h
            | notReady =>
              rw [hbs] at h
              simp only [finishLookup] at h
              by_cases hz1 : req.pending_count - 1 = 0
              · rw [if_pos hz1] at h
                cases h
                have hdec := (pendingInv_lookup_done s i t ref req
                  { req with pending_count := req.pending_count - 1,
                             butcher_status := .done,
                             found_fold :=
                               if replace_fold_found req.found_fold found then found
                               else req.found_fold }
                  hti htr hinv hget rfl hz).1
                apply pendingInv_of_untracked _ _
                  [.retrieveValue req.key
                    (if replace_fold_found req.found_fold found then found
                     else req.found_fold) req.reply_tx] [] hdec
                · rfl
                · rfl
                · rfl
                · rfl
                · rfl
                · rfl
                · rfl
                · exact (List.append_nil _).symm
                all_goals
                  intro u hu
                  rcases List.mem_append.mp hu with hc | hc
                  · rw [List.mem_singleton] at hc; subst hc; rfl
                  · simp at hc
              · rw [if_neg hz1] at h
                cases h
                exact (pendingInv_lookup_done s i t ref req
                  { req with pending_count := req.pending_count - 1,
                             butcher_status := .done,
                             found_fold :=
                               if replace_fold_found req.found_fold found then found
                               else req.found_fold }
                  hti htr hinv hget rfl hz).2
            | invalidated =>
              rw [hbs] at h
              simp only [finishLookup] at h
              by_cases hz1 : req.pending_count - 1 = 0
              · rw [if_pos hz1] at h
                cases h
                have hdec := (pendingInv_lookup_done s i t ref req
                  { req with pending_count := req.pending_count - 1,
                             butcher_status := .invalidated }
                  hti htr hinv hget rfl hz).1
                apply pendingInv_of_untracked _ _
                  [.retrieveValue req.key req.found_fold req.reply_tx] [] hdec
                · rfl
                · rfl
                · rfl
                · rfl
                · rfl
                · rfl
                · rfl
                · exact (List.append_nil _).symm
                all_goals
                  intro u hu
                  rcases List.mem_append.mp hu with hc | hc
                  · rw [List.mem_singleton] at hc; subst hc; rfl
                  · simp at hc
              · rw [if_neg hz1] at h
                cases h
                exact (pendingInv_lookup_done s i t ref req
                  { req with pending_count := req.pending_count - 1,
                             butcher_status := .invalidated }
                  hti htr hinv hget rfl hz).2
      | lookupSearchTree ref found =>
        have htr := taskMatches_lookup_shape t ref found (Or.inr hm)
        simp only [handleDone, finishLookup] at h
        cases hget : setGet s.lookup_requests ref with
        | none => rw [hget] at h; cases h
        | some req =>
          rw [hget] at h
          simp only [] at h
          by_cases hz : req.pending_count = 0
          · rw [if_pos hz] at h; cases h
          · rw [if_neg hz] at h
            by_cases hz1 : req.pending_count - 1 = 0
            · rw [if_pos hz1] at h
              cases h
              have hdec := (pendingInv_lookup_done s i t ref req
                { req with pending_count := req.pending_count - 1,
                           found_fold :=
                             if replace_fold_found req.found_fold found then found
                             else req.found_fold }
                hti htr hinv hget rfl hz).1
              apply pendingInv_of_untracked _ _
                [.retrieveValue req.key
                  (if replace_fold_found req.found_fold found then found
                   else req.found_fold) req.reply_tx] [] hdec
              · rfl
              · rfl
              · rfl
              · rfl
              · rfl
              · rfl
              · rfl
              · exact (List.append_nil _).symm
              all_goals
                intro u hu
                rcases List.mem_append.mp hu with hc | hc
                · rw [List.mem_singleton] at hc; subst hc; rfl
                · simp at hc
            · rw [if_neg hz1] at h
              cases h
              exact (pendingInv_lookup_done s i t ref req
                { req with pending_count := req.pending_count - 1,
                           found_fold :=
                             if replace_fold_found req.found_fold found then found
                             else req.found_fold }
                hti htr hinv hget rfl hz).2
      | lookupRangeSearchTree ref items_rx =>
        have htr := taskMatches_lr_shape t ref items_rx hm
        simp only [handleDone] at h
        cases hget : setGet s.lookup_range_requests ref with
        | none => rw [hget] at h; cases h
        | some req =>
          rw [hget] at h
          simp only [] at h
          by_cases hz : req.pending_count = 0
          · rw [if_pos hz] at h; cases h
          · rw [if_neg hz] at h
            by_cases hz1 : req.pending_count - 1 = 0
            · rw [if_pos hz1] at h
              cases h
              have hdec := (pendingInv_lr_done s i t ref req
                { req with pending_count := req.pending_count - 1,
                           merger_iters := req.merger_iters ++ [items_rx] }
                hti htr hinv hget rfl hz).1
              apply pendingInv_of_untracked _ _
                [] [.mergeLookupRange req.range req.key_values_tx
                     req.butcher_iter_items (req.merger_iters ++ [items_rx])] hdec
              · rfl
              · rfl
              · rfl
              · rfl
              · rfl
              · rfl
              · exact (List.append_nil _).symm
              · rfl
              all_goals
                intro u hu
                rcases List.mem_append.mp hu with hc | hc
                · simp at hc
                · rw [List.mem_singleton] at hc; subst hc; rfl
            · rw [if_neg hz1] at h
              cases h
              exact (pendingInv_lr_done s i t ref req
                { req with pending_count := req.pending_count - 1,
                           merger_iters := req.merger_iters ++ [items_rx] }
                hti htr hinv hget rfl hz).2
      | insertButcher =>
        have hnone := taskMatches_noref_shape t .insertButcher hm rfl
          (fun e h' => by cases h')
        exact pendingInv_handleDone_nd _ _ s' outs
          (pendingInv_erase_noref s i t hti hnone hinv)
          (by simp [resultDecrements]) h
      | removeButcher =>
        have hnone := taskMatches_noref_shape t .removeButcher hm rfl
          (fun e h' => by cases h')
        exact pendingInv_handleDone_nd _ _ s' outs
          (pendingInv_erase_noref s i t hti hnone hinv)
          (by simp [resultDecrements]) h
      | lookupRangeButcher range key_values_tx iter_items =>
        have hnone := taskMatches_noref_shape t
          (.lookupRangeButcher range key_values_tx iter_items) hm rfl
          (fun e h' => by cases h')
        exact pendingInv_handleDone_nd _ _ s' outs
          (pendingInv_erase_noref s i t hti hnone hinv)
          (by simp [resultDecrements]) h
      | mergeLookupRangeSuccess =>
        have hnone := taskMatches_noref_shape t .mergeLookupRangeSuccess hm rfl
          (fun e h' => by cases h')
        exact pendingInv_handleDone_nd _ _ s' outs
          (pendingInv_erase_noref s i t hti hnone hinv)
          (by simp [resultDecrements]) h
      | mergeLookupRangeDeprecated modified_range key_values_tx =>
        have hnone := taskMatches_noref_shape t
          (.mergeLookupRangeDeprecated modified_range key_values_tx) hm rfl
          (fun e h' => by cases h')
        exact pendingInv_handleDone_nd _ _ s' outs
          (pendingInv_erase_noref s i t hti hnone hinv)
          (by simp [resultDecrements]) h
      | flushButcher ref =>
        have hnone := taskMatches_noref_shape t (.flushButcher ref) hm rfl
          (fun e h' => by cases h')
        exact pendingInv_handleDone_nd _ _ s' outs
          (pendingInv_erase_noref s i t hti hnone hinv)
          (by simp [resultDecrements]) h
      | flushSearchTree ref =>
        have hnone := taskMatches_noref_shape t (.flushSearchTree ref) hm rfl
          (fun e h' => by cases h')
        exact pendingInv_handleDone_nd _ _ s' outs
          (pendingInv_erase_noref s i t hti hnone hinv)
          (by simp [resultDecrements]) h
      | mergeSearchTrees a_ref b_ref root_block items_count =>
        have hnone := taskMatches_noref_shape t
          (.mergeSearchTrees a_ref b_ref root_block items_count) hm rfl
          (fun e h' => by cases h')
        exact pendingInv_handleDone_nd _ _ s' outs
          (pendingInv_erase_noref s i t hti hnone hinv)
          (by simp [resultDecrements]) h
      | demolishSearchTree =>
        have hnone := taskMatches_noref_shape t .demolishSearchTree hm rfl
          (fun e h' => by cases h')
        exact pendingInv_handleDone_nd _ _ s' outs
          (pendingInv_erase_noref s i t hti hnone hinv)
          (by simp [resultDecrements]) h
      | retrieveValueSuccess =>
        have hnone := taskMatches_noref_shape t .retrieveValueSuccess hm rfl
          (fun e h' => by cases h')
        exact pendingInv_handleDone_nd _ _ s' outs
          (pendingInv_erase_noref s i t hti hnone hinv)
          (by simp [resultDecrements]) h
      | retrieveValueDeprecated key reply_tx =>
        have hnone := taskMatches_noref_shape t
          (.retrieveValueDeprecated key reply_tx) hm rfl
          (fun e h' => by cases h')
        exact pendingInv_handleDone_nd _ _ s' outs
          (pendingInv_erase_noref s i t hti hnone hinv)
          (by simp [resultDecrements]) h
  | bgTaskDone i r =>
    simp only [busystep] at h
    cases hti : s.bg_tasks[i]? with
    | none => rw [hti] at h; cases h
    | some t =>
      rw [hti] at h
      simp only [] at h
      by_cases hm : taskMatches t r = true
      swap
      · rw [if_neg hm] at h; cases h
      rw [if_pos hm] at h
      have hnoref := hinv.bg_noRef t (List.getElem?_mem hti)
      cases hr : resultDecrements r with
      | true =>
        exfalso
        cases r with
        | infoButcher ref info =>
          have := taskMatches_info_shape t ref info (Or.inl hm)
          rw [hnoref.1] at this; cases this
        | infoSearchTree ref info =>
          have := taskMatches_info_shape t ref info (Or.inr hm)
          rw [hnoref.1] at this; cases this
        | lookupButcher ref found =>
          have := taskMatches_lookup_shape t ref found (Or.inl hm)
          rw [hnoref.2.1] at this; cases this
        | lookupSearchTree ref found =>
          have := taskMatches_lookup_shape t ref found (Or.inr hm)
          rw [hnoref.2.1] at this; cases this
        | lookupRangeSearchTree ref items_rx =>
          have := taskMatches_lr_shape t ref items_rx hm
          rw [hnoref.2.2] at this; cases this
        | err e => simp [resultDecrements] at hr
        | insertButcher => simp [resultDecrements] at hr
        | removeButcher => simp [resultDecrements] at hr
        | lookupRangeButcher rg tx it => simp [resultDecrements] at hr
        | mergeLookupRangeSuccess => simp [resultDecrements] at hr
        | mergeLookupRangeDeprecated mr tx => simp [resultDecrements] at hr
        | flushButcher ref => simp [resultDecrements] at hr
        | flushSearchTree ref => simp [resultDecrements] at hr
        | mergeSearchTrees a b rb ic => simp [resultDecrements] at hr
        | demolishSearchTree => simp [resultDecrements] at hr
        | retrieveValueSuccess => simp [resultDecrements] at hr
        | retrieveValueDeprecated k tx => simp [resultDecrements] at hr
      | false =>
        exact pendingInv_handleDone_nd _ _ s' outs
          (pendingInv_erase_bg s i t hti hinv) hr h

/-- C4: the pending-count accounting invariant - every tracker entry's
`pending_count` equals the number of task results still owed to it,
entries being created at fan-out width, incremented per extra scheduled
task, decremented per arriving result and removed exactly at zero -
holds in the empty state and is preserved by every busyloop
iteration. -/
theorem pending_count_tracks_owed :
    PendingInv emptyMgr
  ∧ (∀ (s : MgrState) (ev : Option Event) (s' : MgrState) (outs : List Output),
      PendingInv s → loopIter s ev = some (.next s' outs) → PendingInv s') := by
  constructor
  · refine ⟨?_, ?_, ?_, ?_, ?_, ?_, ?_, ?_, ?_, ?_, ?_, ?_, ?_⟩ <;>
      simp [emptyMgr]
  · intro s ev s' outs hinv hstep
    unfold loopIter at hstep
    cases hplan : selectPlan s.mode s.tasks.length s.bg_tasks.length with
    | ackAndContinue tx =>
      rw [hplan] at hstep
      cases ev with
      | none =>
        simp only [] at hstep
        cases hstep
        exact ⟨hinv.info_pending, hinv.lookup_pending, hinv.lr_pending,
          hinv.info_entry_lt, hinv.lookup_entry_lt, hinv.lr_entry_lt,
          hinv.info_task_lt, hinv.lookup_task_lt, hinv.lr_task_lt,
          hinv.info_nodup, hinv.lookup_nodup, hinv.lr_nodup, hinv.bg_noRef⟩
      | some e => simp only [] at hstep; cases hstep
    | poll a b c d =>
      rw [hplan] at hstep
      cases ev with
      | none => simp only [] at hstep; cases hstep
      | some e =>
        simp only [] at hstep
        by_cases hp : eventPolled e (.poll a b c d) = true
        · rw [if_pos hp] at hstep
          exact pendingInv_busystep s e s' outs hinv hstep
        · rw [if_neg hp] at hstep; cases hstep

def c4after : MgrState :=
  { emptyMgr with
    info_requests := [(0, { reply_tx := 3, pending_count := 1,
                            info_fold := Info.default })],
    info_next := 1,
    tasks := [.infoButcher 0] }

theorem pending_count_tracks_owed_witness :
    loopIter emptyMgr (some (.request (some (.info 3)))) = some (.next c4after [])
  ∧ PendingInv c4after := by
  have hstep : loopIter emptyMgr (some (.request (some (.info 3))))
      = some (.next c4after []) := by decide
  exact ⟨hstep,
    pending_count_tracks_owed.2 emptyMgr _ c4after []
      pending_count_tracks_owed.1 hstep⟩

/-! ## Merger scan/drain characterization (C3, C7, C10) -/

/-- Total view of iterator `j`'s front key (`[]` when absent). -/
def iterKey (iters : List KeyValuesIter) (j : Nat) : List Nat :=
  match iters[j]? with
  | some it =>
    match it.iter_state with
    | .frontItem kv => kv.key
    | .notReady => []
  | none => []

/-- Total view of iterator `j`'s front item (a dummy when absent). -/
def iterItem (iters : List KeyValuesIter) (j : Nat) : KeyValuePair :=
  match iters[j]? with
  | some it =>
    match it.iter_state with
    | .frontItem kv => kv
    | .notReady => ⟨[], ⟨0, 0⟩⟩
  | none => ⟨[], ⟨0, 0⟩⟩

/-- The advance set the scan has built after passing positions
`0..n-1`: the indices whose key equals the minimum key seen so far, most
recently linked first (so in strictly descending position order). -/
def chainFoldAux (keyAt : Nat → List Nat) : Nat → List Nat
  | 0 => []
  | j + 1 =>
    match chainFoldAux keyAt j with
    | [] => [j]
    | i :: c =>
      match bytesCmp (keyAt j) (keyAt i) with
      | .lt => [j]
      | .eq => j :: i :: c
      | .gt => i :: c

theorem chainFoldAux_eq_nil_iff (keyAt : Nat → List Nat) (n : Nat) :
    chainFoldAux keyAt n = [] ↔ n = 0 := by
  constructor
  · intro h
    cases n with
    | zero => rfl
    | succ j =>
      simp only [chainFoldAux] at h
      cases hc : chainFoldAux keyAt j with
      | nil => rw [hc] at h; cases h
      | cons i c =>
        rw [hc] at h
        simp only [] at h
        cases hcmp : bytesCmp (keyAt j) (keyAt i) <;> rw [hcmp] at h <;> cases h
  · intro h; subst h; rfl

/-- Full characterization of the advance set over the first `n`
positions: its elements are below `n` and share the head's key, every
position below `n` is either in the set or has a strictly greater key,
and positions strictly descend. -/
theorem chainFoldAux_charac (keyAt : Nat → List Nat) (n : Nat) (i : Nat) (c : List Nat)
    (h : chainFoldAux keyAt n = i :: c) :
    (∀ x ∈ i :: c, x < n ∧ bytesCmp (keyAt x) (keyAt i) = .eq)
  ∧ (∀ j, j < n → (j ∈ i :: c ∨ bytesLt (keyAt i) (keyAt j)))
  ∧ List.Pairwise (fun a b => b < a) (i :: c) := by
  induction n generalizing i c with
  | zero => cases h
  | succ m ih =>
    simp only [chainFoldAux] at h
    cases hc : chainFoldAux keyAt m with
    | nil =>
      rw [hc] at h
      have hm : m = 0 := (chainFoldAux_eq_nil_iff keyAt m).mp hc
      subst hm
      cases h
      refine ⟨?_, ?_, ?_⟩
      · intro x hx
        simp only [List.mem_singleton] at hx
        subst hx
        exact ⟨Nat.lt_succ_self 0, bytesCmp_refl _⟩
      · intro j hj
        have : j = 0 := by omega
        subst this
        exact Or.inl (by simp)
      · simp
    | cons i0 c0 =>
      rw [hc] at h
      simp only [] at h
      obtain ⟨helem, hcompl, hsorted⟩ := ih i0 c0 hc
      have hi0m : i0 < m := (helem i0 (by simp)).1
      cases hcmp : bytesCmp (keyAt m) (keyAt i0) <;> rw [hcmp] at h
      · -- strictly smaller key at m: the set restarts at [m]
        cases h
        refine ⟨?_, ?_, ?_⟩
        · intro x hx
          simp only [List.mem_singleton] at hx
          subst hx
          exact ⟨by omega, bytesCmp_refl _⟩
        · intro j hj
          by_cases hjm : j = m
          · subst hjm; exact Or.inl (by simp)
          · right
            have hjm' : j < m := by omega
            rcases hcompl j hjm' with hin | hgt
            · have hkey := (helem j hin).2
              have : keyAt j = keyAt i0 := (bytesCmp_eq_iff _ _).mp hkey
              rw [this]
              exact hcmp
            · exact bytesLt_trans hcmp hgt
        · simp
      · -- equal key: m is prepended
        cases h
        have hkm : keyAt m = keyAt i0 := (bytesCmp_eq_iff _ _).mp hcmp
        refine ⟨?_, ?_, ?_⟩
        · intro x hx
          rcases List.mem_cons.mp hx with hx | hx
          · subst hx
            exact ⟨by omega, bytesCmp_refl _⟩
          · have := helem x hx
            refine ⟨by omega, ?_⟩
            rw [hkm]
            exact this.2
        · intro j hj
          by_cases hjm : j = m
          · subst hjm; exact Or.inl (by simp)
          · have hjm' : j < m := by omega
            rcases hcompl j hjm' with hin | hgt
            · exact Or.inl (List.mem_cons.mpr (Or.inr hin))
            · right
              rw [hkm]
              exact hgt
        · refine List.pairwise_cons.mpr ⟨?_, hsorted⟩
          intro x hx
          exact (helem x hx).1
      · -- strictly greater key at m: the set is unchanged
        cases h
        refine ⟨?_, ?_, ?_⟩
        · intro x hx
          have := helem x hx
          exact ⟨by omega, this.2⟩
        · intro j hj
          by_cases hjm : j = m
          · subst hjm
            right
            exact (bytesCmp_gt_iff_lt _ _).mp hcmp
          · exact hcompl j (by omega)
        · exact hsorted

theorem chainFoldAux_congr (k1 k2 : Nat → List Nat) (n : Nat)
    (h : ∀ j, j < n → k1 j = k2 j) :
    chainFoldAux k1 n = chainFoldAux k2 n := by
  induction n with
  | zero => rfl
  | succ j ih =>
    simp only [chainFoldAux]
    rw [ih (fun x hx => h x (by omega))]
    cases hc : chainFoldAux k2 j with
    | nil => rw [h j (by omega)]
    | cons i c =>
      obtain ⟨helem, _, _⟩ := chainFoldAux_charac k2 j i c hc
      have hij : i < j := (helem i (by simp)).1
      simp only []
      rw [h j (by omega), h i (by omega)]


theorem chainFoldAux_mem_lt (keyAt : Nat → List Nat) (n : Nat) (x : Nat)
    (hx : x ∈ chainFoldAux keyAt n) : x < n := by
  cases hc : chainFoldAux keyAt n with
  | nil => rw [hc] at hx; cases hx
  | cons i c =>
    rw [hc] at hx
    exact ((chainFoldAux_charac keyAt n i c hc).1 x hx).1

/-- Iterator `j`'s front item when its state is `FrontItem` (`none` for
an absent or `NotReady` iterator). -/
def frontAt (iters : List KeyValuesIter) (j : Nat) : Option KeyValuePair :=
  match iters[j]? with
  | some it =>
    match it.iter_state with
    | .frontItem kv => some kv
    | .notReady => none
  | none => none

theorem frontAt_congr {l l' : List KeyValuesIter} {j : Nat} (h : l'[j]? = l[j]?) :
    frontAt l' j = frontAt l j := by
  unfold frontAt; rw [h]

theorem iterKey_congr {l l' : List KeyValuesIter} {j : Nat} (h : l'[j]? = l[j]?) :
    iterKey l' j = iterKey l j := by
  unfold iterKey; rw [h]

theorem iterItem_congr {l l' : List KeyValuesIter} {j : Nat} (h : l'[j]? = l[j]?) :
    iterItem l' j = iterItem l j := by
  unfold iterItem; rw [h]

theorem frontAt_eq_some {l : List KeyValuesIter} {j : Nat} {it : KeyValuesIter}
    {kv : KeyValuePair} (hget : l[j]? = some it)
    (hst : it.iter_state = .frontItem kv) :
    frontAt l j = some kv := by
  simp only [frontAt, hget, hst]

theorem iterKey_of_frontAt {l : List KeyValuesIter} {j : Nat} {kv : KeyValuePair}
    (h : frontAt l j = some kv) : iterKey l j = kv.key := by
  unfold frontAt at h
  unfold iterKey
  cases hg : l[j]? with
  | none => simp only [hg] at h; cases h
  | some it =>
    simp only [hg] at h ⊢
    cases hst : it.iter_state with
    | notReady => simp only [hst] at h; cases h
    | frontItem kv' =>
      simp only [hst] at h ⊢
      injection h with h
      rw [h]

theorem iterItem_of_frontAt {l : List KeyValuesIter} {j : Nat} {kv : KeyValuePair}
    (h : frontAt l j = some kv) : iterItem l j = kv := by
  unfold frontAt at h
  unfold iterItem
  cases hg : l[j]? with
  | none => simp only [hg] at h; cases h
  | some it =>
    simp only [hg] at h ⊢
    cases hst : it.iter_state with
    | notReady => simp only [hst] at h; cases h
    | frontItem kv' => simp_all

theorem frontAt_isSome_lt {l : List KeyValuesIter} {j : Nat}
    (h : (frontAt l j).isSome) : j < l.length := by
  by_contra hcon
  unfold frontAt at h
  rw [List.getElem?_eq_none (by omega)] at h
  cases h

theorem getElem?_swapRemove_of_lt (l : List KeyValuesIter) (i j : Nat)
    (hi : i < l.length) (hj : j < i) :
    (swapRemove l i)[j]? = l[j]? := by
  have hne : l ≠ [] := by intro hnil; subst hnil; simp at hi
  rw [swapRemove_eq l hne i, List.dropLast_eq_take, List.getElem?_take,
      List.length_set]
  rw [if_pos (by omega), List.getElem?_set, if_neg (by omega)]

theorem getElem?_setAdvanceNext_ne (l : List KeyValuesIter) (i j : Nat)
    (nxt : Option Nat) (hne : j ≠ i) :
    (setAdvanceNext l i nxt)[j]? = l[j]? := by
  unfold setAdvanceNext
  cases l[i]? with
  | none => rfl
  | some it => rw [List.getElem?_set, if_neg (by omega)]

theorem getElem?_setAdvanceNext_self (l : List KeyValuesIter) (i : Nat)
    (nxt : Option Nat) :
    (setAdvanceNext l i nxt)[i]?
      = (l[i]?).map (fun it => { it with advance_next_idx := nxt }) := by
  unfold setAdvanceNext
  cases hg : l[i]? with
  | none => exact hg
  | some it =>
    have hi : i < l.length := by
      by_contra hcon
      rw [List.getElem?_eq_none (by omega)] at hg
      cases hg
    rw [List.getElem?_set]
    simp [hi]

theorem frontAt_setAdvanceNext (l : List KeyValuesIter) (i : Nat) (nxt : Option Nat)
    (j : Nat) : frontAt (setAdvanceNext l i nxt) j = frontAt l j := by
  by_cases hji : j = i
  · subst hji
    unfold frontAt
    rw [getElem?_setAdvanceNext_self]
    cases l[j]? with
    | none => rfl
    | some it => rfl
  · exact frontAt_congr (getElem?_setAdvanceNext_ne l i j nxt hji)

theorem iterKey_setAdvanceNext (l : List KeyValuesIter) (i : Nat) (nxt : Option Nat)
    (j : Nat) : iterKey (setAdvanceNext l i nxt) j = iterKey l j := by
  by_cases hji : j = i
  · subst hji
    unfold iterKey
    rw [getElem?_setAdvanceNext_self]
    cases l[j]? with
    | none => rfl
    | some it => rfl
  · exact iterKey_congr (getElem?_setAdvanceNext_ne l i j nxt hji)

theorem iterItem_setAdvanceNext (l : List KeyValuesIter) (i : Nat) (nxt : Option Nat)
    (j : Nat) : iterItem (setAdvanceNext l i nxt) j = iterItem l j := by
  by_cases hji : j = i
  · subst hji
    unfold iterItem
    rw [getElem?_setAdvanceNext_self]
    cases l[j]? with
    | none => rfl
    | some it => rfl
  · exact iterItem_congr (getElem?_setAdvanceNext_ne l i j nxt hji)

/-- The linked advance set: `head` points at the first index and each
linked iterator's `advance_next_idx` at the next. -/
inductive ChainRel (iters : List KeyValuesIter) : Option Nat → List Nat → Prop
  | nil : ChainRel iters none []
  | cons (i : Nat) (c : List Nat) (it : KeyValuesIter)
      (hget : iters[i]? = some it)
      (hnext : ChainRel iters it.advance_next_idx c) :
      ChainRel iters (some i) (i :: c)

theorem ChainRel.none_nil {iters : List KeyValuesIter} {c : List Nat}
    (h : ChainRel iters none c) : c = [] := by
  cases h
  rfl

theorem ChainRel.congr {iters iters' : List KeyValuesIter} {head : Option Nat}
    {c : List Nat} (h : ChainRel iters head c)
    (hsame : ∀ i ∈ c, iters'[i]? = iters[i]?) :
    ChainRel iters' head c := by
  induction h with
  | nil => exact .nil
  | cons i c it hget hnext ih =>
    exact .cons i c it (by rw [hsame i (by simp), hget])
      (ih (fun x hx => hsame x (by simp [hx])))

theorem scanLoop_base (iters : List KeyValuesIter) (cursor : Nat) (head : Option Nat)
    (h : ¬ cursor < iters.length) :
    scanLoop iters cursor head = some (.ok (iters, head)) := by
  rw [scanLoop.eq_def, dif_neg h]

theorem scanLoop_peerLost (iters : List KeyValuesIter) (cursor : Nat)
    (head : Option Nat) (h : cursor < iters.length)
    (hst : (iters.get ⟨cursor, h⟩).iter_state = IterState.notReady)
    (hadv : iterAdvance (iters.get ⟨cursor, h⟩).stream = AdvanceOutcome.peerLost) :
    scanLoop iters cursor head = some (.error .backendIterPeerLost) := by
  rw [scanLoop.eq_def, dif_pos h]
  split
  · split
    · rfl
    · rw [hadv] at *; simp_all
    · rw [hadv] at *; simp_all
  · rw [hst] at *; simp_all

theorem scanLoop_noMore (iters : List KeyValuesIter) (cursor : Nat) (head : Option Nat)
    (h : cursor < iters.length)
    (hst : (iters.get ⟨cursor, h⟩).iter_state = IterState.notReady)
    (hadv : iterAdvance (iters.get ⟨cursor, h⟩).stream = AdvanceOutcome.noMoreItems) :
    scanLoop iters cursor head = scanLoop (swapRemove iters cursor) cursor head := by
  rw [scanLoop.eq_def, dif_pos h]
  split
  · split
    · rw [hadv] at *; simp_all
    · rfl
    · rw [hadv] at *; simp_all
  · rw [hst] at *; simp_all

theorem scanLoop_refill (iters : List KeyValuesIter) (cursor : Nat) (head : Option Nat)
    (h : cursor < iters.length) (kv : KeyValuePair) (rest : List KeyValueRef)
    (hst : (iters.get ⟨cursor, h⟩).iter_state = IterState.notReady)
    (hadv : iterAdvance (iters.get ⟨cursor, h⟩).stream = AdvanceOutcome.front kv rest) :
    scanLoop iters cursor head
      = scanLoop
          (iters.set cursor
            { stream := rest, iter_state := .frontItem kv,
              advance_next_idx := (iters.get ⟨cursor, h⟩).advance_next_idx })
          cursor head := by
  rw [scanLoop.eq_def, dif_pos h]
  split
  · split
    · rw [hadv] at *; simp_all
    · rw [hadv] at *; simp_all
    · rw [hadv] at *; simp_all
  · rw [hst] at *; simp_all

theorem scanLoop_first (iters : List KeyValuesIter) (cursor : Nat)
    (h : cursor < iters.length) (kvCur : KeyValuePair)
    (hst : (iters.get ⟨cursor, h⟩).iter_state = IterState.frontItem kvCur) :
    scanLoop iters cursor none
      = scanLoop (setAdvanceNext iters cursor none) (cursor + 1) (some cursor) := by
  rw [scanLoop.eq_def, dif_pos h]
  split
  · rw [hst] at *; simp_all
  · rfl

theorem scanLoop_ltKey (iters : List KeyValuesIter) (cursor : Nat)
    (h : cursor < iters.length) (kvCur : KeyValuePair) (headIdx : Nat)
    (it : KeyValuesIter) (kvMin : KeyValuePair)
    (hst : (iters.get ⟨cursor, h⟩).iter_state = IterState.frontItem kvCur)
    (hget : iters[headIdx]? = some it)
    (hmin : it.iter_state = IterState.frontItem kvMin)
    (hcmp : bytesCmp kvCur.key kvMin.key = .lt) :
    scanLoop iters cursor (some headIdx)
      = scanLoop (setAdvanceNext iters cursor none) (cursor + 1) (some cursor) := by
  rw [scanLoop.eq_def, dif_pos h]
  split
  · rw [hst] at *; simp_all
  · rename_i kvCur' hst'
    rw [hst] at hst'
    injection hst' with hst'
    subst hst'
    simp only []
    split
    · rename_i stream0 kvMin0 adv0 hget'
      rw [hget] at hget'
      injection hget' with hget'
      rw [hget'] at hmin
      simp only [] at hmin
      injection hmin with hmin
      rw [hmin, hcmp]
    · rename_i x hno
      obtain ⟨st0, ist0, adv0⟩ := it
      simp only [] at hmin
      subst hmin
      exact (hno st0 kvMin adv0 hget).elim

theorem scanLoop_eqKey (iters : List KeyValuesIter) (cursor : Nat)
    (h : cursor < iters.length) (kvCur : KeyValuePair) (headIdx : Nat)
    (it : KeyValuesIter) (kvMin : KeyValuePair)
    (hst : (iters.get ⟨cursor, h⟩).iter_state = IterState.frontItem kvCur)
    (hget : iters[headIdx]? = some it)
    (hmin : it.iter_state = IterState.frontItem kvMin)
    (hcmp : bytesCmp kvCur.key kvMin.key = .eq) :
    scanLoop iters cursor (some headIdx)
      = scanLoop (setAdvanceNext iters cursor (some headIdx)) (cursor + 1)
          (some cursor) := by
  rw [scanLoop.eq_def, dif_pos h]
  split
  · rw [hst] at *; simp_all
  · rename_i kvCur' hst'
    rw [hst] at hst'
    injection hst' with hst'
    subst hst'
    simp only []
    split
    · rename_i stream0 kvMin0 adv0 hget'
      rw [hget] at hget'
      injection hget' with hget'
      rw [hget'] at hmin
      simp only [] at hmin
      injection hmin with hmin
      rw [hmin, hcmp]
    · rename_i x hno
      obtain ⟨st0, ist0, adv0⟩ := it
      simp only [] at hmin
      subst hmin
      exact (hno st0 kvMin adv0 hget).elim

theorem scanLoop_gtKey (iters : List KeyValuesIter) (cursor : Nat)
    (h : cursor < iters.length) (kvCur : KeyValuePair) (headIdx : Nat)
    (it : KeyValuesIter) (kvMin : KeyValuePair)
    (hst : (iters.get ⟨cursor, h⟩).iter_state = IterState.frontItem kvCur)
    (hget : iters[headIdx]? = some it)
    (hmin : it.iter_state = IterState.frontItem kvMin)
    (hcmp : bytesCmp kvCur.key kvMin.key = .gt) :
    scanLoop iters cursor (some headIdx)
      = scanLoop iters (cursor + 1) (some headIdx) := by
  rw [scanLoop.eq_def, dif_pos h]
  split
  · rw [hst] at *; simp_all
  · rename_i kvCur' hst'
    rw [hst] at hst'
    injection hst' with hst'
    subst hst'
    simp only []
    split
    · rename_i stream0 kvMin0 adv0 hget'
      rw [hget] at hget'
      injection hget' with hget'
      rw [hget'] at hmin
      simp only [] at hmin
      injection hmin with hmin
      rw [hmin, hcmp]
    · rename_i x hno
      obtain ⟨st0, ist0, adv0⟩ := it
      simp only [] at hmin
      subst hmin
      exact (hno st0 kvMin adv0 hget).elim

theorem ChainRel.some_inv {iters : List KeyValuesIter} {i : Nat} {c : List Nat}
    (h : ChainRel iters (some i) c) :
    ∃ it c', c = i :: c' ∧ iters[i]? = some it
      ∧ ChainRel iters it.advance_next_idx c' := by
  cases h with
  | cons _ c' it hget hnext => exact ⟨it, c', rfl, hget, hnext⟩

theorem frontAt_of_get {iters : List KeyValuesIter} {cursor : Nat}
    (h : cursor < iters.length) {kv : KeyValuePair}
    (hst : (iters.get ⟨cursor, h⟩).iter_state = .frontItem kv) :
    frontAt iters cursor = some kv := by
  apply frontAt_eq_some (List.getElem?_eq_getElem h)
  simpa [List.get_eq_getElem] using hst

theorem frontAt_isSome_elim {l : List KeyValuesIter} {j : Nat}
    (h : (frontAt l j).isSome) :
    ∃ it kv, l[j]? = some it ∧ it.iter_state = IterState.frontItem kv := by
  unfold frontAt at h
  cases hg : l[j]? with
  | none => simp [hg] at h
  | some it =>
    cases hst : it.iter_state with
    | notReady => simp [hg, hst] at h
    | frontItem kv => exact ⟨it, kv, rfl, hst⟩

/-- Invariant-carrying characterization of the scan phase (merger.rs
lines 75-128): starting with every passed position holding a front item
and the advance set equal to `chainFoldAux` over the passed prefix, the
scan either reports a lost backend peer or ends with every iterator
holding a front item and the advance set equal to `chainFoldAux` over
the whole vector. -/
theorem scanLoop_spec (iters : List KeyValuesIter) (cursor : Nat) (head : Option Nat) :
    cursor ≤ iters.length →
    (∀ j, j < cursor → (frontAt iters j).isSome) →
    ChainRel iters head (chainFoldAux (iterKey iters) cursor) →
    (scanLoop iters cursor head = some (.error .backendIterPeerLost)
     ∨ ∃ iters1 head1, scanLoop iters cursor head = some (.ok (iters1, head1))
        ∧ (∀ j, j < iters1.length → (frontAt iters1 j).isSome)
        ∧ ChainRel iters1 head1 (chainFoldAux (iterKey iters1) iters1.length)) := by
  induction iters, cursor, head using scanLoop.induct with
  | case1 iters cursor head h hst hadv =>
    intro hle hseen hchain
    left
    exact scanLoop_peerLost iters cursor head h hst hadv
  | case2 iters cursor head h hst hadv ih =>
    intro hle hseen hchain
    rw [scanLoop_noMore iters cursor head h hst hadv]
    have hne : iters ≠ [] := by intro hnil; subst hnil; simp at h
    have hlen := length_swapRemove iters cursor hne
    have hpres : ∀ j, j < cursor → (swapRemove iters cursor)[j]? = iters[j]? :=
      fun j hj => getElem?_swapRemove_of_lt iters cursor j h hj
    apply ih
    · omega
    · intro j hj
      rw [frontAt_congr (hpres j hj)]
      exact hseen j hj
    · have hkeys : chainFoldAux (iterKey (swapRemove iters cursor)) cursor
          = chainFoldAux (iterKey iters) cursor :=
        chainFoldAux_congr _ _ cursor (fun j hj => iterKey_congr (hpres j hj))
      rw [hkeys]
      exact hchain.congr (fun x hx => hpres x (chainFoldAux_mem_lt _ cursor x hx))
  | case3 iters cursor head h hst kv rest hadv ih =>
    intro hle hseen hchain
    rw [scanLoop_refill iters cursor head h kv rest hst hadv]
    have hpres : ∀ j, j < cursor →
        (iters.set cursor
          { stream := rest, iter_state := .frontItem kv,
            advance_next_idx := (iters.get ⟨cursor, h⟩).advance_next_idx })[j]?
          = iters[j]? := by
      intro j hj
      rw [List.getElem?_set, if_neg (by omega)]
    apply ih
    · simpa using hle
    · intro j hj
      rw [frontAt_congr (hpres j hj)]
      exact hseen j hj
    · have hkeys : chainFoldAux
          (iterKey (iters.set cursor
            { stream := rest, iter_state := .frontItem kv,
              advance_next_idx := (iters.get ⟨cursor, h⟩).advance_next_idx })) cursor
          = chainFoldAux (iterKey iters) cursor :=
        chainFoldAux_congr _ _ cursor (fun j hj => iterKey_congr (hpres j hj))
      rw [hkeys]
      exact hchain.congr (fun x hx => hpres x (chainFoldAux_mem_lt _ cursor x hx))
  | case4 iters cursor h kvCur hst ih =>
    intro hle hseen hchain
    rw [scanLoop_first iters cursor h kvCur hst]
    have hnil : chainFoldAux (iterKey iters) cursor = [] := hchain.none_nil
    have hcur : frontAt iters cursor = some kvCur := frontAt_of_get h hst
    apply ih
    · rw [length_setAdvanceNext]; omega
    · intro j hj
      rw [frontAt_setAdvanceNext]
      by_cases hjc : j = cursor
      · subst hjc; rw [hcur]; rfl
      · exact hseen j (by omega)
    · have hkeys : chainFoldAux (iterKey (setAdvanceNext iters cursor none)) (cursor + 1)
          = chainFoldAux (iterKey iters) (cursor + 1) :=
        chainFoldAux_congr _ _ _ (fun j _ => iterKey_setAdvanceNext iters cursor none j)
      have hstep : chainFoldAux (iterKey iters) (cursor + 1) = [cursor] := by
        simp only [chainFoldAux, hnil]
      rw [hkeys, hstep]
      refine ChainRel.cons cursor []
        { iters.get ⟨cursor, h⟩ with advance_next_idx := none } ?_ ?_
      · rw [getElem?_setAdvanceNext_self, List.getElem?_eq_getElem h]
        rfl
      · exact ChainRel.nil
  | case5 iters cursor h kvCur hst headIdx stream0 kvMin adv0 hget hcmp ih =>
    intro hle hseen hchain
    rw [scanLoop_ltKey iters cursor h kvCur headIdx
      ⟨stream0, .frontItem kvMin, adv0⟩ kvMin hst hget rfl hcmp]
    obtain ⟨it0, c', hC, hget0, hnext0⟩ := hchain.some_inv
    have hkc : iterKey iters cursor = kvCur.key :=
      iterKey_of_frontAt (frontAt_of_get h hst)
    have hkh : iterKey iters headIdx = kvMin.key :=
      iterKey_of_frontAt (frontAt_eq_some hget rfl)
    have hcur : frontAt iters cursor = some kvCur := frontAt_of_get h hst
    apply ih
    · rw [length_setAdvanceNext]; omega
    · intro j hj
      rw [frontAt_setAdvanceNext]
      by_cases hjc : j = cursor
      · subst hjc; rw [hcur]; rfl
      · exact hseen j (by omega)
    · have hkeys : chainFoldAux (iterKey (setAdvanceNext iters cursor none)) (cursor + 1)
          = chainFoldAux (iterKey iters) (cursor + 1) :=
        chainFoldAux_congr _ _ _ (fun j _ => iterKey_setAdvanceNext iters cursor none j)
      have hstep : chainFoldAux (iterKey iters) (cursor + 1) = [cursor] := by
        simp only [chainFoldAux, hC]
        rw [hkc, hkh, hcmp]
      rw [hkeys, hstep]
      refine ChainRel.cons cursor []
        { iters.get ⟨cursor, h⟩ with advance_next_idx := none } ?_ ?_
      · rw [getElem?_setAdvanceNext_self, List.getElem?_eq_getElem h]
        rfl
      · exact ChainRel.nil
  | case6 iters cursor h kvCur hst headIdx stream0 kvMin adv0 hget hcmp ih =>
    intro hle hseen hchain
    rw [scanLoop_eqKey iters cursor h kvCur headIdx
      ⟨stream0, .frontItem kvMin, adv0⟩ kvMin hst hget rfl hcmp]
    obtain ⟨it0, c', hC, hget0, hnext0⟩ := hchain.some_inv
    obtain ⟨helem, hcompl, hsorted⟩ := chainFoldAux_charac _ cursor headIdx c' hC
    have hkc : iterKey iters cursor = kvCur.key :=
      iterKey_of_frontAt (frontAt_of_get h hst)
    have hkh : iterKey iters headIdx = kvMin.key :=
      iterKey_of_frontAt (frontAt_eq_some hget rfl)
    have hcur : frontAt iters cursor = some kvCur := frontAt_of_get h hst
    apply ih
    · rw [length_setAdvanceNext]; omega
    · intro j hj
      rw [frontAt_setAdvanceNext]
      by_cases hjc : j = cursor
      · subst hjc; rw [hcur]; rfl
      · exact hseen j (by omega)
    · have hkeys : chainFoldAux
          (iterKey (setAdvanceNext iters cursor (some headIdx))) (cursor + 1)
          = chainFoldAux (iterKey iters) (cursor + 1) :=
        chainFoldAux_congr _ _ _
          (fun j _ => iterKey_setAdvanceNext iters cursor (some headIdx) j)
      have hstep : chainFoldAux (iterKey iters) (cursor + 1)
          = cursor :: headIdx :: c' := by
        simp only [chainFoldAux, hC]
        rw [hkc, hkh, hcmp]
      rw [hkeys, hstep]
      have hmemlt : ∀ x ∈ headIdx :: c', x < cursor := by
        intro x hx
        exact (helem x hx).1
      have hchain0 : ChainRel iters (some headIdx) (headIdx :: c') := by
        rw [← hC]; exact hchain
      have hchain' : ChainRel (setAdvanceNext iters cursor (some headIdx))
          (some headIdx) (headIdx :: c') := by
        refine hchain0.congr ?_
        intro x hx
        exact getElem?_setAdvanceNext_ne iters cursor x (some headIdx)
          (by have := hmemlt x hx; omega)
      refine ChainRel.cons cursor (headIdx :: c')
        { iters.get ⟨cursor, h⟩ with advance_next_idx := some headIdx } ?_ ?_
      · rw [getElem?_setAdvanceNext_self, List.getElem?_eq_getElem h]
        rfl
      · exact hchain'
  | case7 iters cursor h kvCur hst headIdx stream0 kvMin adv0 hget hcmp ih =>
    intro hle hseen hchain
    rw [scanLoop_gtKey iters cursor h kvCur headIdx
      ⟨stream0, .frontItem kvMin, adv0⟩ kvMin hst hget rfl hcmp]
    obtain ⟨it0, c', hC, hget0, hnext0⟩ := hchain.some_inv
    have hkc : iterKey iters cursor = kvCur.key :=
      iterKey_of_frontAt (frontAt_of_get h hst)
    have hkh : iterKey iters headIdx = kvMin.key :=
      iterKey_of_frontAt (frontAt_eq_some hget rfl)
    have hcur : frontAt iters cursor = some kvCur := frontAt_of_get h hst
    apply ih
    · omega
    · intro j hj
      by_cases hjc : j = cursor
      · subst hjc; rw [hcur]; rfl
      · exact hseen j (by omega)
    · have hstep : chainFoldAux (iterKey iters) (cursor + 1) = headIdx :: c' := by
        simp only [chainFoldAux, hC]
        rw [hkc, hkh, hcmp]
      rw [hstep, ← hC]
      exact hchain
  | case8 iters cursor h kvCur hst headIdx hno =>
    intro hle hseen hchain
    obtain ⟨it0, c', hC, hget0, hnext0⟩ := hchain.some_inv
    obtain ⟨helem, hcompl, hsorted⟩ := chainFoldAux_charac _ cursor headIdx c' hC
    have hhlt : headIdx < cursor := (helem headIdx (by simp)).1
    obtain ⟨it1, kv1, hget1, hst1⟩ := frontAt_isSome_elim (hseen headIdx hhlt)
    obtain ⟨st1, ist1, adv1⟩ := it1
    simp only [] at hst1
    subst hst1
    exact (hno st1 kv1 adv1 hget1).elim
  | case9 iters cursor head h =>
    intro hle hseen hchain
    right
    refine ⟨iters, head, scanLoop_base iters cursor head h, ?_, ?_⟩
    · intro j hj
      exact hseen j (by omega)
    · have hcl : cursor = iters.length := by omega
      rw [← hcl]
      exact hchain

theorem notReady_absurd {iters : List KeyValuesIter} {cursor : Nat}
    (h : cursor < iters.length)
    (hst : (iters.get ⟨cursor, h⟩).iter_state = IterState.notReady)
    (hall : ∀ j, j < iters.length → (frontAt iters j).isSome) : False := by
  obtain ⟨it, kv, hget, hstf⟩ := frontAt_isSome_elim (hall cursor h)
  rw [List.getElem?_eq_getElem h] at hget
  injection hget with hget
  rw [List.get_eq_getElem] at hst
  rw [← hget, hst] at hstf
  cases hstf

/-- When every iterator already holds a front item, the scan phase only
rewrites advance links: length, front items, keys and items are all
unchanged, and the scan neither fails nor panics. -/
theorem scanLoop_preserved (iters : List KeyValuesIter) (cursor : Nat)
    (head : Option Nat) :
    (∀ j, j < iters.length → (frontAt iters j).isSome) →
    (∀ hIdx, head = some hIdx → hIdx < iters.length) →
    ∃ iters1 head1, scanLoop iters cursor head = some (.ok (iters1, head1))
      ∧ iters1.length = iters.length
      ∧ (∀ j, frontAt iters1 j = frontAt iters j)
      ∧ (∀ j, iterKey iters1 j = iterKey iters j)
      ∧ (∀ j, iterItem iters1 j = iterItem iters j) := by
  induction iters, cursor, head using scanLoop.induct with
  | case1 iters cursor head h hst hadv =>
    intro hall hh
    exact (notReady_absurd h hst hall).elim
  | case2 iters cursor head h hst hadv ih =>
    intro hall hh
    exact (notReady_absurd h hst hall).elim
  | case3 iters cursor head h hst kv rest hadv ih =>
    intro hall hh
    exact (notReady_absurd h hst hall).elim
  | case4 iters cursor h kvCur hst ih =>
    intro hall hh
    rw [scanLoop_first iters cursor h kvCur hst]
    obtain ⟨iters1, head1, hrun, hlen, hfa, hik, hii⟩ := ih
      (fun j hj => by
        rw [length_setAdvanceNext] at hj
        rw [frontAt_setAdvanceNext]
        exact hall j hj)
      (fun hIdx he => by
        injection he with he
        subst he
        rw [length_setAdvanceNext]
        exact h)
    exact ⟨iters1, head1, hrun, by rw [hlen, length_setAdvanceNext],
      fun j => by rw [hfa j, frontAt_setAdvanceNext],
      fun j => by rw [hik j, iterKey_setAdvanceNext],
      fun j => by rw [hii j, iterItem_setAdvanceNext]⟩
  | case5 iters cursor h kvCur hst headIdx stream0 kvMin adv0 hget hcmp ih =>
    intro hall hh
    rw [scanLoop_ltKey iters cursor h kvCur headIdx
      ⟨stream0, .frontItem kvMin, adv0⟩ kvMin hst hget rfl hcmp]
    obtain ⟨iters1, head1, hrun, hlen, hfa, hik, hii⟩ := ih
      (fun j hj => by
        rw [length_setAdvanceNext] at hj
        rw [frontAt_setAdvanceNext]
        exact hall j hj)
      (fun hIdx he => by
        injection he with he
        subst he
        rw [length_setAdvanceNext]
        exact h)
    exact ⟨iters1, head1, hrun, by rw [hlen, length_setAdvanceNext],
      fun j => by rw [hfa j, frontAt_setAdvanceNext],
      fun j => by rw [hik j, iterKey_setAdvanceNext],
      fun j => by rw [hii j, iterItem_setAdvanceNext]⟩
  | case6 iters cursor h kvCur hst headIdx stream0 kvMin adv0 hget hcmp ih =>
    intro hall hh
    rw [scanLoop_eqKey iters cursor h kvCur headIdx
      ⟨stream0, .frontItem kvMin, adv0⟩ kvMin hst hget rfl hcmp]
    obtain ⟨iters1, head1, hrun, hlen, hfa, hik, hii⟩ := ih
      (fun j hj => by
        rw [length_setAdvanceNext] at hj
        rw [frontAt_setAdvanceNext]
        exact hall j hj)
      (fun hIdx he => by
        injection he with he
        subst he
        rw [length_setAdvanceNext]
        exact h)
    exact ⟨iters1, head1, hrun, by rw [hlen, length_setAdvanceNext],
      fun j => by rw [hfa j, frontAt_setAdvanceNext],
      fun j => by rw [hik j, iterKey_setAdvanceNext],
      fun j => by rw [hii j, iterItem_setAdvanceNext]⟩
  | case7 iters cursor h kvCur hst headIdx stream0 kvMin adv0 hget hcmp ih =>
    intro hall hh
    rw [scanLoop_gtKey iters cursor h kvCur headIdx
      ⟨stream0, .frontItem kvMin, adv0⟩ kvMin hst hget rfl hcmp]
    exact ih hall hh
  | case8 iters cursor h kvCur hst headIdx hno =>
    intro hall hh
    obtain ⟨it1, kv1, hget1, hst1⟩ := frontAt_isSome_elim (hall headIdx (hh headIdx rfl))
    obtain ⟨st1, ist1, adv1⟩ := it1
    simp only [] at hst1
    subst hst1
    exact (hno st1 kv1 adv1 hget1).elim
  | case9 iters cursor head h =>
    intro hall hh
    exact ⟨iters, head, scanLoop_base iters cursor head h, rfl,
      fun j => rfl, fun j => rfl, fun j => rfl⟩

/-- The drain phase's pure fold over the processed front items (merger.rs
lines 136-148): keep the strictly greater version, report the loser. -/
def drainFold : Option KeyValuePair → List KeyValuePair → List KeyValuePair →
    Option KeyValuePair × List KeyValuePair
  | best, depr, [] => (best, depr)
  | none, depr, x :: xs => drainFold (some x) depr xs
  | some b, depr, x :: xs =>
    if b.value_cell.version < x.value_cell.version then
      drainFold (some x) (depr ++ [b]) xs
    else
      drainFold (some b) (depr ++ [x]) xs

/-- The item the drain phase keeps: the first item (in processing order)
whose version no later item strictly exceeds. -/
def bestOf : KeyValuePair → List KeyValuePair → KeyValuePair
  | b, [] => b
  | b, x :: xs => bestOf (if b.value_cell.version < x.value_cell.version then x else b) xs

theorem drainFold_fst (b : KeyValuePair) (depr xs : List KeyValuePair) :
    (drainFold (some b) depr xs).1 = some (bestOf b xs) := by
  induction xs generalizing b depr with
  | nil => rfl
  | cons x xs ih =>
    simp only [drainFold, bestOf]
    by_cases hv : b.value_cell.version < x.value_cell.version
    · rw [if_pos hv, if_pos hv, ih]
    · rw [if_neg hv, if_neg hv, ih]

theorem drainFold_const (b : KeyValuePair) (depr xs : List KeyValuePair)
    (h : ∀ x ∈ xs, ¬ b.value_cell.version < x.value_cell.version) :
    drainFold (some b) depr xs = (some b, depr ++ xs) := by
  induction xs generalizing depr with
  | nil => simp [drainFold]
  | cons x xs ih =>
    simp only [drainFold]
    rw [if_neg (h x (by simp))]
    rw [ih (depr ++ [x]) (fun y hy => h y (by simp [hy]))]
    simp

theorem drainFold_cons_perm (b : KeyValuePair) (depr xs : List KeyValuePair) :
    (bestOf b xs :: (drainFold (some b) depr xs).2).Perm (b :: (depr ++ xs)) := by
  induction xs generalizing b depr with
  | nil => simp [drainFold, bestOf]
  | cons x xs ih =>
    simp only [drainFold, bestOf]
    by_cases hv : b.value_cell.version < x.value_cell.version
    · rw [if_pos hv, if_pos hv]
      refine (ih x (depr ++ [b])).trans ?_
      have h1 : (depr ++ [b]) ++ xs = depr ++ b :: xs := by simp
      rw [h1]
      refine List.Perm.trans (List.Perm.cons x List.perm_middle) ?_
      refine List.Perm.trans (List.Perm.swap b x _) ?_
      exact List.Perm.cons b List.perm_middle.symm
    · rw [if_neg hv, if_neg hv]
      refine (ih b (depr ++ [x])).trans ?_
      have h1 : (depr ++ [x]) ++ xs = depr ++ x :: xs := by simp
      rw [h1]

theorem bestOf_mem (b : KeyValuePair) (xs : List KeyValuePair) :
    bestOf b xs ∈ b :: xs := by
  induction xs generalizing b with
  | nil => simp [bestOf]
  | cons x xs ih =>
    simp only [bestOf]
    by_cases hv : b.value_cell.version < x.value_cell.version
    · rw [if_pos hv]
      have := ih x
      rcases List.mem_cons.mp this with h | h
      · simp [h]
      · simp [List.mem_cons.mpr (Or.inr (List.mem_cons.mpr (Or.inr h)))]
    · rw [if_neg hv]
      have := ih b
      rcases List.mem_cons.mp this with h | h
      · simp [h]
      · simp [List.mem_cons.mpr (Or.inr (List.mem_cons.mpr (Or.inr h)))]

theorem bestOf_ge (b : KeyValuePair) (xs : List KeyValuePair) :
    ∀ y ∈ b :: xs, y.value_cell.version ≤ (bestOf b xs).value_cell.version := by
  induction xs generalizing b with
  | nil => simp [bestOf]
  | cons x xs ih =>
    intro y hy
    simp only [bestOf]
    by_cases hv : b.value_cell.version < x.value_cell.version
    · rw [if_pos hv]
      rcases List.mem_cons.mp hy with h | h
      · subst h
        have := ih x x (by simp)
        omega
      · exact ih x y h
    · rw [if_neg hv]
      rcases List.mem_cons.mp hy with h | h
      · subst h
        exact ih y y (by simp)
      · rcases List.mem_cons.mp h with h' | h'
        · subst h'
          have := ih b b (by simp)
          omega
        · exact ih b y (by simp [h'])

theorem drainLoop_step (iters : List KeyValuesIter) (i : Nat) (it : KeyValuesIter)
    (kv : KeyValuePair) (best : Option KeyValuePair) (depr : List KeyValuePair)
    (f : Nat) (hget : iters[i]? = some it)
    (hstate : it.iter_state = IterState.frontItem kv) :
    drainLoop iters (some i) best depr (f + 1)
      = match best with
        | none => drainLoop (iters.set i { it with iter_state := .notReady })
            it.advance_next_idx (some kv) depr f
        | some prev_best =>
          if prev_best.value_cell.version < kv.value_cell.version then
            drainLoop (iters.set i { it with iter_state := .notReady })
              it.advance_next_idx (some kv) (depr ++ [prev_best]) f
          else
            drainLoop (iters.set i { it with iter_state := .notReady })
              it.advance_next_idx (some prev_best) (depr ++ [kv]) f := by
  simp only [drainLoop, hget, hstate]

/-- The drain phase (merger.rs lines 130-151) consumes exactly the
advance chain: each linked iterator's front item is taken and its state
reverts to `NotReady`, other iterators are untouched, and the winner and
deprecated report are the pure `drainFold` over the chain's items in
link order. -/
theorem drainLoop_spec (c : List Nat) :
    ∀ (iters : List KeyValuesIter) (head : Option Nat)
      (best : Option KeyValuePair) (depr : List KeyValuePair) (fuel : Nat),
    ChainRel iters head c →
    List.Pairwise (fun a b => b < a) c →
    (∀ i ∈ c, (frontAt iters i).isSome) →
    c.length ≤ fuel →
    ∃ iters2,
      drainLoop iters head best depr fuel
        = some (iters2, drainFold best depr (c.map (iterItem iters)))
      ∧ (∀ j, j ∉ c → iters2[j]? = iters[j]?)
      ∧ (∀ i ∈ c, ∃ it, iters[i]? = some it
          ∧ iters2[i]? = some { it with iter_state := IterState.notReady }) := by
  induction c with
  | nil =>
    intro iters head best depr fuel hchain hdesc hfront hfuel
    have hh : head = none := by cases hchain; rfl
    subst hh
    refine ⟨iters, ?_, fun j _ => rfl, fun i hi => absurd hi (by simp)⟩
    cases fuel <;> cases best <;> rfl
  | cons i c' ih =>
    intro iters head best depr fuel hchain hdesc hfront hfuel
    have hh : head = some i := by cases hchain; rfl
    subst hh
    obtain ⟨it, c'', hc'', hget, hnext⟩ := hchain.some_inv
    injection hc'' with hii hc''
    subst hc''
    obtain ⟨itX, kv, hget1, hstate1⟩ := frontAt_isSome_elim (hfront i (by simp))
    rw [hget] at hget1
    injection hget1 with hget1
    subst hget1
    cases fuel with
    | zero => simp at hfuel
    | succ f =>
      have hflen : c'.length ≤ f := by simpa using hfuel
      have hmemlt : ∀ x ∈ c', x < i := (List.pairwise_cons.mp hdesc).1
      have hdesc' := (List.pairwise_cons.mp hdesc).2
      have hpres : ∀ x, x ≠ i →
          (iters.set i { it with iter_state := IterState.notReady })[x]?
            = iters[x]? := by
        intro x hx
        rw [List.getElem?_set, if_neg (by omega)]
      have hchain' : ChainRel
          (iters.set i { it with iter_state := IterState.notReady })
          it.advance_next_idx c' :=
        hnext.congr (fun x hx => hpres x (by have := hmemlt x hx; omega))
      have hfront' : ∀ x ∈ c',
          (frontAt (iters.set i { it with iter_state := IterState.notReady }) x).isSome := by
        intro x hx
        rw [frontAt_congr (hpres x (by have := hmemlt x hx; omega))]
        exact hfront x (by simp [hx])
      have hitem : iterItem iters i = kv :=
        iterItem_of_frontAt (frontAt_eq_some hget hstate1)
      have hmap : c'.map (iterItem (iters.set i { it with iter_state := IterState.notReady }))
          = c'.map (iterItem iters) :=
        List.map_congr_left
          (fun x hx => iterItem_congr (hpres x (by have := hmemlt x hx; omega)))
      have hilen : i < iters.length := by
        by_contra hcon
        rw [List.getElem?_eq_none (by omega)] at hget
        cases hget
      have hgetN : (iters.set i { it with iter_state := IterState.notReady })[i]?
          = some { it with iter_state := IterState.notReady } := by
        rw [List.getElem?_set]
        simp [hilen]
      have hinotc : i ∉ c' := fun hmem => absurd (hmemlt i hmem) (by omega)
      cases best with
      | none =>
        obtain ⟨iters2, hrun, hout, hin⟩ := ih
          (iters.set i { it with iter_state := IterState.notReady })
          it.advance_next_idx (some kv) depr f hchain' hdesc' hfront' hflen
        refine ⟨iters2, ?_, ?_, ?_⟩
        · rw [drainLoop_step iters i it kv none depr f hget hstate1]
          simp only []
          rw [hrun, hmap]
          simp only [List.map_cons, hitem, drainFold]
        · intro j hj
          have hj1 : j ∉ c' := fun hmem => hj (by simp [hmem])
          have hj2 : j ≠ i := fun he => hj (by simp [he])
          rw [hout j hj1, hpres j hj2]
        · intro x hx
          rcases List.mem_cons.mp hx with hxi | hxc
          · subst hxi
            refine ⟨it, hget, ?_⟩
            rw [hout x hinotc, hgetN]
          · obtain ⟨it', hget', hnr⟩ := hin x hxc
            refine ⟨it', ?_, hnr⟩
            rw [← hpres x (by have := hmemlt x hxc; omega)]
            exact hget'
      | some b =>
        by_cases hv : b.value_cell.version < kv.value_cell.version
        · obtain ⟨iters2, hrun, hout, hin⟩ := ih
            (iters.set i { it with iter_state := IterState.notReady })
            it.advance_next_idx (some kv) (depr ++ [b]) f hchain' hdesc' hfront' hflen
          refine ⟨iters2, ?_, ?_, ?_⟩
          · rw [drainLoop_step iters i it kv (some b) depr f hget hstate1]
            simp only []
            rw [if_pos hv, hrun, hmap]
            simp only [List.map_cons, hitem, drainFold]
            rw [if_pos hv]
          · intro j hj
            have hj1 : j ∉ c' := fun hmem => hj (by simp [hmem])
            have hj2 : j ≠ i := fun he => hj (by simp [he])
            rw [hout j hj1, hpres j hj2]
          · intro x hx
            rcases List.mem_cons.mp hx with hxi | hxc
            · subst hxi
              refine ⟨it, hget, ?_⟩
              rw [hout x hinotc, hgetN]
            · obtain ⟨it', hget', hnr⟩ := hin x hxc
              refine ⟨it', ?_, hnr⟩
              rw [← hpres x (by have := hmemlt x hxc; omega)]
              exact hget'
        · obtain ⟨iters2, hrun, hout, hin⟩ := ih
            (iters.set i { it with iter_state := IterState.notReady })
            it.advance_next_idx (some b) (depr ++ [kv]) f hchain' hdesc' hfront' hflen
          refine ⟨iters2, ?_, ?_, ?_⟩
          · rw [drainLoop_step iters i it kv (some b) depr f hget hstate1]
            simp only []
            rw [if_neg hv, hrun, hmap]
            simp only [List.map_cons, hitem, drainFold]
            rw [if_neg hv]
          · intro j hj
            have hj1 : j ∉ c' := fun hmem => hj (by simp [hmem])
            have hj2 : j ≠ i := fun he => hj (by simp [he])
            rw [hout j hj1, hpres j hj2]
          · intro x hx
            rcases List.mem_cons.mp hx with hxi | hxc
            · subst hxi
              refine ⟨it, hget, ?_⟩
              rw [hout x hinotc, hgetN]
            · obtain ⟨it', hget', hnr⟩ := hin x hxc
              refine ⟨it', ?_, hnr⟩
              rw [← hpres x (by have := hmemlt x hxc; omega)]
              exact hget'

theorem ChainRel.cons_head {iters : List KeyValuesIter} {head : Option Nat}
    {i : Nat} {c : List Nat} (h : ChainRel iters head (i :: c)) : head = some i := by
  cases h
  rfl

theorem chain_nodup {c : List Nat} (h : List.Pairwise (fun a b => b < a) c) :
    c.Nodup :=
  h.imp (fun hab => by omega)

theorem length_le_of_nodup_lt (c : List Nat) (n : Nat) (hnd : c.Nodup)
    (hlt : ∀ x ∈ c, x < n) : c.length ≤ n := by
  have hsub : c.toFinset ⊆ Finset.range n := by
    intro x hx
    simp only [List.mem_toFinset] at hx
    exact Finset.mem_range.mpr (hlt x hx)
  have hcard := Finset.card_le_card hsub
  rw [List.toFinset_card_of_nodup hnd] at hcard
  simpa using hcard

theorem iterItem_key {l : List KeyValuesIter} {j : Nat}
    (h : (frontAt l j).isSome) : (iterItem l j).key = iterKey l j := by
  obtain ⟨it, kv, hget, hst⟩ := frontAt_isSome_elim h
  rw [iterItem_of_frontAt (frontAt_eq_some hget hst),
      iterKey_of_frontAt (frontAt_eq_some hget hst)]

/-- Shared computation for the all-front-items case: the scan turns the
minimum-key positions into the advance chain (`chainFoldAux` over the
whole vector) without touching any front item, and the drain folds that
chain's items with `drainFold`. -/
theorem nextWithDeprecated_allFront (m : ItersMerger)
    (hhead : m.advance_head_idx = none)
    (hne : m.iters ≠ [])
    (hall : ∀ j, j < m.iters.length → (frontAt m.iters j).isSome) :
    ∃ (iters2 : List KeyValuesIter) (i : Nat) (c : List Nat),
      chainFoldAux (iterKey m.iters) m.iters.length = i :: c
      ∧ nextWithDeprecated m
          = some (.ok ({ iters := iters2, advance_head_idx := none },
              drainFold none [] ((i :: c).map (iterItem m.iters)))) := by
  obtain ⟨iters1, head1, hrun, hlen, hfa, hik, hii⟩ :=
    scanLoop_preserved m.iters 0 none hall (fun hIdx he => by cases he)
  have hspec := scanLoop_spec m.iters 0 none (by omega)
    (fun j hj => absurd hj (by omega)) ChainRel.nil
  rcases hspec with herr | ⟨iters1', head1', hrun', hall1, hchain1⟩
  · rw [hrun] at herr
    cases herr
  · rw [hrun] at hrun'
    have hpair : iters1 = iters1' ∧ head1 = head1' := by
      have := hrun'
      simp only [Option.some.injEq, Except.ok.injEq, Prod.mk.injEq] at this
      exact this
    obtain ⟨he1, he2⟩ := hpair
    subst he1
    subst he2
    have hkeq : chainFoldAux (iterKey iters1) iters1.length
        = chainFoldAux (iterKey m.iters) m.iters.length := by
      rw [hlen]
      exact chainFoldAux_congr _ _ _ (fun j _ => hik j)
    have hCne : chainFoldAux (iterKey m.iters) m.iters.length ≠ [] := by
      rw [Ne, chainFoldAux_eq_nil_iff]
      intro h0
      exact hne (List.length_eq_zero.mp h0)
    cases hC : chainFoldAux (iterKey m.iters) m.iters.length with
    | nil => exact absurd hC hCne
    | cons i c =>
      rw [hC] at hkeq
      obtain ⟨helem, hcompl, hsorted⟩ := chainFoldAux_charac _ _ i c hC
      have hchainC : ChainRel iters1 head1 (i :: c) := by
        rw [← hkeq]
        exact hchain1
      have hh1 : head1 = some i := hchainC.cons_head
      subst hh1
      have hfrontC : ∀ x ∈ i :: c, (frontAt iters1 x).isSome := by
        intro x hx
        rw [hfa x]
        exact hall x (helem x hx).1
      have hfuel : (i :: c).length ≤ iters1.length + 1 := by
        have := length_le_of_nodup_lt (i :: c) m.iters.length
          (chain_nodup hsorted) (fun x hx => (helem x hx).1)
        omega
      obtain ⟨iters2, hdrain, hout, hin⟩ := drainLoop_spec (i :: c) iters1 (some i)
        none [] (iters1.length + 1) hchainC hsorted hfrontC hfuel
      have hmap : (i :: c).map (iterItem iters1) = (i :: c).map (iterItem m.iters) :=
        List.map_congr_left (fun x _ => hii x)
      refine ⟨iters2, i, c, rfl, ?_⟩
      rw [show nextWithDeprecated m
          = match scanLoop m.iters 0 none with
            | none => none
            | some (.error e) => some (.error e)
            | some (.ok (iters1, head1)) =>
              match drainLoop iters1 head1 none [] (iters1.length + 1) with
              | none => none
              | some (iters2, best, depr) =>
                some (.ok ({ iters := iters2, advance_head_idx := none }, best, depr))
          from by simp only [nextWithDeprecated, hhead]]
      rw [hrun]
      simp only []
      rw [hdrain, hmap]

/-- C3: when every iterator holds a front item, `next_with_deprecated`
returns an item carrying the minimum front key whose version is maximal
within that equal-key group, and passes each of the group's other items
-- exactly (group size - 1) of them -- exactly once to the `deprecated`
callback. -/
theorem merger_min_key_highest_version (m : ItersMerger)
    (hhead : m.advance_head_idx = none)
    (hne : m.iters ≠ [])
    (hall : ∀ j, j < m.iters.length → (frontAt m.iters j).isSome) :
    ∃ m' best depr,
      nextWithDeprecated m = some (.ok (m', some best, depr))
      ∧ (∀ j, j < m.iters.length → ¬ bytesLt (iterKey m.iters j) best.key)
      ∧ (best :: depr).Perm
          (((List.range m.iters.length).filter
            (fun j => iterKey m.iters j == best.key)).map (iterItem m.iters))
      ∧ (∀ x ∈ depr, x.value_cell.version ≤ best.value_cell.version)
      ∧ depr.length + 1
          = ((List.range m.iters.length).filter
            (fun j => iterKey m.iters j == best.key)).length := by
  obtain ⟨iters2, i, c, hC, heq⟩ := nextWithDeprecated_allFront m hhead hne hall
  obtain ⟨helem, hcompl, hsorted⟩ := chainFoldAux_charac _ _ i c hC
  have hred : drainFold none [] ((i :: c).map (iterItem m.iters))
      = drainFold (some (iterItem m.iters i)) [] (c.map (iterItem m.iters)) := by
    simp only [List.map_cons, drainFold]
  have hfst : drainFold (some (iterItem m.iters i)) [] (c.map (iterItem m.iters))
      = (some (bestOf (iterItem m.iters i) (c.map (iterItem m.iters))),
         (drainFold (some (iterItem m.iters i)) [] (c.map (iterItem m.iters))).2) := by
    rw [← drainFold_fst]
  have hkeyeq : ∀ x ∈ i :: c, iterKey m.iters x = iterKey m.iters i :=
    fun x hx => (bytesCmp_eq_iff _ _).mp (helem x hx).2
  have hitemkey : ∀ x ∈ i :: c, (iterItem m.iters x).key = iterKey m.iters i := by
    intro x hx
    rw [iterItem_key (hall x (helem x hx).1)]
    exact hkeyeq x hx
  have hbestmem : bestOf (iterItem m.iters i) (c.map (iterItem m.iters))
      ∈ iterItem m.iters i :: c.map (iterItem m.iters) := bestOf_mem _ _
  have hbestmem' : bestOf (iterItem m.iters i) (c.map (iterItem m.iters))
      ∈ (i :: c).map (iterItem m.iters) := by
    simpa using hbestmem
  obtain ⟨x0, hx0, hbx0⟩ := List.mem_map.mp hbestmem'
  have hbkey : (bestOf (iterItem m.iters i) (c.map (iterItem m.iters))).key
      = iterKey m.iters i := by
    rw [← hbx0]
    exact hitemkey x0 hx0
  have hperm1 : (bestOf (iterItem m.iters i) (c.map (iterItem m.iters))
        :: (drainFold (some (iterItem m.iters i)) [] (c.map (iterItem m.iters))).2).Perm
      (iterItem m.iters i :: c.map (iterItem m.iters)) := by
    have := drainFold_cons_perm (iterItem m.iters i) [] (c.map (iterItem m.iters))
    simpa using this
  have hpermIdx : (i :: c).Perm
      ((List.range m.iters.length).filter
        (fun j => iterKey m.iters j
          == (bestOf (iterItem m.iters i) (c.map (iterItem m.iters))).key)) := by
    rw [List.perm_ext_iff_of_nodup (chain_nodup hsorted)
      ((List.nodup_range m.iters.length).filter _)]
    intro a
    constructor
    · intro ha
      refine List.mem_filter.mpr ⟨List.mem_range.mpr (helem a ha).1, ?_⟩
      rw [beq_iff_eq, hbkey]
      exact hkeyeq a ha
    · intro ha
      obtain ⟨har, hak⟩ := List.mem_filter.mp ha
      rw [beq_iff_eq, hbkey] at hak
      rcases hcompl a (List.mem_range.mp har) with hmem | hgt
      · exact hmem
      · rw [hak] at hgt
        exact absurd hgt (bytesLt_irrefl _)
  have hperm2 : ((bestOf (iterItem m.iters i) (c.map (iterItem m.iters)))
        :: (drainFold (some (iterItem m.iters i)) [] (c.map (iterItem m.iters))).2).Perm
      (((List.range m.iters.length).filter
        (fun j => iterKey m.iters j
          == (bestOf (iterItem m.iters i) (c.map (iterItem m.iters))).key)).map
        (iterItem m.iters)) := by
    refine hperm1.trans ?_
    have := hpermIdx.map (iterItem m.iters)
    simpa using this
  refine ⟨{ iters := iters2, advance_head_idx := none },
    bestOf (iterItem m.iters i) (c.map (iterItem m.iters)),
    (drainFold (some (iterItem m.iters i)) [] (c.map (iterItem m.iters))).2,
    ?_, ?_, ?_, ?_, ?_⟩
  · rw [heq, hred, hfst]
  · intro j hj
    rcases hcompl j hj with hmem | hgt
    · rw [hbkey, hkeyeq j hmem]
      exact bytesLt_irrefl _
    · rw [hbkey]
      exact bytesLt_asymm hgt
  · exact hperm2
  · intro x hx
    have hxmem : x ∈ iterItem m.iters i :: c.map (iterItem m.iters) :=
      hperm1.mem_iff.mp (by simp [hx])
    exact bestOf_ge _ _ x hxmem
  · have := hperm2.length_eq
    simpa using this

/-- C7: when the minimum-key front items also tie on version, the item
returned comes from the later-added source -- the highest iterator
index in the group -- and every earlier-added source's item is passed to
the `deprecated` callback. -/
theorem merger_version_tie_later_source (m : ItersMerger) (j0 v : Nat)
    (hhead : m.advance_head_idx = none)
    (hne : m.iters ≠ [])
    (hall : ∀ j, j < m.iters.length → (frontAt m.iters j).isSome)
    (hj0 : j0 < m.iters.length)
    (hmin : ∀ x, x < m.iters.length →
      ¬ bytesLt (iterKey m.iters x) (iterKey m.iters j0))
    (htwo : ∃ k, k < m.iters.length ∧ k ≠ j0
      ∧ iterKey m.iters k = iterKey m.iters j0)
    (hver : ∀ x, x < m.iters.length → iterKey m.iters x = iterKey m.iters j0 →
      (iterItem m.iters x).value_cell.version = v) :
    ∃ (m' : ItersMerger) (imax : Nat) (rest : List Nat),
      nextWithDeprecated m
        = some (.ok (m', some (iterItem m.iters imax), rest.map (iterItem m.iters)))
      ∧ imax < m.iters.length
      ∧ iterKey m.iters imax = iterKey m.iters j0
      ∧ (∀ x ∈ rest, x < imax ∧ iterKey m.iters x = iterKey m.iters j0)
      ∧ (∀ x, x < m.iters.length → iterKey m.iters x = iterKey m.iters j0 →
          x = imax ∨ x ∈ rest) := by
  obtain ⟨iters2, i, c, hC, heq⟩ := nextWithDeprecated_allFront m hhead hne hall
  obtain ⟨helem, hcompl, hsorted⟩ := chainFoldAux_charac _ _ i c hC
  have hkeyeq : ∀ x ∈ i :: c, iterKey m.iters x = iterKey m.iters i :=
    fun x hx => (bytesCmp_eq_iff _ _).mp (helem x hx).2
  have hkey0 : iterKey m.iters i = iterKey m.iters j0 := by
    rcases hcompl j0 hj0 with hmem | hgt
    · exact (hkeyeq j0 hmem).symm
    · exact absurd hgt (by
        have := hmin i (helem i (by simp)).1
        intro hcon
        exact this hcon)
  have hkey0' : ∀ x ∈ i :: c, iterKey m.iters x = iterKey m.iters j0 :=
    fun x hx => (hkeyeq x hx).trans hkey0
  have hverc : ∀ x ∈ i :: c, (iterItem m.iters x).value_cell.version = v :=
    fun x hx => hver x (helem x hx).1 (hkey0' x hx)
  have hconst : drainFold (some (iterItem m.iters i)) []
      (c.map (iterItem m.iters))
      = (some (iterItem m.iters i), c.map (iterItem m.iters)) := by
    have h := drainFold_const (iterItem m.iters i) [] (c.map (iterItem m.iters))
      (by
        intro x hx
        obtain ⟨y, hy, hyx⟩ := List.mem_map.mp hx
        rw [← hyx, hverc y (by simp [hy]), hverc i (by simp)]
        omega)
    simpa using h
  have hred : drainFold none [] ((i :: c).map (iterItem m.iters))
      = drainFold (some (iterItem m.iters i)) [] (c.map (iterItem m.iters)) := by
    simp only [List.map_cons, drainFold]
  refine ⟨{ iters := iters2, advance_head_idx := none }, i, c, ?_, ?_, ?_, ?_, ?_⟩
  · rw [heq, hred, hconst]
  · exact (helem i (by simp)).1
  · exact hkey0
  · intro x hx
    exact ⟨(List.pairwise_cons.mp hsorted).1 x hx, hkey0' x (by simp [hx])⟩
  · intro x hxlt hxkey
    rcases hcompl x hxlt with hmem | hgt
    · rcases List.mem_cons.mp hmem with h | h
      · exact Or.inl h
      · exact Or.inr h
    · rw [hxkey, ← hkey0] at hgt
      exact absurd hgt (bytesLt_irrefl _)

/-- Keys of the `Item` elements a stream will yield, in order. -/
def streamKeys : List KeyValueRef → List (List Nat)
  | [] => []
  | .item k _ :: rest => k :: streamKeys rest
  | .noMore :: rest => streamKeys rest
  | .blockFinish _ :: rest => streamKeys rest

/-- All keys an iterator can still produce: its front item's key (when
it holds one) followed by its stream's item keys. -/
def iterKeys (it : KeyValuesIter) : List (List Nat) :=
  (match it.iter_state with
   | .frontItem kv => [kv.key]
   | .notReady => []) ++ streamKeys it.stream

/-- The iterator's remaining keys are strictly ascending. -/
def IterSorted (it : KeyValuesIter) : Prop :=
  List.Pairwise bytesLt (iterKeys it)

/-- Every remaining key of the iterator lies strictly above `k`. -/
def IterAbove (k : List Nat) (it : KeyValuesIter) : Prop :=
  ∀ x ∈ iterKeys it, bytesLt k x

theorem streamKeys_advance_front {s rest : List KeyValueRef} {kv : KeyValuePair}
    (h : iterAdvance s = .front kv rest) :
    streamKeys s = kv.key :: streamKeys rest := by
  induction s with
  | nil => cases h
  | cons a t ih =>
    cases a with
    | noMore => cases h
    | blockFinish br =>
      simp only [iterAdvance] at h
      simp only [streamKeys]
      exact ih h
    | item k vc =>
      simp only [iterAdvance] at h
      injection h with h1 h2
      subst h1
      subst h2
      rfl

theorem mem_swapRemove {l : List KeyValuesIter} {i : Nat} {it : KeyValuesIter}
    (h : it ∈ swapRemove l i) : it ∈ l := by
  unfold swapRemove at h
  cases hg : l.getLast? with
  | none => rw [hg] at h; exact h
  | some lastElem =>
    rw [hg] at h
    have h1 : it ∈ l.set i lastElem := (List.dropLast_sublist _).subset h
    rcases List.mem_or_eq_of_mem_set h1 with h2 | h2
    · exact h2
    · subst h2
      exact List.mem_of_mem_getLast? hg

theorem iterKeys_update_adv (it : KeyValuesIter) (nxt : Option Nat) :
    iterKeys { it with advance_next_idx := nxt } = iterKeys it := rfl

theorem mem_setAdvanceNext {l : List KeyValuesIter} {i : Nat} {nxt : Option Nat}
    {it' : KeyValuesIter} (h : it' ∈ setAdvanceNext l i nxt) :
    ∃ it ∈ l, iterKeys it' = iterKeys it := by
  unfold setAdvanceNext at h
  cases hg : l[i]? with
  | none => rw [hg] at h; exact ⟨it', h, rfl⟩
  | some it0 =>
    rw [hg] at h
    rcases List.mem_or_eq_of_mem_set h with h2 | h2
    · exact ⟨it', h2, rfl⟩
    · subst h2
      exact ⟨it0, List.getElem?_mem hg, iterKeys_update_adv it0 nxt⟩

theorem scanLoop_stuck (iters : List KeyValuesIter) (cursor headIdx : Nat)
    (h : cursor < iters.length) (kvCur : KeyValuePair)
    (hst : (iters.get ⟨cursor, h⟩).iter_state = IterState.frontItem kvCur)
    (hno : ∀ (stream : List KeyValueRef) (kvMin : KeyValuePair)
      (adv : Option Nat),
      iters[headIdx]? = some ⟨stream, .frontItem kvMin, adv⟩ → False) :
    scanLoop iters cursor (some headIdx) = none := by
  rw [scanLoop.eq_def, dif_pos h]
  split
  · rw [hst] at *; simp_all
  · simp only []

/-- The scan phase never invents keys: every iterator it leaves behind
carries the key list of one of the input iterators. -/
theorem scanLoop_keys (iters : List KeyValuesIter) (cursor : Nat)
    (head : Option Nat) :
    ∀ iters1 head1, scanLoop iters cursor head = some (.ok (iters1, head1)) →
    ∀ it' ∈ iters1, ∃ it ∈ iters, iterKeys it' = iterKeys it := by
  induction iters, cursor, head using scanLoop.induct with
  | case1 iters cursor head h hst hadv =>
    intro iters1 head1 hok
    rw [scanLoop_peerLost iters cursor head h hst hadv] at hok
    cases hok
  | case2 iters cursor head h hst hadv ih =>
    intro iters1 head1 hok it' hit'
    rw [scanLoop_noMore iters cursor head h hst hadv] at hok
    obtain ⟨it, hmem, hkeys⟩ := ih iters1 head1 hok it' hit'
    exact ⟨it, mem_swapRemove hmem, hkeys⟩
  | case3 iters cursor head h hst kv rest hadv ih =>
    intro iters1 head1 hok it' hit'
    rw [scanLoop_refill iters cursor head h kv rest hst hadv] at hok
    obtain ⟨it, hmem, hkeys⟩ := ih iters1 head1 hok it' hit'
    rcases List.mem_or_eq_of_mem_set hmem with h2 | h2
    · exact ⟨it, h2, hkeys⟩
    · subst h2
      refine ⟨iters.get ⟨cursor, h⟩, List.get_mem iters cursor h, ?_⟩
      rw [hkeys]
      have hst' : iters[cursor].iter_state = IterState.notReady := by
        simpa [List.get_eq_getElem] using hst
      have hadv' : iterAdvance iters[cursor].stream = AdvanceOutcome.front kv rest := by
        simpa [List.get_eq_getElem] using hadv
      show iterKeys
        { stream := rest, iter_state := .frontItem kv,
          advance_next_idx := (iters.get ⟨cursor, h⟩).advance_next_idx }
        = iterKeys (iters.get ⟨cursor, h⟩)
      simp [iterKeys, hst', streamKeys_advance_front hadv']
  | case4 iters cursor h kvCur hst ih =>
    intro iters1 head1 hok it' hit'
    rw [scanLoop_first iters cursor h kvCur hst] at hok
    obtain ⟨it, hmem, hkeys⟩ := ih iters1 head1 hok it' hit'
    obtain ⟨it0, hmem0, hkeys0⟩ := mem_setAdvanceNext hmem
    exact ⟨it0, hmem0, hkeys.trans hkeys0⟩
  | case5 iters cursor h kvCur hst headIdx stream0 kvMin adv0 hget hcmp ih =>
    intro iters1 head1 hok it' hit'
    rw [scanLoop_ltKey iters cursor h kvCur headIdx
      ⟨stream0, .frontItem kvMin, adv0⟩ kvMin hst hget rfl hcmp] at hok
    obtain ⟨it, hmem, hkeys⟩ := ih iters1 head1 hok it' hit'
    obtain ⟨it0, hmem0, hkeys0⟩ := mem_setAdvanceNext hmem
    exact ⟨it0, hmem0, hkeys.trans hkeys0⟩
  | case6 iters cursor h kvCur hst headIdx stream0 kvMin adv0 hget hcmp ih =>
    intro iters1 head1 hok it' hit'
    rw [scanLoop_eqKey iters cursor h kvCur headIdx
      ⟨stream0, .frontItem kvMin, adv0⟩ kvMin hst hget rfl hcmp] at hok
    obtain ⟨it, hmem, hkeys⟩ := ih iters1 head1 hok it' hit'
    obtain ⟨it0, hmem0, hkeys0⟩ := mem_setAdvanceNext hmem
    exact ⟨it0, hmem0, hkeys.trans hkeys0⟩
  | case7 iters cursor h kvCur hst headIdx stream0 kvMin adv0 hget hcmp ih =>
    intro iters1 head1 hok it' hit'
    rw [scanLoop_gtKey iters cursor h kvCur headIdx
      ⟨stream0, .frontItem kvMin, adv0⟩ kvMin hst hget rfl hcmp] at hok
    exact ih iters1 head1 hok it' hit'
  | case8 iters cursor h kvCur hst headIdx hno =>
    intro iters1 head1 hok
    rw [scanLoop_stuck iters cursor headIdx h kvCur hst hno] at hok
    cases hok
  | case9 iters cursor head h =>
    intro iters1 head1 hok it' hit'
    rw [scanLoop_base iters cursor head h] at hok
    have hpair : iters = iters1 ∧ head = head1 := by
      simpa using hok
    obtain ⟨he1, he2⟩ := hpair
    subst he1
    exact ⟨it', hit', rfl⟩

theorem ChainRel.nil_head {iters : List KeyValuesIter} {head : Option Nat}
    (h : ChainRel iters head []) : head = none := by
  cases h
  rfl

theorem iterKeys_front {it : KeyValuesIter} {kv : KeyValuePair}
    (hst : it.iter_state = .frontItem kv) :
    iterKeys it = kv.key :: streamKeys it.stream := by
  unfold iterKeys
  rw [hst]
  rfl

theorem iterKeys_notReady_update (it : KeyValuesIter) :
    iterKeys { it with iter_state := IterState.notReady }
      = streamKeys it.stream := rfl

/-- C10: with strictly ascending per-source item keys, every successful
call of `next_with_deprecated` leaves the advance list empty -- so the
entry assertion `advance_head_idx.is_none()` of the following call never
fails -- keeps every source's remaining keys strictly ascending, and
pins every remaining key strictly above the returned key; hence the keys
of successive `Ok(Some(..))` results strictly increase and no key is
returned twice. -/
theorem merger_sorted_strictly_increasing (m m' : ItersMerger)
    (best : KeyValuePair) (depr : List KeyValuePair)
    (hsorted : ∀ it ∈ m.iters, IterSorted it)
    (hok : nextWithDeprecated m = some (.ok (m', some best, depr))) :
    m'.advance_head_idx = none
  ∧ (∀ it ∈ m'.iters, IterSorted it)
  ∧ (∀ it ∈ m'.iters, IterAbove best.key it)
  ∧ (∀ K, (∀ it ∈ m.iters, IterAbove K it) → bytesLt K best.key) := by
  cases hh : m.advance_head_idx with
  | some a =>
    rw [show nextWithDeprecated m = none from by
      simp only [nextWithDeprecated, hh]] at hok
    cases hok
  | none =>
    rw [show nextWithDeprecated m
        = match scanLoop m.iters 0 none with
          | none => none
          | some (.error e) => some (.error e)
          | some (.ok (iters1, head1)) =>
            match drainLoop iters1 head1 none [] (iters1.length + 1) with
            | none => none
            | some (iters2, best2, depr2) =>
              some (.ok ({ iters := iters2, advance_head_idx := none }, best2, depr2))
        from by simp only [nextWithDeprecated, hh]] at hok
    cases hscan : scanLoop m.iters 0 none with
    | none => rw [hscan] at hok; cases hok
    | some res =>
      cases res with
      | error e =>
        rw [hscan] at hok
        simp at hok
      | ok pr =>
        obtain ⟨iters1, head1⟩ := pr
        rw [hscan] at hok
        simp only [] at hok
        cases hdrain : drainLoop iters1 head1 none [] (iters1.length + 1) with
        | none => rw [hdrain] at hok; cases hok
        | some tr =>
          obtain ⟨iters2, best2, depr2⟩ := tr
          rw [hdrain] at hok
          simp only [Option.some.injEq, Except.ok.injEq, Prod.mk.injEq] at hok
          obtain ⟨hm', hbest2, hdepr2⟩ := hok
          have hspec := scanLoop_spec m.iters 0 none (by omega)
            (fun j hj => absurd hj (by omega)) ChainRel.nil
          rcases hspec with herr | ⟨iters1', head1', hrun', hall1, hchain1⟩
          · rw [hscan] at herr
            simp at herr
          · rw [hscan] at hrun'
            simp only [Option.some.injEq, Except.ok.injEq, Prod.mk.injEq] at hrun'
            obtain ⟨hi1, hh1⟩ := hrun'
            subst hi1
            subst hh1
            have hkeys1 : ∀ it' ∈ iters1, ∃ it ∈ m.iters, iterKeys it' = iterKeys it :=
              scanLoop_keys m.iters 0 none iters1 head1 hscan
            have hsorted1 : ∀ it' ∈ iters1, IterSorted it' := by
              intro it' hit'
              obtain ⟨it, hmem, hk⟩ := hkeys1 it' hit'
              unfold IterSorted
              rw [hk]
              exact hsorted it hmem
            cases hC : chainFoldAux (iterKey iters1) iters1.length with
            | nil =>
              have hh1n : head1 = none := by
                rw [hC] at hchain1
                exact hchain1.nil_head
              subst hh1n
              have hnildrain : drainLoop iters1 none none [] (iters1.length + 1)
                  = some (iters1, none, []) := rfl
              rw [hnildrain] at hdrain
              simp only [Option.some.injEq, Prod.mk.injEq] at hdrain
              rw [← hdrain.2.1] at hbest2
              cases hbest2
            | cons i c =>
              obtain ⟨helem, hcompl, hdesc⟩ := chainFoldAux_charac _ _ i c hC
              have hchainC : ChainRel iters1 head1 (i :: c) := by
                rw [← hC]
                exact hchain1
              have hh1 : head1 = some i := hchainC.cons_head
              subst hh1
              have hfrontC : ∀ x ∈ i :: c, (frontAt iters1 x).isSome :=
                fun x hx => hall1 x (helem x hx).1
              have hfuel : (i :: c).length ≤ iters1.length + 1 := by
                have := length_le_of_nodup_lt (i :: c) iters1.length
                  (chain_nodup hdesc) (fun x hx => (helem x hx).1)
                omega
              obtain ⟨iters2S, hdrainS, hout, hin⟩ := drainLoop_spec (i :: c) iters1
                (some i) none [] (iters1.length + 1) hchainC hdesc hfrontC hfuel
              rw [hdrainS] at hdrain
              simp only [Option.some.injEq, Prod.mk.injEq] at hdrain
              obtain ⟨hi2, hfold⟩ := hdrain
              subst hi2
              have hfold1 : (drainFold none []
                  ((i :: c).map (iterItem iters1))).1 = best2 := by
                rw [hfold]
              have hred : drainFold none [] ((i :: c).map (iterItem iters1))
                  = drainFold (some (iterItem iters1 i)) []
                      (c.map (iterItem iters1)) := by
                simp only [List.map_cons, drainFold]
              rw [hred, drainFold_fst] at hfold1
              rw [hbest2] at hfold1
              have hb : best = bestOf (iterItem iters1 i) (c.map (iterItem iters1)) := by
                injection hfold1 with hb2
                exact hb2.symm
              have hkeyeq1 : ∀ x ∈ i :: c, iterKey iters1 x = iterKey iters1 i :=
                fun x hx => (bytesCmp_eq_iff _ _).mp (helem x hx).2
              have hbm : best ∈ (i :: c).map (iterItem iters1) := by
                rw [hb]
                simpa using bestOf_mem (iterItem iters1 i) (c.map (iterItem iters1))
              obtain ⟨x0, hx0, hbx0⟩ := List.mem_map.mp hbm
              have hbkey : best.key = iterKey iters1 i := by
                rw [← hbx0, iterItem_key (hall1 x0 (helem x0 hx0).1)]
                exact hkeyeq1 x0 hx0
              subst hm'
              subst hdepr2
              refine ⟨rfl, ?_, ?_, ?_⟩
              · -- sortedness is preserved
                intro it' hit'
                obtain ⟨j, hj⟩ := List.mem_iff_getElem?.mp hit'
                by_cases hjc : j ∈ i :: c
                · obtain ⟨it0, hget0, hnr⟩ := hin j hjc
                  rw [hj] at hnr
                  injection hnr with hnr
                  obtain ⟨it0', kv0, hget0', hst0⟩ :=
                    frontAt_isSome_elim (hall1 j (helem j hjc).1)
                  rw [hget0] at hget0'
                  injection hget0' with hget0'
                  subst hget0'
                  have hsit0 : IterSorted it0 :=
                    hsorted1 it0 (List.getElem?_mem hget0)
                  unfold IterSorted at hsit0 ⊢
                  rw [hnr, iterKeys_notReady_update]
                  rw [iterKeys_front hst0] at hsit0
                  exact (List.pairwise_cons.mp hsit0).2
                · rw [hout j hjc] at hj
                  exact hsorted1 it' (List.getElem?_mem hj)
              · -- everything left sits strictly above the returned key
                intro it' hit'
                obtain ⟨j, hj⟩ := List.mem_iff_getElem?.mp hit'
                by_cases hjc : j ∈ i :: c
                · obtain ⟨it0, hget0, hnr⟩ := hin j hjc
                  rw [hj] at hnr
                  injection hnr with hnr
                  obtain ⟨it0', kv0, hget0', hst0⟩ :=
                    frontAt_isSome_elim (hall1 j (helem j hjc).1)
                  rw [hget0] at hget0'
                  injection hget0' with hget0'
                  subst hget0'
                  have hsit0 : IterSorted it0 :=
                    hsorted1 it0 (List.getElem?_mem hget0)
                  unfold IterSorted at hsit0
                  rw [iterKeys_front hst0] at hsit0
                  have hk0 : kv0.key = iterKey iters1 j := by
                    rw [iterKey_of_frontAt (frontAt_eq_some hget0 hst0)]
                  intro x hx
                  rw [hnr, iterKeys_notReady_update] at hx
                  have hlt0 : bytesLt kv0.key x :=
                    (List.pairwise_cons.mp hsit0).1 x hx
                  rw [hbkey, ← hkeyeq1 j hjc, ← hk0]
                  exact hlt0
                · rw [hout j hjc] at hj
                  have hjlt : j < iters1.length := by
                    by_contra hcon
                    rw [List.getElem?_eq_none (by omega)] at hj
                    cases hj
                  obtain ⟨it0', kvj, hget0', hstj⟩ :=
                    frontAt_isSome_elim (hall1 j hjlt)
                  rw [hj] at hget0'
                  injection hget0' with hget0'
                  subst hget0'
                  have hgt : bytesLt (iterKey iters1 i) (iterKey iters1 j) := by
                    rcases hcompl j hjlt with hmem | hgt
                    · exact absurd hmem hjc
                    · exact hgt
                  have hkj : kvj.key = iterKey iters1 j := by
                    rw [iterKey_of_frontAt (frontAt_eq_some hj hstj)]
                  have hsit : IterSorted it' :=
                    hsorted1 it' (List.getElem?_mem hj)
                  unfold IterSorted at hsit
                  rw [iterKeys_front hstj] at hsit
                  intro x hx
                  rw [iterKeys_front hstj] at hx
                  rcases List.mem_cons.mp hx with hxk | hxk
                  · subst hxk
                    rw [hbkey, hkj]
                    exact hgt
                  · have hlt1 : bytesLt kvj.key x :=
                      (List.pairwise_cons.mp hsit).1 x hxk
                    rw [hbkey]
                    refine bytesLt_trans ?_ hlt1
                    rw [hkj]
                    exact hgt
              · -- the returned key lies strictly above any lower bound
                intro K hK
                have hKall1 : ∀ it' ∈ iters1, IterAbove K it' := by
                  intro it' hit'
                  obtain ⟨it, hmem, hk⟩ := hkeys1 it' hit'
                  unfold IterAbove
                  rw [hk]
                  exact hK it hmem
                obtain ⟨iti, kvi, hgeti, hsti⟩ :=
                  frontAt_isSome_elim (hall1 i (helem i (by simp)).1)
                have hkvi : kvi.key = iterKey iters1 i := by
                  rw [iterKey_of_frontAt (frontAt_eq_some hgeti hsti)]
                have habove := hKall1 iti (List.getElem?_mem hgeti)
                have hmemk : kvi.key ∈ iterKeys iti := by
                  rw [iterKeys_front hsti]
                  simp
                have := habove kvi.key hmemk
                rw [hbkey, ← hkvi]
                exact this

instance (it : KeyValuesIter) : Decidable (IterSorted it) := by
  unfold IterSorted
  infer_instance

instance (k : List Nat) (it : KeyValuesIter) : Decidable (IterAbove k it) := by
  unfold IterAbove
  infer_instance

def c3m : ItersMerger :=
  ⟨[⟨[], .frontItem ⟨[1], ⟨5, 10⟩⟩, none⟩,
    ⟨[], .frontItem ⟨[1], ⟨7, 20⟩⟩, none⟩,
    ⟨[], .frontItem ⟨[2], ⟨1, 30⟩⟩, none⟩], none⟩

theorem merger_min_key_highest_version_witness :
    (c3m.advance_head_idx = none ∧ c3m.iters ≠ []
      ∧ ∀ j, j < c3m.iters.length → (frontAt c3m.iters j).isSome)
  ∧ ∃ m' best depr,
      nextWithDeprecated c3m = some (.ok (m', some best, depr))
      ∧ (∀ j, j < c3m.iters.length → ¬ bytesLt (iterKey c3m.iters j) best.key)
      ∧ (best :: depr).Perm
          (((List.range c3m.iters.length).filter
            (fun j => iterKey c3m.iters j == best.key)).map (iterItem c3m.iters))
      ∧ (∀ x ∈ depr, x.value_cell.version ≤ best.value_cell.version)
      ∧ depr.length + 1
          = ((List.range c3m.iters.length).filter
            (fun j => iterKey c3m.iters j == best.key)).length :=
  ⟨⟨rfl, by decide, by decide⟩,
   merger_min_key_highest_version c3m rfl (by decide) (by decide)⟩

def c7m : ItersMerger :=
  ⟨[⟨[], .frontItem ⟨[1], ⟨5, 10⟩⟩, none⟩,
    ⟨[], .frontItem ⟨[1], ⟨5, 20⟩⟩, none⟩], none⟩

theorem merger_version_tie_later_source_witness :
    (c7m.advance_head_idx = none ∧ c7m.iters ≠ []
      ∧ (∀ j, j < c7m.iters.length → (frontAt c7m.iters j).isSome)
      ∧ 0 < c7m.iters.length
      ∧ (∀ x, x < c7m.iters.length →
          ¬ bytesLt (iterKey c7m.iters x) (iterKey c7m.iters 0))
      ∧ (∃ k, k < c7m.iters.length ∧ k ≠ 0
          ∧ iterKey c7m.iters k = iterKey c7m.iters 0)
      ∧ (∀ x, x < c7m.iters.length → iterKey c7m.iters x = iterKey c7m.iters 0 →
          (iterItem c7m.iters x).value_cell.version = 5))
  ∧ ∃ (m' : ItersMerger) (imax : Nat) (rest : List Nat),
      nextWithDeprecated c7m
        = some (.ok (m', some (iterItem c7m.iters imax),
            rest.map (iterItem c7m.iters)))
      ∧ imax < c7m.iters.length
      ∧ iterKey c7m.iters imax = iterKey c7m.iters 0
      ∧ (∀ x ∈ rest, x < imax ∧ iterKey c7m.iters x = iterKey c7m.iters 0)
      ∧ (∀ x, x < c7m.iters.length → iterKey c7m.iters x = iterKey c7m.iters 0 →
          x = imax ∨ x ∈ rest) :=
  ⟨⟨rfl, by decide, by decide, by decide, by decide, ⟨1, by decide⟩, by decide⟩,
   merger_version_tie_later_source c7m 0 5 rfl (by decide) (by decide) (by decide)
     (by decide) ⟨1, by decide⟩ (by decide)⟩

def c10m : ItersMerger :=
  ⟨[⟨[.item [0] ⟨0, 0⟩, .noMore], .notReady, none⟩], none⟩

def c10best : KeyValuePair := ⟨[0], ⟨0, 0⟩⟩

def c10after : ItersMerger :=
  ⟨[⟨[.noMore], .notReady, none⟩], none⟩

theorem merger_sorted_strictly_increasing_witness :
    (∀ it ∈ c10m.iters, IterSorted it)
  ∧ nextWithDeprecated c10m = some (.ok (c10after, some c10best, []))
  ∧ (c10after.advance_head_idx = none
     ∧ (∀ it ∈ c10after.iters, IterSorted it)
     ∧ (∀ it ∈ c10after.iters, IterAbove c10best.key it)
     ∧ (∀ K, (∀ it ∈ c10m.iters, IterAbove K it) → bytesLt K c10best.key)) :=
  ⟨by decide,
   by simp [nextWithDeprecated, c10m, c10after, c10best, scanLoop, drainLoop,
     iterAdvance, setAdvanceNext, swapRemove],
   merger_sorted_strictly_increasing c10m c10after c10best [] (by decide)
     (by simp [nextWithDeprecated, c10m, c10after, c10best, scanLoop, drainLoop,
       iterAdvance, setAdvanceNext, swapRemove])⟩

end BlockwheelKv
